import Mathlib

/-!
# sci_test: the framed serial reader `TimeoutSerialThread` and its message queue

A shallow embedding of `TimeoutSerialThread.hpp`, `TimeoutSerialThread.cpp` and
`ThreadSafeQueue.hpp`.

* The object state is the record `TimeoutSerialThread`; member functions are functions on it.
* A member function that can let a C++ exception escape returns an `Outcome`; the read loop
  `operator()` proceeds in `Step`s.
* The serial device and the asio reactor are the environment: the device answers the
  synchronous calls through a `Device` record, and every `io_.run_one()` call handles one
  `Event` chosen by the environment.
* `size_t` arithmetic is arithmetic modulo `SIZE_MODULUS`.
-/

namespace SciTest

/-! ## Bytes, sizes and the queue -/

/-- One `char` of a `std::string` or of the `boost::asio::streambuf`. -/
abbrev Byte := UInt8

/-- The payload of one heap-allocated `std::string` handed to the queue. -/
abbrev Message := List Byte

/-- Number of values of `size_t` (64-bit target). -/
def SIZE_MODULUS : Nat := 2 ^ 64

/-- Largest size of a single object (`PTRDIFF_MAX`): `new std::string(count, c)` with a larger
`count` always leaves by an exception (`std::length_error` or `std::bad_alloc`). -/
def MAX_ALLOC : Nat := 2 ^ 63 - 1

/-- The `size_t` subtraction `a - b` (as in `bytesTransferred_ -= delim_.size()`): the result
wraps around modulo `SIZE_MODULUS`. -/
def sizeSub (a b : Nat) : Nat :=
  (a % SIZE_MODULUS + SIZE_MODULUS - b % SIZE_MODULUS) % SIZE_MODULUS

/-- The contents of `ThreadSafeQueue<T>`: the wrapped `std::queue`, front element first.
The mutex and the condition variable only serialise the member functions, each of which is
therefore one atomic function on the contents. -/
structure ThreadSafeQueue (α : Type) where
  /-- The elements of `m_queue`, front first. -/
  m_queue : List α
deriving DecidableEq, Repr

namespace ThreadSafeQueue

variable {α : Type}

/-- Member `ThreadSafeQueue::push(value)`: the element is appended at the back. -/
def push (q : ThreadSafeQueue α) (value : α) : ThreadSafeQueue α :=
  { m_queue := q.m_queue ++ [value] }

/-- Member `ThreadSafeQueue::tryPop(out)`: `none` stands for `false` (and `out` untouched),
`some x` for `true` with `out = x`; the second component is the queue afterwards. -/
def tryPop (q : ThreadSafeQueue α) : Option α × ThreadSafeQueue α :=
  match q.m_queue with
  | [] => (none, q)
  | x :: rest => (some x, { m_queue := rest })

/-- Member `ThreadSafeQueue::empty()`. -/
def empty (q : ThreadSafeQueue α) : Bool :=
  q.m_queue.isEmpty

/-- Member `ThreadSafeQueue::tryPop(T& out)` with the caller's variable `out` made explicit:
the returned boolean, the value of `out` afterwards and the queue afterwards. -/
def tryPopOut (q : ThreadSafeQueue α) (out : α) : Bool × α × ThreadSafeQueue α :=
  match q.m_queue with
  | [] => (false, out, q)
  | x :: rest => (true, x, { m_queue := rest })

/-- Member `ThreadSafeQueue::waitPop(T& out)`: the value of `out` and the queue after the call.
The condition wait returns only on a non-empty queue; `none` says that the call does not
return in this state of the queue. -/
def waitPop (q : ThreadSafeQueue α) (_out : α) : Option (α × ThreadSafeQueue α) :=
  match q.m_queue with
  | [] => none
  | x :: rest => some (x, { m_queue := rest })

/-- Member `ThreadSafeQueue::waitPop(T& out, milliSeconds)`, on the contents `q` that the call
finds when `wait_for` has returned (by notification or after `milliSeconds`): the returned
boolean, the value of `out` afterwards and the queue afterwards. -/
def waitPopTimed (q : ThreadSafeQueue α) (out : α) (_milliSeconds : Nat) :
    Bool × α × ThreadSafeQueue α :=
  match q.m_queue with
  | [] => (false, out, q)
  | x :: rest => (true, x, { m_queue := rest })

/-- Member `ThreadSafeQueue::clear()`. -/
def clear (_q : ThreadSafeQueue α) : ThreadSafeQueue α :=
  { m_queue := [] }

/-- The pop members a consumer may call. -/
inductive Pop where
  /-- The call `tryPop(out)`. -/
  | tryPop
  /-- The call `waitPop(out)`. -/
  | waitPop
  /-- The call `waitPop(out, milliSeconds)`. -/
  | waitPopTimed (milliSeconds : Nat)
deriving DecidableEq, Repr

/-- One call of a pop member: `none` when the call does not return, otherwise whether an
element was delivered, the value of `out` afterwards and the queue afterwards. -/
def popCall (q : ThreadSafeQueue α) (out : α) : Pop → Option (Bool × α × ThreadSafeQueue α)
  | .tryPop => some (q.tryPopOut out)
  | .waitPop =>
    match q.waitPop out with
    | none => none
    | some (x, q') => some (true, x, q')
  | .waitPopTimed ms => some (q.waitPopTimed out ms)

/-- A consumer that makes the given calls one after the other with one variable `out`: the
elements delivered, in the order of the calls, and the queue afterwards. A call that does not
return ends the consumer. -/
def consume : List Pop → α → ThreadSafeQueue α → List α × ThreadSafeQueue α
  | [], _, q => ([], q)
  | k :: ks, out, q =>
    match q.popCall out k with
    | none => ([], q)
    | some (true, x, q') => (x :: (consume ks x q').1, (consume ks x q').2)
    | some (false, x, q') => consume ks x q'

end ThreadSafeQueue

/-! ## The device and the reader object -/

/-- The five settings `open()` applies with `port_.set_option`. -/
inductive PortOption where
  | baud_rate
  | parity
  | character_size
  | flow_control
  | stop_bits
deriving DecidableEq, Repr

/-- The answers of the serial device to the synchronous operations the reader performs on it.
Each field says whether the operation completes (`true`) or reports an error, which
`boost::asio` turns into a thrown `boost::system::system_error` (`false`). -/
structure Device where
  /-- Whether the `k`-th call of `port_.open(devname_)` (counted from 0) acquires the device. -/
  openOk : Nat → Bool
  /-- Whether `port_.close()` completes without an error. -/
  closeOk : Bool
  /-- Whether `port_.set_option` accepts the given setting. -/
  setOptionOk : PortOption → Bool

/-- The values of `enum ReadResult`. `resultUndefined` stands for any value of the enum object
that is none of the four enumerators; no assignment in the source stores one, it exists so that
the `default:` label of the loop has a meaning. -/
inductive ReadResult where
  | resultInProgress
  | resultSuccess
  | resultError
  | resultTimeoutExpired
  | resultUndefined
deriving DecidableEq, Repr

/-- The state of a `TimeoutSerialThread` object, together with the local variable
`lastMessageTime` of `operator()` and the bookkeeping of its asio objects (`io_`, `port_`,
`timer_`). The immutable connection parameters (`devname_`, `baudrate_`, the four option
values) do not influence control flow and are not represented. Durations are in seconds. -/
structure TimeoutSerialThread where
  /-- The value of `port_.is_open()`. -/
  portOpen : Bool
  /-- Number of `port_.open` calls made so far (index of the next answer of the device). -/
  portOpenCalls : Nat
  /-- The settings applied to the current handle, in the order applied. -/
  portOptions : List PortOption
  /-- Number of `async_read_until` operations outstanding on `port_`. -/
  pendingReads : Nat
  /-- The duration last given to `timer_.expires_from_now`, if any. -/
  timerExpiry : Option Nat
  /-- Number of `async_wait` operations outstanding on `timer_`. -/
  timerWaits : Nat
  /-- Number of `timer_.expires_from_now` calls made so far. -/
  timerArmings : Nat
  /-- Whether `io_.stop()` has been called. -/
  ioStopped : Bool
  /-- Number of times `cleanup()` has been entered. -/
  cleanupCalls : Nat
  timeout_ : Nat
  readData_ : List Byte
  result_ : ReadResult
  bytesTransferred_ : Nat
  delim_ : List Byte
  queue_ : ThreadSafeQueue Message
  isAlive_ : Bool
  stopRequested_ : Bool
  /-- The local `lastMessageTime` of `operator()`, seconds since the epoch. -/
  lastMessageTime : Int

/-- The result of a member function that may be left by an exception. -/
inductive Outcome (α : Type) where
  /-- The call returned `value`, leaving the object in state `self`. -/
  | returned (value : α) (self : TimeoutSerialThread)
  /-- An exception propagated to the caller, leaving the object in state `self`. -/
  | raised (self : TimeoutSerialThread)

/-- Where control is after one iteration of the `for (;;)` loop of `operator()`. -/
inductive Step where
  /-- The `switch` ended with `break`: the loop calls `io_.run_one()` again. -/
  | running (self : TimeoutSerialThread)
  /-- A `return` statement was executed: `operator()` has returned. -/
  | returned (self : TimeoutSerialThread)
  /-- An exception left `operator()`. -/
  | raised (self : TimeoutSerialThread)

/-- The object state carried by a step. -/
def Step.state : Step → TimeoutSerialThread
  | .running s => s
  | .returned s => s
  | .raised s => s

/-- Whether the loop goes on to another wait. -/
def Step.isRunning : Step → Bool
  | .running _ => true
  | _ => false

/-- Whether `operator()` has returned. -/
def Step.isReturned : Step → Bool
  | .returned _ => true
  | _ => false

/-- Whether an exception left `operator()`. -/
def Step.isRaised : Step → Bool
  | .raised _ => true
  | _ => false

/-- The step with the contents of the shared queue replaced. -/
def Step.withQueue (q : ThreadSafeQueue Message) : Step → Step
  | .running s => .running { s with queue_ := q }
  | .returned s => .returned { s with queue_ := q }
  | .raised s => .raised { s with queue_ := q }

/-- The object state an outcome leaves. -/
def Outcome.state {α : Type} : Outcome α → TimeoutSerialThread
  | .returned _ s => s
  | .raised s => s

/-- The value a call returned, `none` when it was left by an exception. -/
def Outcome.value? {α : Type} : Outcome α → Option α
  | .returned v _ => some v
  | .raised _ => none

/-- Whether the call was left by an exception. -/
def Outcome.isRaised {α : Type} : Outcome α → Bool
  | .returned _ _ => false
  | .raised _ => true

/-- The enumerator `MESSAGE_TIMEOUT` of `enum Settings`, in seconds. -/
def MESSAGE_TIMEOUT : Int := 360

/-- The duration `boost::posix_time::hours(100000)`, in seconds. -/
def NO_TIMEOUT_FALLBACK : Nat := 100000 * 3600

namespace TimeoutSerialThread

/-- The constructor used for writing: no delimiter, no queue (an empty one stands for the
null pointer), timeout `seconds(0)`. -/
def mkWriter : TimeoutSerialThread :=
  { portOpen := false, portOpenCalls := 0, portOptions := [], pendingReads := 0,
    timerExpiry := none, timerWaits := 0, timerArmings := 0, ioStopped := false,
    cleanupCalls := 0,
    timeout_ := 0, readData_ := [], result_ := .resultInProgress, bytesTransferred_ := 0,
    delim_ := [], queue_ := { m_queue := [] }, isAlive_ := true, stopRequested_ := false,
    lastMessageTime := 0 }

/-- The constructor used for reading: delimiter `delim`, sink `queue`, timeout `seconds(1)`. -/
def mkReader (delim : List Byte) (queue : ThreadSafeQueue Message) : TimeoutSerialThread :=
  { portOpen := false, portOpenCalls := 0, portOptions := [], pendingReads := 0,
    timerExpiry := none, timerWaits := 0, timerArmings := 0, ioStopped := false,
    cleanupCalls := 0,
    timeout_ := 1, readData_ := [], result_ := .resultInProgress, bytesTransferred_ := 0,
    delim_ := delim, queue_ := queue, isAlive_ := true, stopRequested_ := false,
    lastMessageTime := 0 }

/-- Member `isOpen()`. -/
def isOpen (self : TimeoutSerialThread) : Bool :=
  self.portOpen

/-- Member `close()`: `port_.close()` when the port is open. The handle is released and the
operations outstanding on it are dropped whether or not the device reports an error; an
error leaves the function as an exception. -/
def close (dev : Device) (self : TimeoutSerialThread) : Outcome Unit :=
  if self.isOpen then
    let released := { self with portOpen := false, portOptions := [], pendingReads := 0 }
    if dev.closeOk then .returned () released else .raised released
  else
    .returned () self

/-- The loop `do { try { port_.open(devname_); success = true; } catch (...) { --retries; } }
while (!success && retries > 0)` of `open()`, entered with the given value of `retries`.
The result is the final value of `success`. -/
def openAttempts (dev : Device) : Nat → TimeoutSerialThread → Bool × TimeoutSerialThread
  | retries + 2, self =>
    if dev.openOk self.portOpenCalls then
      (true, { self with portOpenCalls := self.portOpenCalls + 1, portOpen := true })
    else
      openAttempts dev (retries + 1) { self with portOpenCalls := self.portOpenCalls + 1 }
  | _, self =>
    if dev.openOk self.portOpenCalls then
      (true, { self with portOpenCalls := self.portOpenCalls + 1, portOpen := true })
    else
      (false, { self with portOpenCalls := self.portOpenCalls + 1 })

/-- The calls `port_.set_option(o)` for the listed settings, in order; the first one the
device rejects throws, and the remaining ones are not made. -/
def setOptions (dev : Device) : List PortOption → TimeoutSerialThread → Outcome Unit
  | [], self => .returned () self
  | o :: rest, self =>
    if dev.setOptionOk o then
      setOptions dev rest { self with portOptions := self.portOptions ++ [o] }
    else
      .raised self

/-- The branch `if (success)` of `open()`: the five `port_.set_option` calls in source order,
then `return true`. -/
def configure (dev : Device) (self : TimeoutSerialThread) : Outcome Bool :=
  match setOptions dev [.baud_rate, .parity, .character_size, .flow_control, .stop_bits] self with
  | .raised s => .raised s
  | .returned _ s => .returned true s

/-- The member `open()`. The name carries an underscore because `open` is reserved. -/
def open_ (dev : Device) (self : TimeoutSerialThread) : Outcome Bool :=
  match (if self.isOpen then self.close dev else .returned () self) with
  | .raised s => .raised s
  | .returned _ s =>
    match openAttempts dev 3 s with
    | (true, s) => configure dev s
    | (false, s) => .returned false s

/-- Member `setTimeout(t)`. -/
def setTimeout (t : Nat) (self : TimeoutSerialThread) : TimeoutSerialThread :=
  { self with timeout_ := t }

/-- Member `writeString(s)`: a completed `boost::asio::write` puts the bytes of `s`, and
nothing else, on the line; `wire` is what the line already carries towards the peer. A failed
write throws; that case is not represented. -/
def writeString (wire : List Byte) (s : List Byte) : List Byte :=
  wire ++ s

/-- Member `requestStop()`. -/
def requestStop (self : TimeoutSerialThread) : TimeoutSerialThread :=
  { self with stopRequested_ := true }

/-- Member `isAlive()`. -/
def isAlive (self : TimeoutSerialThread) : Bool :=
  self.isAlive_

/-- Member `isStopRequested()`. -/
def isStopRequested (self : TimeoutSerialThread) : Bool :=
  self.stopRequested_

/-- Member `setAlive(isAlive)`. -/
def setAlive (isAlive : Bool) (self : TimeoutSerialThread) : TimeoutSerialThread :=
  { self with isAlive_ := isAlive }

/-- Member `asyncReadUntil(delim)`: one more read-until operation is outstanding on the port. -/
def asyncReadUntil (self : TimeoutSerialThread) : TimeoutSerialThread :=
  { self with pendingReads := self.pendingReads + 1 }

/-- Callback `timeoutExpired(error)`; `error` is `true` for a non-zero error code. -/
def timeoutExpired (error : Bool) (self : TimeoutSerialThread) : TimeoutSerialThread :=
  if !error then
    { self with result_ := .resultTimeoutExpired }
  else
    { self with result_ := .resultError }

/-- Callback `readCompleted(error, bytesTransferred)`; `error` is `true` for a non-zero error
code. -/
def readCompleted (error : Bool) (bytesTransferred : Nat) (self : TimeoutSerialThread) :
    TimeoutSerialThread :=
  if !error then
    { self with result_ := .resultSuccess, bytesTransferred_ := bytesTransferred }
  else
    { self with result_ := .resultError }

/-- The call `port_.cancel()`: the operations outstanding on the port are aborted. -/
def portCancel (self : TimeoutSerialThread) : TimeoutSerialThread :=
  { self with pendingReads := 0 }

/-- The call `timer_.cancel()`: the waits outstanding on the timer are aborted. -/
def timerCancel (self : TimeoutSerialThread) : TimeoutSerialThread :=
  { self with timerWaits := 0 }

/-- The call `timer_.expires_from_now(d)`: sets the expiry and aborts the outstanding waits. -/
def timerExpiresFromNow (d : Nat) (self : TimeoutSerialThread) : TimeoutSerialThread :=
  { self with timerExpiry := some d, timerWaits := 0, timerArmings := self.timerArmings + 1 }

/-- The call `timer_.async_wait(...)`: one more wait is outstanding on the timer. -/
def timerAsyncWait (self : TimeoutSerialThread) : TimeoutSerialThread :=
  { self with timerWaits := self.timerWaits + 1 }

/-- Member `cleanup()`: `io_.stop(); port_.cancel(); close(); setAlive(false);`. -/
def cleanup (dev : Device) (self : TimeoutSerialThread) : Outcome Unit :=
  let s := { self with cleanupCalls := self.cleanupCalls + 1, ioStopped := true }
  match (portCancel s).close dev with
  | .raised s => .raised s
  | .returned _ s => .returned () (s.setAlive false)

/-! ## The read loop `operator()` -/

/-- The terminal branches: `cleanup(); return;`. -/
def terminate (dev : Device) (self : TimeoutSerialThread) : Step :=
  match self.cleanup dev with
  | .raised s => .raised s
  | .returned _ s => .returned s

/-- The branch `case resultSuccess:` of the `switch`, with the system clock reading `now`.

`new std::string(bytesTransferred_, '\0')` throws for a size above `MAX_ALLOC`.
`is.read(p, n)` stores the bytes available, up to `n`, leaving the rest of the string at
`'\0'`, and puts the stream in a failed state when fewer than `n` were available;
`is.ignore(k)` discards up to `k` bytes and does nothing on a failed stream. -/
def onSuccess (now : Int) (self : TimeoutSerialThread) : Step :=
  let s := portCancel self
  let s := { s with bytesTransferred_ := sizeSub s.bytesTransferred_ s.delim_.length }
  if MAX_ALLOC < s.bytesTransferred_ then
    .raised s
  else
    let stored := s.readData_.take s.bytesTransferred_
    let resultStr := stored ++ List.replicate (s.bytesTransferred_ - stored.length) (0 : Byte)
    let afterRead := s.readData_.drop s.bytesTransferred_
    let afterIgnore :=
      if s.bytesTransferred_ ≤ s.readData_.length then afterRead.drop s.delim_.length
      else afterRead
    .running (asyncReadUntil
      { s with readData_ := afterIgnore, queue_ := s.queue_.push resultStr,
               lastMessageTime := now, result_ := .resultInProgress, bytesTransferred_ := 0 })

/-- The branch `case resultTimeoutExpired:` of the `switch`, with the system clock reading `now`. -/
def onTimeoutExpired (dev : Device) (now : Int) (self : TimeoutSerialThread) : Step :=
  let s := timerCancel self
  if s.isStopRequested || decide (now - s.lastMessageTime ≥ MESSAGE_TIMEOUT) then
    terminate dev s
  else
    .running
      (timerAsyncWait (timerExpiresFromNow s.timeout_ { s with result_ := .resultInProgress }))

/-- The `switch (result_)` of the loop body, executed after `io_.run_one()` has returned. -/
def handleResult (dev : Device) (now : Int) (self : TimeoutSerialThread) : Step :=
  match self.result_ with
  | .resultSuccess => onSuccess now self
  | .resultTimeoutExpired => onTimeoutExpired dev now self
  | .resultError => terminate dev (timerCancel self)
  | .resultInProgress => .running self
  | .resultUndefined => terminate dev (timerCancel self)

/-- The preamble of `operator()` up to the `for (;;)`, with the system clock reading `now`. -/
def start (now : Int) (self : TimeoutSerialThread) : TimeoutSerialThread :=
  let s :=
    if self.timeout_ ≠ 0 then timerExpiresFromNow self.timeout_ self
    else timerExpiresFromNow NO_TIMEOUT_FALLBACK self
  let s := timerAsyncWait s
  asyncReadUntil { s with lastMessageTime := now, result_ := .resultInProgress,
                          bytesTransferred_ := 0 }

end TimeoutSerialThread

/-! ## The environment: one handler per `io_.run_one()` -/

/-- Modelled from the spec: the search of `boost::asio::async_read_until` (a library function,
not part of the repository), a read that "completes only when the delimiter byte sequence is
found in the stream", reporting a byte count that "always includes the delimiter". The result
is the offset just past the first occurrence of `d` in the buffered bytes, if there is one. -/
def findDelim (d : List Byte) : List Byte → Option Nat
  | [] => if d = [] then some 0 else none
  | b :: bs =>
    if d.isPrefixOf (b :: bs) then some d.length
    else (findDelim d bs).map (· + 1)

/-- What one call of `io_.run_one()` can find to handle. -/
inductive Event where
  /-- The device delivered `chunk` to the outstanding read-until operation (`chunk` is empty
  for the zero-length transfer the operation makes when the delimiter is already buffered). -/
  | bytes (chunk : List Byte)
  /-- The outstanding read-until operation failed. -/
  | readFailed
  /-- The timer expired. -/
  | timerExpired
  /-- The wait on the timer ended with an error code. -/
  | timerFailed
deriving DecidableEq, Repr

namespace TimeoutSerialThread

/-- Modelled from the spec: `io_.run_one()` (the asio reactor, a library function, not part of
the repository) runs the handler of one event. Bytes delivered to the read-until operation
are appended to `readData_`; the operation calls `readCompleted` without error once the
buffer holds the delimiter and stays outstanding otherwise. The other events call
`readCompleted` or `timeoutExpired` directly. -/
def run_one (ev : Event) (self : TimeoutSerialThread) : TimeoutSerialThread :=
  match ev with
  | .bytes chunk =>
    let s := { self with readData_ := self.readData_ ++ chunk }
    match findDelim s.delim_ s.readData_ with
    | some n => readCompleted false n { s with pendingReads := s.pendingReads - 1 }
    | none => s
  | .readFailed => readCompleted true 0 { self with pendingReads := self.pendingReads - 1 }
  | .timerExpired => timeoutExpired false { self with timerWaits := self.timerWaits - 1 }
  | .timerFailed => timeoutExpired true { self with timerWaits := self.timerWaits - 1 }

/-- One iteration of the `for (;;)` loop: `io_.run_one()` handles `ev`, then the `switch`
runs with the system clock reading `now`. -/
def iteration (dev : Device) (ev : Event) (now : Int) (self : TimeoutSerialThread) : Step :=
  handleResult dev now (run_one ev self)

/-- The `for (;;)` loop over a finite schedule of events, each with the clock reading at the
time it is handled; the loop stops at the first iteration that does not `break`. -/
def runLoop (dev : Device) : List (Event × Int) → TimeoutSerialThread → Step
  | [], self => .running self
  | (ev, now) :: rest, self =>
    match iteration dev ev now self with
    | .running s => runLoop dev rest s
    | done => done

/-- The call operator `operator()` started at clock reading `t0` and driven by the given
schedule. -/
def operatorCall (dev : Device) (t0 : Int) (schedule : List (Event × Int))
    (self : TimeoutSerialThread) : Step :=
  runLoop dev schedule (start t0 self)

end TimeoutSerialThread

/-! ## The reader thread and the consumer thread -/

/-- What happens next in a system made of the reader thread and one consumer thread. -/
inductive Action where
  /-- The reader thread runs one loop iteration, handling `ev` at clock reading `now`. -/
  | handle (ev : Event) (now : Int)
  /-- The consumer thread calls `tryPop` on the sink. -/
  | pop
deriving DecidableEq, Repr

/-- The reader, and the messages the consumer has popped so far, oldest first. -/
structure World where
  reader : Step
  received : List Message

/-- One action of either thread. Once `operator()` has been left no event is handled. -/
def World.act (dev : Device) (w : World) : Action → World
  | .handle ev now =>
    match w.reader with
    | .running s => { w with reader := s.iteration dev ev now }
    | _ => w
  | .pop =>
    match w.reader.state.queue_.tryPop with
    | (some m, q) => { reader := w.reader.withQueue q, received := w.received ++ [m] }
    | (none, _) => w

/-- A finite run of the system. -/
def World.run (dev : Device) (acts : List Action) (w : World) : World :=
  acts.foldl (World.act dev) w

/-- Every message that has been in the sink so far: those the consumer has received followed
by those still queued. -/
def World.pushed (w : World) : List Message :=
  w.received ++ w.reader.state.queue_.m_queue

/-- The system when `operator()` has just entered its loop at clock reading `t0` and the
consumer has received nothing yet. -/
def World.init (t0 : Int) (self : TimeoutSerialThread) : World :=
  { reader := .running (self.start t0), received := [] }

/-- The bytes an action delivers to the reader. -/
def Action.chunk : Action → List Byte
  | .handle (.bytes c) _ => c
  | _ => []

/-- The byte stream a run delivers to the reader. -/
def delivered : List Action → List Byte
  | [] => []
  | a :: acts => a.chunk ++ delivered acts

/-- The actions of a run in which the device reports no error and the clock stays within one
liveness window of the start `t0` of `operator()`: data is handled at `t0` or later, and the
timer expires earlier than `MESSAGE_TIMEOUT` seconds after `t0`. -/
def Action.quiet (t0 : Int) : Action → Bool
  | .pop => true
  | .handle (.bytes _) now => decide (t0 ≤ now)
  | .handle .timerExpired now => decide (now < t0 + MESSAGE_TIMEOUT)
  | .handle _ _ => false

/-! ## Streams of delimited messages -/

/-- The stream carrying the messages `ms`, each followed by the delimiter `d`. -/
def frame (d : List Byte) : List Message → List Byte
  | [] => []
  | m :: ms => m ++ d ++ frame d ms

/-- The delimiter `d` occurs in `m ++ d` only as its final bytes: no occurrence starts inside
`m`. -/
def OnlyAtEnd (d m : List Byte) : Prop :=
  ∀ i, i < m.length → ¬ d <+: (m ++ d).drop i

instance (d m : List Byte) : Decidable (OnlyAtEnd d m) := by
  unfold OnlyAtEnd
  infer_instance

/-- The start offsets of all occurrences of `d` in `s`, overlapping ones included. -/
def occurrences (d s : List Byte) : List Nat :=
  (List.range (s.length + 1)).filter (fun i => d.isPrefixOf (s.drop i))

/-- The state in which a Success step that reported `n` bytes leaves the loop when `n` lies
between the delimiter length and the buffer size. -/
def afterSuccess (now : Int) (n : Nat) (self : TimeoutSerialThread) : TimeoutSerialThread :=
  { self with
    pendingReads := 1
    readData_ := self.readData_.drop n
    queue_ := self.queue_.push (self.readData_.take (n - self.delim_.length))
    lastMessageTime := now
    result_ := .resultInProgress
    bytesTransferred_ := 0 }

/-- Invariant of a quiet run over the stream `frame d (done ++ remaining) ++ rest`, the bytes
`todo` of which are still to be delivered: the loop is waiting, the messages `done` are in
the sink or with the consumer, and the buffer holds what was delivered beyond them. -/
def FramedInv (d rest : List Byte) (t0 : Int) (q0 : List Message) (todo : List Byte)
    (done remaining : List Message) (w : World) : Prop :=
  ∃ s, w.reader = .running s ∧ s.result_ = .resultInProgress ∧ s.delim_ = d ∧
    s.stopRequested_ = false ∧ t0 ≤ s.lastMessageTime ∧
    w.received ++ s.queue_.m_queue = q0 ++ done ∧
    s.readData_ ++ todo = frame d remaining ++ rest ∧
    s.readData_.length + todo.length ≤ MAX_ALLOC ∧
    (done = [] → findDelim d s.readData_ = none)

/-! ## Devices used in examples -/

/-- A device every operation of which succeeds. -/
def goodDevice : Device :=
  { openOk := fun _ => true, closeOk := true, setOptionOk := fun _ => true }

/-- A device that can be acquired and closed but rejects the baud-rate setting. -/
def baudRejectingDevice : Device :=
  { openOk := fun _ => true, closeOk := true, setOptionOk := fun o => decide (o ≠ .baud_rate) }

/-- A device that can never be acquired. -/
def absentDevice : Device :=
  { openOk := fun _ => false, closeOk := true, setOptionOk := fun _ => true }

/-- A reader for the delimiter `d` with an empty sink, opened on `goodDevice`. -/
def openedReader (d : List Byte) : TimeoutSerialThread :=
  ((TimeoutSerialThread.mkReader d { m_queue := [] }).open_ goodDevice).state

/-! ## The exits of the loop -/

/-- The conditions under which the `switch` of the loop body runs `cleanup(); return;`: a stop
request or the message timeout at a timer expiry, an error outcome, or an outcome outside the
enumeration. -/
def ExitCondition (now : Int) (s : TimeoutSerialThread) : Prop :=
  (s.result_ = .resultTimeoutExpired ∧
    (s.stopRequested_ = true ∨ now - s.lastMessageTime ≥ MESSAGE_TIMEOUT)) ∨
  s.result_ = .resultError ∨ s.result_ = .resultUndefined

/-! ## The option scanner `GetOpt`

A C string is the list of its characters before the terminating NUL, so `!*p` reads `p = []`.
A `char*` that may be null is an `Option`. -/

/-- Conversion of a `char` to `int`; plain `char` is signed. -/
def charToInt (c : Byte) : Int :=
  if c.toNat < 128 then (c.toNat : Int) else (c.toNat : Int) - 256

/-- Modelled from the spec: the C library function `strchr(s, c)`, a library function, not
part of the repository: the rest of `s` from the first occurrence of `c` on, or a null
pointer when `c` does not occur. -/
def strchr : List Byte → Byte → Option (List Byte)
  | [], _ => none
  | x :: rest, c => if x = c then some (x :: rest) else strchr rest c

/-- The local array `BADCH`, `"?"`. -/
def BADCH : List Byte := [63]

/-- The local array `BADARG`, `";"`. -/
def BADARG : List Byte := [59]

/-- The local array `EMSG`, `""`. -/
def EMSG : List Byte := []

/-- First character of a C string, NUL for the empty string. -/
def deref (p : List Byte) : Byte :=
  p.headD 0

/-- The two lines that `getopt` writes with `printf`. -/
inductive Diagnostic where
  /-- Line `illegal option -- %c`. -/
  | illegalOption (optopt : Int)
  /-- Line `option requires an argument -- %c`. -/
  | requiresArgument (optopt : Int)
deriving DecidableEq, Repr

/-- The public fields of class `GetOpt`, and the lines written to standard output so far. -/
structure GetOpt where
  /-- Field `opterr`. -/
  opterr : Int
  /-- Field `optopt`. -/
  optopt : Int
  /-- Field `optind`, an index into `nargv`. -/
  optind : Nat
  /-- Field `optarg`; `none` is the null pointer. -/
  optarg : Option (List Byte)
  /-- Field `optreset`. -/
  optreset : Int
  /-- Lines written by `printf`, oldest first. -/
  printed : List Diagnostic
deriving DecidableEq, Repr

namespace GetOpt

/-- Constructor `GetOpt::GetOpt()`. -/
def init : GetOpt :=
  { opterr := 1, optopt := 63, optind := 1, optarg := none, optreset := 0, printed := [] }

/-- Lines 44 to 79 of `getopt`, entered with `place` pointing at the character `c` followed by
`rest`; after `*place++` the pointer `place` is at `rest`. The stores `place = EMSG` have no
effect that outlives the call, `place` being a local variable. -/
def scanLetter (nargv : List (List Byte)) (ostr : List Byte) (c : Byte) (rest : List Byte)
    (self : GetOpt) : Int × GetOpt :=
  let self := { self with optopt := charToInt c }
  match (if c = 58 then none else strchr ostr c) with
  | none =>
    if c = 45 then (-1, self)
    else
      let self := if rest = [] then { self with optind := self.optind + 1 } else self
      let self :=
        if self.opterr ≠ 0 ∧ deref ostr ≠ 58 then
          { self with printed := self.printed ++ [.illegalOption self.optopt] }
        else self
      (charToInt (deref BADCH), self)
  | some oli =>
    if deref oli.tail ≠ 58 then
      let self := { self with optarg := none }
      let self := if rest = [] then { self with optind := self.optind + 1 } else self
      (self.optopt, self)
    else
      match rest with
      | _ :: _ => (self.optopt, { self with optarg := some rest, optind := self.optind + 1 })
      | [] =>
        let self := { self with optind := self.optind + 1 }
        match nargv.get? self.optind with
        | none =>
          if deref ostr = 58 then (charToInt (deref BADARG), self)
          else
            let self :=
              if self.opterr ≠ 0 then
                { self with printed := self.printed ++ [.requiresArgument self.optopt] }
              else self
            (charToInt (deref BADCH), self)
        | some arg => (self.optopt, { self with optarg := some arg, optind := self.optind + 1 })

/-- Member `GetOpt::getopt(nargc, nargv, ostr)` with `nargc` the number of elements of `nargv`,
as in `main`: the returned `int` and the object afterwards.

`place` is a local variable initialised to `EMSG` at every call, so the test
`optreset || !*place` holds at every call and the scan starts at the first character of
`nargv[optind]`. -/
def getopt (nargv : List (List Byte)) (ostr : List Byte) (self : GetOpt) : Int × GetOpt :=
  let place := EMSG
  if self.optreset ≠ 0 ∨ place = [] then
    let self := { self with optreset := 0 }
    match nargv.get? self.optind with
    | none => (-1, self)
    | some arg =>
      if deref arg ≠ 45 then (-1, self)
      else if deref arg.tail ≠ 0 ∧ deref arg.tail = 45 then
        (-1, { self with optind := self.optind + 1 })
      else if deref arg.tail ≠ 0 then scanLetter nargv ostr (deref arg.tail) arg.tail.tail self
      else scanLetter nargv ostr (deref arg) arg.tail self
  else scanLetter nargv ostr (deref place) place.tail self

/-- The results of `n` successive calls `getopt(nargc, nargv, ostr)` on one object, and the
object afterwards. -/
def getoptCalls (nargv : List (List Byte)) (ostr : List Byte) : Nat → GetOpt → List Int × GetOpt
  | 0, self => ([], self)
  | n + 1, self =>
    ((getopt nargv ostr self).1 :: (getoptCalls nargv ostr n (getopt nargv ostr self).2).1,
     (getoptCalls nargv ostr n (getopt nargv ostr self).2).2)

end GetOpt

/-! ## The waits of the loop and the operations on the object -/

/-- The state in which the loop waits in `io_.run_one()`: one read-until operation and one
timer wait are outstanding and `result_` is `resultInProgress`. -/
def Waiting (s : TimeoutSerialThread) : Prop :=
  s.pendingReads = 1 ∧ s.timerWaits = 1 ∧ s.result_ = .resultInProgress

instance (s : TimeoutSerialThread) : Decidable (Waiting s) := by
  unfold Waiting
  infer_instance

/-- Whether the event is a transfer of bytes to the read-until operation. -/
def Event.isBytes : Event → Bool
  | .bytes _ => true
  | _ => false

/-- What can happen to a `TimeoutSerialThread` object once it is constructed: a call of a
public member by the owner of the object, a piece of `operator()` run by the reader thread, or
a pop of the consumer on the sink. -/
inductive Operation where
  /-- The call `open()`. -/
  | openPort
  /-- The call `isOpen()`. -/
  | isOpen
  /-- The call `close()`. -/
  | close
  /-- The call `setTimeout(t)`. -/
  | setTimeout (t : Nat)
  /-- A call of `write` or `writeString`. -/
  | write (data : List Byte)
  /-- The call `isAlive()`. -/
  | isAlive
  /-- The call `requestStop()`. -/
  | requestStop
  /-- The preamble of `operator()`, at clock reading `now`. -/
  | enterLoop (now : Int)
  /-- One iteration of the loop of `operator()`, handling `ev` at clock reading `now`. -/
  | iterate (ev : Event) (now : Int)
  /-- The consumer calls `tryPop` on the sink. -/
  | pop
deriving DecidableEq, Repr

/-- The object after one operation; an exception that leaves the operation leaves the object
in the state reached when it was thrown. -/
def TimeoutSerialThread.perform (dev : Device) (self : TimeoutSerialThread) :
    Operation → TimeoutSerialThread
  | .openPort => (self.open_ dev).state
  | .isOpen => self
  | .close => (self.close dev).state
  | .setTimeout t => self.setTimeout t
  | .write _ => self
  | .isAlive => self
  | .requestStop => self.requestStop
  | .enterLoop now => self.start now
  | .iterate ev now => (self.iteration dev ev now).state
  | .pop => { self with queue_ := self.queue_.tryPop.2 }

/-- The object after a sequence of operations, in any order and number. -/
def TimeoutSerialThread.performAll (dev : Device) (ops : List Operation)
    (self : TimeoutSerialThread) : TimeoutSerialThread :=
  ops.foldl (TimeoutSerialThread.perform dev) self

/-! ## Auxiliary facts -/

open TimeoutSerialThread

theorem sizeSub_of_le {a b : Nat} (hba : b ≤ a) (ha : a < SIZE_MODULUS) : sizeSub a b = a - b := by
  unfold sizeSub
  unfold SIZE_MODULUS at *
  omega

theorem sizeSub_of_lt {a b : Nat} (hab : a < b) (hb : b < SIZE_MODULUS) :
    sizeSub a b = a + SIZE_MODULUS - b := by
  unfold sizeSub
  unfold SIZE_MODULUS at *
  omega

theorem handleResult_readCompleted (dev : Device) (now : Int) (self : TimeoutSerialThread)
    (n : Nat) (hdn : self.delim_.length ≤ n) (hnb : n ≤ self.readData_.length)
    (hbuf : self.readData_.length ≤ MAX_ALLOC) :
    handleResult dev now (self.readCompleted false n) = .running (afterSuccess now n self) := by
  have hM : MAX_ALLOC < SIZE_MODULUS := by unfold MAX_ALLOC SIZE_MODULUS; norm_num
  have hsub : sizeSub n self.delim_.length = n - self.delim_.length :=
    sizeSub_of_le hdn (by omega)
  have h1 : ¬ MAX_ALLOC < n - self.delim_.length := by omega
  have h2 : n - self.delim_.length ≤ self.readData_.length := by omega
  have h3 : n - self.delim_.length + self.delim_.length = n := by omega
  simp [handleResult, readCompleted, onSuccess, portCancel, hsub, h1, h2, afterSuccess,
    asyncReadUntil, List.length_take, List.drop_drop, Nat.add_comm, h3]

theorem findDelim_nil (d : List Byte) :
    findDelim d [] = if d = [] then some 0 else none := rfl

theorem findDelim_cons (d : List Byte) (a : Byte) (bs : List Byte) :
    findDelim d (a :: bs) =
      if d.isPrefixOf (a :: bs) then some d.length else (findDelim d bs).map (· + 1) := rfl

theorem isPrefixOf_append_of_length_le (d y x : List Byte) (h : d.length ≤ y.length) :
    d.isPrefixOf (y ++ x) = d.isPrefixOf y := by
  rw [Bool.eq_iff_iff, List.isPrefixOf_iff_prefix, List.isPrefixOf_iff_prefix,
    List.prefix_iff_eq_take, List.prefix_iff_eq_take, List.take_append_of_le_length h]

theorem isPrefixOf_length_le {d y : List Byte} (h : d.isPrefixOf y = true) :
    d.length ≤ y.length := by
  rw [ List.isPrefixOf_iff_prefix] at h
  exact h.length_le

theorem findDelim_bounds {d : List Byte} {b : List Byte} {n : Nat} (h : findDelim d b = some n) :
    d.length ≤ n ∧ n ≤ b.length := by
  induction b generalizing n with
  | nil =>
    rw [findDelim_nil] at h
    split at h
    · simp_all
    · simp at h
  | cons a bs ih =>
    rw [findDelim_cons] at h
    split at h
    · rename_i hp
      have := isPrefixOf_length_le hp
      simp at h
      subst h
      exact ⟨le_refl _, this⟩
    · simp only [Option.map_eq_some'] at h
      obtain ⟨n', hn', rfl⟩ := h
      have := ih hn'
      simp
      omega

theorem findDelim_append_of_some {d b : List Byte} {n : Nat} (x : List Byte)
    (h : findDelim d b = some n) : findDelim d (b ++ x) = some n := by
  induction b generalizing n with
  | nil =>
    rw [findDelim_nil] at h
    split at h
    · rename_i hd
      subst hd
      simp at h
      subst h
      cases x <;> simp [findDelim]
    · simp at h
  | cons a bs ih =>
    have hb := findDelim_bounds h
    have hpre := isPrefixOf_append_of_length_le d (a :: bs) x (by omega)
    rw [findDelim_cons] at h
    rw [List.cons_append, findDelim_cons, ← List.cons_append, hpre]
    split at h
    · rename_i hp
      rw [if_pos hp]
      exact h
    · rename_i hp
      rw [if_neg hp]
      simp only [Option.map_eq_some'] at h
      obtain ⟨n', hn', rfl⟩ := h
      simp [ih hn']

theorem OnlyAtEnd.tail {d : List Byte} {a : Byte} {m : List Byte} (h : OnlyAtEnd d (a :: m)) :
    OnlyAtEnd d m := by
  intro i hi
  have := h (i + 1) (by simpa using hi)
  simpa using this

theorem findDelim_framed {d m : List Byte} (h : OnlyAtEnd d m) (x : List Byte) :
    findDelim d (m ++ d ++ x) = some (m.length + d.length) := by
  induction m with
  | nil =>
    cases hdx : d ++ x with
    | nil =>
      have : d = [] := by
        cases d
        · rfl
        · simp at hdx
      subst this
      simp only [List.nil_append] at hdx
      subst hdx
      simp [findDelim_nil]
    | cons a t =>
      simp only [List.nil_append, hdx, findDelim_cons]
      rw [← hdx]
      have : d.isPrefixOf (d ++ x) = true := by
        rw [ List.isPrefixOf_iff_prefix]
        exact List.prefix_append d x
      simp [this]
  | cons a m ih =>
    have h0 := h 0 (by simp)
    have hpre := isPrefixOf_append_of_length_le d (a :: m ++ d) x (by simp; omega)
    have hnp : d.isPrefixOf (a :: m ++ d) = false := by
      rw [Bool.eq_false_iff]
      intro hp
      rw [ List.isPrefixOf_iff_prefix] at hp
      exact h0 (by simpa using hp)
    rw [hnp] at hpre
    simp only [List.cons_append, List.append_assoc] at hpre ⊢
    rw [findDelim_cons, hpre]
    have := ih h.tail
    simp only [List.append_assoc] at this
    simp [this]
    omega

theorem infix_of_findDelim {d b : List Byte} {n : Nat} (h : findDelim d b = some n) :
    d <:+: b := by
  induction b generalizing n with
  | nil =>
    rw [findDelim_nil] at h
    split at h
    · rename_i hd
      subst hd
      exact List.infix_refl _
    · simp at h
  | cons a bs ih =>
    rw [findDelim_cons] at h
    split at h
    · rename_i hp
      rw [ List.isPrefixOf_iff_prefix] at hp
      exact hp.isInfix
    · simp only [Option.map_eq_some'] at h
      obtain ⟨n', hn', rfl⟩ := h
      exact (ih hn').trans (List.suffix_cons a bs).isInfix

theorem framedInv_bytes_some (dev : Device) {d rest : List Byte} {t0 : Int} {q0 : List Message}
    {todo c : List Byte} {done remaining : List Message} {w : World} {now : Int}
    (hrest : ¬ d <:+: rest) (hms : ∀ m ∈ remaining, OnlyAtEnd d m)
    (h : FramedInv d rest t0 q0 (c ++ todo) done remaining w) (hnow : t0 ≤ now)
    {n : Nat} (hfound : findDelim d (w.reader.state.readData_ ++ c) = some n) :
    ∃ m tl, remaining = m :: tl ∧
      FramedInv d rest t0 q0 todo (done ++ [m]) tl (w.act dev (.handle (.bytes c) now)) := by
  obtain ⟨s, hr, -, hd, hstop, hlast, hq, hbuf, hsize, -⟩ := h
  rw [hr] at hfound
  simp only [Step.state] at hfound
  have hbuf' : (s.readData_ ++ c) ++ todo = frame d remaining ++ rest := by
    rw [List.append_assoc]; exact hbuf
  have hF := findDelim_append_of_some todo hfound
  rw [hbuf'] at hF
  cases remaining with
  | nil =>
    simp only [frame, List.nil_append] at hF
    exact absurd (infix_of_findDelim hF) hrest
  | cons m tl =>
    refine ⟨m, tl, rfl, ?_⟩
    have hm := hms m (List.mem_cons_self _ _)
    have hfr : frame d (m :: tl) ++ rest = m ++ d ++ (frame d tl ++ rest) := by
      simp [frame]
    rw [hfr, findDelim_framed hm] at hF
    have hn : n = m.length + d.length := by simpa using hF.symm
    subst hn
    have hb := findDelim_bounds hfound
    have hsz : (s.readData_ ++ c).length ≤ MAX_ALLOC := by
      simp only [List.length_append] at hsize ⊢
      omega
    have hrun : (run_one (.bytes c) s) =
        readCompleted false (m.length + d.length)
          { s with readData_ := s.readData_ ++ c, pendingReads := s.pendingReads - 1 } := by
      simp only [run_one, hd, hfound]
    have hstep := handleResult_readCompleted dev now
      { s with readData_ := s.readData_ ++ c, pendingReads := s.pendingReads - 1 }
      (m.length + d.length) (by simp [hd]) hb.2 hsz
    have hact : w.act dev (.handle (.bytes c) now) =
        { w with reader := .running (afterSuccess now (m.length + d.length)
          { s with readData_ := s.readData_ ++ c, pendingReads := s.pendingReads - 1 }) } := by
      simp only [World.act, hr, iteration, hrun, hstep]
    rw [hact]
    rw [hfr] at hbuf'
    have htake : (s.readData_ ++ c).take m.length = m := by
      have : ((s.readData_ ++ c) ++ todo).take m.length = m := by
        rw [hbuf', List.append_assoc, List.take_left]
      rwa [List.take_append_of_le_length (by omega)] at this
    have hdrop : (s.readData_ ++ c).drop (m.length + d.length) ++ todo = frame d tl ++ rest := by
      have : ((s.readData_ ++ c) ++ todo).drop (m.length + d.length) = frame d tl ++ rest := by
        rw [hbuf']
        exact List.drop_left' (by simp)
      rwa [List.drop_append_of_le_length hb.2] at this
    refine ⟨_, rfl, rfl, ?_, ?_, ?_, ?_, ?_, ?_, ?_⟩
    · simpa [afterSuccess] using hd
    · simpa [afterSuccess] using hstop
    · simpa [afterSuccess] using hnow
    · simp only [afterSuccess, ThreadSafeQueue.push, hd, Nat.add_sub_cancel, htake]
      rw [← List.append_assoc, hq, List.append_assoc]
    · simpa [afterSuccess] using hdrop
    · simp only [afterSuccess, List.length_drop]
      simp only [List.length_append] at hsize hb ⊢
      omega
    · intro h0
      simp at h0

theorem framedInv_bytes_none (dev : Device) {d rest : List Byte} {t0 : Int} {q0 : List Message}
    {todo c : List Byte} {done remaining : List Message} {w : World} (now : Int)
    (h : FramedInv d rest t0 q0 (c ++ todo) done remaining w)
    (hnone : findDelim d (w.reader.state.readData_ ++ c) = none) :
    FramedInv d rest t0 q0 todo done remaining (w.act dev (.handle (.bytes c) now)) := by
  obtain ⟨s, hr, hres, hd, hstop, hlast, hq, hbuf, hsize, -⟩ := h
  rw [hr] at hnone
  simp only [Step.state] at hnone
  have hrun : run_one (.bytes c) s = { s with readData_ := s.readData_ ++ c } := by
    simp only [run_one, hd, hnone]
  have hact : w.act dev (.handle (.bytes c) now) =
      { w with reader := .running { s with readData_ := s.readData_ ++ c } } := by
    simp only [World.act, hr, iteration, hrun, handleResult, hres]
  rw [hact]
  refine ⟨_, rfl, hres, hd, hstop, hlast, hq, ?_, ?_, fun _ => hnone⟩
  · simpa using hbuf
  · simp only [List.length_append] at hsize ⊢
    omega

theorem framedInv_timerExpired {dev : Device} {d rest : List Byte} {t0 : Int}
    {q0 : List Message} {todo : List Byte} {done remaining : List Message} {w : World}
    {now : Int} (h : FramedInv d rest t0 q0 todo done remaining w)
    (hnow : now < t0 + MESSAGE_TIMEOUT) :
    FramedInv d rest t0 q0 todo done remaining (w.act dev (.handle .timerExpired now)) := by
  obtain ⟨s, hr, hres, hd, hstop, hlast, hq, hbuf, hsize, hfirst⟩ := h
  have hlive : ¬ (now - s.lastMessageTime ≥ MESSAGE_TIMEOUT) := by
    unfold MESSAGE_TIMEOUT at *
    omega
  have hact : w.act dev (.handle .timerExpired now) =
      { w with reader := Step.running ({ s with timerWaits := 1, timerExpiry := some s.timeout_,
                                                timerArmings := s.timerArmings + 1,
                                                result_ := .resultInProgress }) } := by
    simp [World.act, hr, iteration, run_one, timeoutExpired, handleResult, onTimeoutExpired,
      timerCancel, isStopRequested, hstop, hlive, timerAsyncWait, timerExpiresFromNow]
  rw [hact]
  exact ⟨_, rfl, rfl, hd, hstop, hlast, hq, hbuf, hsize, hfirst⟩

theorem framedInv_pop {dev : Device} {d rest : List Byte} {t0 : Int}
    {q0 : List Message} {todo : List Byte} {done remaining : List Message} {w : World}
    (h : FramedInv d rest t0 q0 todo done remaining w) :
    FramedInv d rest t0 q0 todo done remaining (w.act dev .pop) := by
  obtain ⟨s, hr, hres, hd, hstop, hlast, hq, hbuf, hsize, hfirst⟩ := h
  cases hqs : s.queue_.m_queue with
  | nil =>
    have hact : w.act dev .pop = w := by
      simp [World.act, hr, Step.state, ThreadSafeQueue.tryPop, hqs]
    rw [hact]
    exact ⟨s, hr, hres, hd, hstop, hlast, hq, hbuf, hsize, hfirst⟩
  | cons m q =>
    have hact : w.act dev .pop =
        { reader := .running { s with queue_ := { m_queue := q } },
          received := w.received ++ [m] } := by
      simp [World.act, hr, Step.state, ThreadSafeQueue.tryPop, hqs, Step.withQueue]
    rw [hact]
    refine ⟨_, rfl, hres, hd, hstop, hlast, ?_, hbuf, hsize, hfirst⟩
    rw [hqs] at hq
    simpa using hq

/-- A quiet run keeps the invariant: the messages pushed are always an initial segment of
the messages framed in the stream. -/
theorem framedInv_run (dev : Device) {d rest : List Byte} {t0 : Int} {q0 : List Message}
    (hrest : ¬ d <:+: rest) (acts : List Action) (hquiet : ∀ a ∈ acts, a.quiet t0 = true) :
    ∀ (done remaining : List Message) (w : World) (todo : List Byte),
      (∀ m ∈ remaining, OnlyAtEnd d m) →
      FramedInv d rest t0 q0 (delivered acts ++ todo) done remaining w →
      ∃ done' remaining', done' ++ remaining' = done ++ remaining ∧
        (∀ m ∈ remaining', OnlyAtEnd d m) ∧
        FramedInv d rest t0 q0 todo done' remaining' (World.run dev acts w) := by
  induction acts with
  | nil =>
    intro done remaining w todo hms h
    exact ⟨done, remaining, rfl, hms, by simpa [delivered, World.run] using h⟩
  | cons a acts ih =>
    intro done remaining w todo hms h
    have hq := hquiet a (List.mem_cons_self _ _)
    have hquiet' : ∀ a ∈ acts, a.quiet t0 = true :=
      fun b hb => hquiet b (List.mem_cons_of_mem _ hb)
    have hrun : World.run dev (a :: acts) w = World.run dev acts (w.act dev a) := rfl
    rw [hrun]
    cases a with
    | pop =>
      have h' : FramedInv d rest t0 q0 (delivered acts ++ todo) done remaining w := by
        simpa [delivered, Action.chunk] using h
      exact ih hquiet' done remaining _ todo hms (framedInv_pop h')
    | handle ev now =>
      cases ev with
      | bytes c =>
        have hnow : t0 ≤ now := by simpa [Action.quiet] using hq
        have h' : FramedInv d rest t0 q0 (c ++ (delivered acts ++ todo)) done remaining w := by
          simpa [delivered, Action.chunk] using h
        cases hf : findDelim d (w.reader.state.readData_ ++ c) with
        | none => exact ih hquiet' done remaining _ todo hms (framedInv_bytes_none dev now h' hf)
        | some n =>
          obtain ⟨m, tl, rfl, hinv⟩ := framedInv_bytes_some dev hrest hms h' hnow hf
          obtain ⟨done', remaining', heq, hms', hfin⟩ :=
            ih hquiet' (done ++ [m]) tl _ todo
              (fun x hx => hms x (List.mem_cons_of_mem _ hx)) hinv
          exact ⟨done', remaining', by simpa using heq, hms', hfin⟩
      | timerExpired =>
        have hnow : now < t0 + MESSAGE_TIMEOUT := by simpa [Action.quiet] using hq
        have h' : FramedInv d rest t0 q0 (delivered acts ++ todo) done remaining w := by
          simpa [delivered, Action.chunk] using h
        exact ih hquiet' done remaining _ todo hms (framedInv_timerExpired h' hnow)
      | readFailed => simp [Action.quiet] at hq
      | timerFailed => simp [Action.quiet] at hq

theorem framedInv_init {d : List Byte} (rest : List Byte) (ms : List Message) (hd : d ≠ [])
    {self : TimeoutSerialThread} (hdelim : self.delim_ = d) (hfresh : self.readData_ = [])
    (hstop : self.stopRequested_ = false) (t0 : Int)
    (hsize : (frame d ms ++ rest).length ≤ MAX_ALLOC) :
    FramedInv d rest t0 self.queue_.m_queue (frame d ms ++ rest) [] ms (World.init t0 self) := by
  refine ⟨start t0 self, rfl, ?_, ?_, ?_, ?_, ?_, ?_, ?_, ?_⟩
  · simp [start, asyncReadUntil]
  · simpa [start, asyncReadUntil, timerAsyncWait, timerExpiresFromNow, apply_ite] using hdelim
  · simpa [start, asyncReadUntil, timerAsyncWait, timerExpiresFromNow, apply_ite] using hstop
  · simp [start, asyncReadUntil]
  · simp [World.init, start, asyncReadUntil, timerAsyncWait, timerExpiresFromNow, apply_ite]
  · simp [start, asyncReadUntil, timerAsyncWait, timerExpiresFromNow, apply_ite, hfresh]
  · simpa [start, asyncReadUntil, timerAsyncWait, timerExpiresFromNow, apply_ite, hfresh]
      using hsize
  · intro _
    simp [start, asyncReadUntil, timerAsyncWait, timerExpiresFromNow, apply_ite, hfresh,
      findDelim_nil, hd]

theorem quiet_run_framed (dev : Device) (d rest : List Byte) (ms : List Message) (hd : d ≠ [])
    (hms : ∀ m ∈ ms, OnlyAtEnd d m) (hrest : ¬ d <:+: rest)
    {self : TimeoutSerialThread} (hdelim : self.delim_ = d) (hfresh : self.readData_ = [])
    (hstop : self.stopRequested_ = false) (t0 : Int) (acts : List Action)
    (hquiet : ∀ a ∈ acts, a.quiet t0 = true) (hdata : delivered acts = frame d ms ++ rest)
    (hsize : (frame d ms ++ rest).length ≤ MAX_ALLOC) :
    ∃ done remaining, done ++ remaining = ms ∧ (∀ m ∈ remaining, OnlyAtEnd d m) ∧
      FramedInv d rest t0 self.queue_.m_queue [] done remaining
        (World.run dev acts (World.init t0 self)) := by
  have h0 := framedInv_init rest ms hd hdelim hfresh hstop t0 hsize
  rw [← hdata] at h0
  have := framedInv_run dev hrest acts hquiet [] ms (World.init t0 self) [] hms
    (by simpa using h0)
  simpa using this

/-- With nothing left to deliver, every further zero-length completion pushes the next
buffered message until none is left. -/
theorem framedInv_drain (dev : Device) {d rest : List Byte} {t0 : Int} {q0 : List Message}
    (hrest : ¬ d <:+: rest) (t : Int) (ht : t0 ≤ t) :
    ∀ (j : Nat) (done remaining : List Message) (w : World),
      remaining.length ≤ j → (∀ m ∈ remaining, OnlyAtEnd d m) →
      FramedInv d rest t0 q0 [] done remaining w →
      FramedInv d rest t0 q0 [] (done ++ remaining) []
        (World.run dev (List.replicate j (.handle (.bytes []) t)) w) := by
  intro j
  induction j with
  | zero =>
    intro done remaining w hlen _ h
    have : remaining = [] := List.length_eq_zero.mp (Nat.le_zero.mp hlen)
    subst this
    simpa [World.run] using h
  | succ j ih =>
    intro done remaining w hlen hms h
    have hrun : World.run dev (List.replicate (j + 1) (.handle (.bytes []) t)) w =
        World.run dev (List.replicate j (.handle (.bytes []) t))
          (w.act dev (.handle (.bytes []) t)) := rfl
    rw [hrun]
    have h' : FramedInv d rest t0 q0 ([] ++ []) done remaining w := by simpa using h
    cases hf : findDelim d (w.reader.state.readData_ ++ []) with
    | some n =>
      obtain ⟨m, tl, rfl, hinv⟩ := framedInv_bytes_some dev hrest hms h' ht hf
      have := ih (done ++ [m]) tl _ (by simpa using hlen)
        (fun x hx => hms x (List.mem_cons_of_mem _ hx)) hinv
      simpa using this
    | none =>
      cases remaining with
      | nil =>
        have := ih done [] _ (Nat.zero_le _) hms (framedInv_bytes_none dev t h' hf)
        simpa using this
      | cons m tl =>
        exfalso
        obtain ⟨s, hr, -, -, -, -, -, hbuf, -, -⟩ := h
        rw [hr] at hf
        simp only [Step.state, List.append_nil] at hf hbuf
        rw [hbuf] at hf
        have hfr : frame d (m :: tl) ++ rest = m ++ d ++ (frame d tl ++ rest) := by
          simp [frame]
        rw [hfr, findDelim_framed (hms m (List.mem_cons_self _ _))] at hf
        simp at hf

theorem World.run_append (dev : Device) (a b : List Action) (w : World) :
    World.run dev (a ++ b) w = World.run dev b (World.run dev a w) := by
  simp [World.run, List.foldl_append]

theorem mem_occurrences {d s : List Byte} {i : Nat} :
    i ∈ occurrences d s ↔ i ≤ s.length ∧ d <+: s.drop i := by
  simp [occurrences, List.mem_filter, List.mem_range, Nat.lt_succ_iff]

theorem unique_occurrence_split {d s : List Byte} (hd : d ≠ [])
    (h : (occurrences d s).length = 1) :
    ∃ pre post, s = pre ++ d ++ post ∧ OnlyAtEnd d pre ∧ ¬ d <:+: post ∧ ¬ d <:+: pre := by
  obtain ⟨i, hi⟩ := List.length_eq_one.mp h
  have hdl : 0 < d.length := List.length_pos.mpr hd
  have huniq : ∀ j, j ≤ s.length → d <+: s.drop j → j = i := by
    intro j hj hp
    have : j ∈ occurrences d s := mem_occurrences.mpr ⟨hj, hp⟩
    rw [hi] at this
    simpa using this
  have hmem : i ∈ occurrences d s := by rw [hi]; simp
  obtain ⟨hil, post, hpost⟩ := mem_occurrences.mp hmem
  have hs : s = s.take i ++ d ++ post := by
    rw [List.append_assoc, hpost, List.take_append_drop]
  have hlen : (s.take i).length = i := by simp [hil]
  refine ⟨s.take i, post, hs, ?_, ?_, ?_⟩
  · intro j hj hp
    rw [hlen] at hj
    have hp' : d <+: s.drop j := by
      rw [hs, List.drop_append_of_le_length (by simp [hlen]; omega)]
      exact hp.trans (List.prefix_append _ _)
    have := huniq j (by omega) hp'
    omega
  · rintro ⟨a, b, hab⟩
    have hp' : d <+: s.drop (i + d.length + a.length) := by
      rw [hs, ← hab]
      have : (s.take i ++ d ++ (a ++ d ++ b)) = (s.take i ++ d ++ a) ++ (d ++ b) := by simp
      rw [this, List.drop_left' (by simp [hlen]; omega)]
      exact List.prefix_append _ _
    have hle : i + d.length + a.length ≤ s.length := by
      have := congrArg List.length hs
      rw [← hab] at this
      simp [hlen] at this
      omega
    have := huniq _ hle hp'
    omega
  · rintro ⟨a, b, hab⟩
    have hp' : d <+: s.drop a.length := by
      rw [hs, ← hab]
      have : (a ++ d ++ b ++ d ++ post) = a ++ (d ++ (b ++ d ++ post)) := by simp
      rw [this, List.drop_left]
      exact List.prefix_append _ _
    have hal : a.length + d.length + b.length = i := by
      have := congrArg List.length hab
      simp [hlen] at this
      omega
    have := huniq a.length (by omega) hp'
    omega

theorem Step.state_withQueue (q : ThreadSafeQueue Message) (r : Step) :
    (r.withQueue q).state.queue_ = q := by
  cases r <;> rfl

theorem World.received_run_pops (dev : Device) :
    ∀ (j : Nat) (w : World), w.reader.state.queue_.m_queue.length ≤ j →
      (World.run dev (List.replicate j .pop) w).received = w.pushed := by
  intro j
  induction j with
  | zero =>
    intro w h
    have : w.reader.state.queue_.m_queue = [] := List.length_eq_zero.mp (Nat.le_zero.mp h)
    simp [World.run, World.pushed, this]
  | succ j ih =>
    intro w h
    have hrun : World.run dev (List.replicate (j + 1) .pop) w =
        World.run dev (List.replicate j .pop) (w.act dev .pop) := rfl
    rw [hrun]
    cases hq : w.reader.state.queue_.m_queue with
    | nil =>
      have hact : w.act dev .pop = w := by
        simp [World.act, ThreadSafeQueue.tryPop, hq]
      rw [hact, ih w (by simp [hq])]
    | cons m q =>
      have hact : w.act dev .pop =
          { reader := w.reader.withQueue { m_queue := q }, received := w.received ++ [m] } := by
        simp [World.act, ThreadSafeQueue.tryPop, hq]
      rw [hact, ih _ (by
        rw [hq] at h
        simpa [Step.state_withQueue] using h)]
      simp [World.pushed, Step.state_withQueue, hq]

theorem cleanup_of_closeOk (dev : Device) (hclose : dev.closeOk = true)
    (s : TimeoutSerialThread) :
    ∃ s', terminate dev s = .returned s' ∧ s'.portOpen = false ∧ s'.isAlive_ = false ∧
      s'.queue_ = s.queue_ ∧ s'.cleanupCalls = s.cleanupCalls + 1 ∧
      s'.timerWaits = s.timerWaits ∧ s'.ioStopped = true ∧ s'.pendingReads = 0 := by
  cases hp : s.portOpen <;>
    simp [terminate, cleanup, close, isOpen, portCancel, setAlive, hp, hclose]

theorem terminate_spec (dev : Device) (s : TimeoutSerialThread) :
    (terminate dev s).isRunning = false ∧ (terminate dev s).state.isOpen = false ∧
    (terminate dev s).state.queue_ = s.queue_ ∧
    (terminate dev s).state.cleanupCalls = s.cleanupCalls + 1 ∧
    (terminate dev s).state.timerWaits = s.timerWaits := by
  cases hp : s.portOpen <;> cases hc : dev.closeOk <;>
    simp [terminate, cleanup, close, isOpen, portCancel, setAlive, hp, hc, Step.isRunning,
      Step.state]

theorem terminate_not_running (dev : Device) (s : TimeoutSerialThread) :
    (terminate dev s).isRunning = false ∧ (terminate dev s).state.queue_ = s.queue_ := by
  cases hp : s.portOpen <;> cases hc : dev.closeOk <;>
    simp [terminate, cleanup, close, isOpen, portCancel, setAlive, hp, hc, Step.isRunning,
      Step.state]

theorem terminate_stopRequested (dev : Device) (s : TimeoutSerialThread) :
    (terminate dev s).state.stopRequested_ = s.stopRequested_ := by
  cases hp : s.portOpen <;> cases hc : dev.closeOk <;>
    simp [terminate, cleanup, close, isOpen, portCancel, setAlive, hp, hc, Step.state]

theorem handleResult_stopRequested (dev : Device) (now : Int) (s : TimeoutSerialThread) :
    (handleResult dev now s).state.stopRequested_ = s.stopRequested_ := by
  cases hres : s.result_
  · simp [handleResult, hres, Step.state]
  · simp only [handleResult, hres, onSuccess]
    split <;> simp [Step.state, portCancel, asyncReadUntil]
  · simp [handleResult, hres, terminate_stopRequested, timerCancel]
  · simp only [handleResult, hres, onTimeoutExpired]
    split
    · simp [terminate_stopRequested, timerCancel]
    · simp [Step.state, timerAsyncWait, timerExpiresFromNow, timerCancel]
  · simp [handleResult, hres, terminate_stopRequested, timerCancel]

theorem run_one_stopRequested (ev : Event) (s : TimeoutSerialThread) :
    (run_one ev s).stopRequested_ = s.stopRequested_ := by
  cases ev with
  | bytes c =>
    simp only [run_one]
    split <;> simp [readCompleted]
  | readFailed => simp [run_one, readCompleted]
  | timerExpired => simp [run_one, timeoutExpired]
  | timerFailed => simp [run_one, timeoutExpired]

theorem World.act_stopRequested (dev : Device) (w : World) (a : Action) :
    (w.act dev a).reader.state.stopRequested_ = w.reader.state.stopRequested_ := by
  cases a with
  | handle ev now =>
    cases hr : w.reader with
    | running s =>
      simp only [World.act, hr, iteration]
      rw [handleResult_stopRequested, run_one_stopRequested]
      rfl
    | returned s => simp [World.act, hr]
    | raised s => simp [World.act, hr]
  | pop =>
    simp only [World.act]
    split
    · cases hr : w.reader <;> simp [Step.withQueue, Step.state]
    · rfl

theorem World.run_stopRequested (dev : Device) (acts : List Action) :
    ∀ w : World, (World.run dev acts w).reader.state.stopRequested_ =
      w.reader.state.stopRequested_ := by
  induction acts with
  | nil => intro w; rfl
  | cons a acts ih =>
    intro w
    have hrun : World.run dev (a :: acts) w = World.run dev acts (w.act dev a) := rfl
    rw [hrun, ih, World.act_stopRequested]

theorem openAttempts_three (dev : Device) (s : TimeoutSerialThread) :
    openAttempts dev 3 s =
      if dev.openOk s.portOpenCalls then
        (true, { s with portOpenCalls := s.portOpenCalls + 1, portOpen := true })
      else if dev.openOk (s.portOpenCalls + 1) then
        (true, { s with portOpenCalls := s.portOpenCalls + 2, portOpen := true })
      else if dev.openOk (s.portOpenCalls + 2) then
        (true, { s with portOpenCalls := s.portOpenCalls + 3, portOpen := true })
      else
        (false, { s with portOpenCalls := s.portOpenCalls + 3 }) := by
  cases h0 : dev.openOk s.portOpenCalls <;> cases h1 : dev.openOk (s.portOpenCalls + 1) <;>
    cases h2 : dev.openOk (s.portOpenCalls + 2) <;>
    simp [openAttempts, h0, h1, h2]

theorem setOptions_portOpenCalls (dev : Device) (os : List PortOption) :
    ∀ s : TimeoutSerialThread, (setOptions dev os s).state.portOpenCalls = s.portOpenCalls := by
  induction os with
  | nil => intro s; rfl
  | cons o os ih =>
    intro s
    simp only [setOptions]
    split
    · rw [ih]
    · rfl

theorem setOptions_of_all (dev : Device) (hset : ∀ o, dev.setOptionOk o = true)
    (os : List PortOption) :
    ∀ s : TimeoutSerialThread, ∃ s', setOptions dev os s = .returned () s' := by
  induction os with
  | nil => intro s; exact ⟨s, rfl⟩
  | cons o os ih =>
    intro s
    simp only [setOptions, hset o, if_true]
    exact ih _

theorem setOptions_raised_iff (dev : Device) (os : List PortOption) :
    ∀ s : TimeoutSerialThread,
      (setOptions dev os s).isRaised = true ↔ ∃ o ∈ os, dev.setOptionOk o = false := by
  induction os with
  | nil => intro s; simp [setOptions, Outcome.isRaised]
  | cons o os ih =>
    intro s
    simp only [setOptions]
    cases ho : dev.setOptionOk o
    · simp [Outcome.isRaised, ho]
    · simp [ih, ho]

theorem configure_spec (dev : Device) (s : TimeoutSerialThread) :
    (configure dev s).state.portOpenCalls = s.portOpenCalls ∧
    (configure dev s).value? ≠ some false ∧
    ((∀ o, dev.setOptionOk o = true) → (configure dev s).value? = some true) ∧
    ((configure dev s).isRaised = true ↔ ∃ o, dev.setOptionOk o = false) := by
  have h1 := setOptions_portOpenCalls dev
    [.baud_rate, .parity, .character_size, .flow_control, .stop_bits] s
  have h2 := setOptions_raised_iff dev
    [.baud_rate, .parity, .character_size, .flow_control, .stop_bits] s
  have h3 : (∃ o ∈ [PortOption.baud_rate, .parity, .character_size, .flow_control, .stop_bits],
      dev.setOptionOk o = false) ↔ ∃ o, dev.setOptionOk o = false := by
    constructor
    · rintro ⟨o, -, ho⟩; exact ⟨o, ho⟩
    · rintro ⟨o, ho⟩
      refine ⟨o, ?_, ho⟩
      cases o <;> simp
  rw [h3] at h2
  unfold configure
  cases hset : setOptions dev [.baud_rate, .parity, .character_size, .flow_control, .stop_bits] s
    with
  | returned v s' =>
    rw [hset] at h1 h2
    refine ⟨h1, by simp [Outcome.value?], fun _ => rfl, ?_⟩
    rw [← h2]
    simp [Outcome.isRaised]
  | raised s' =>
    rw [hset] at h1 h2
    refine ⟨h1, by simp [Outcome.value?], ?_, ?_⟩
    · intro hall
      obtain ⟨o, ho⟩ := h2.mp rfl
      rw [hall o] at ho
      simp at ho
    · rw [← h2]
      simp [Outcome.isRaised]

theorem open_eq (dev : Device) (self : TimeoutSerialThread) :
    self.open_ dev =
      if self.portOpen = true ∧ dev.closeOk = false then
        .raised { self with portOpen := false, portOptions := [], pendingReads := 0 }
      else
        match openAttempts dev 3
            (if self.portOpen = true then
              { self with portOpen := false, portOptions := [], pendingReads := 0 }
             else self) with
        | (true, s) => configure dev s
        | (false, s) => .returned false s := by
  cases hp : self.portOpen <;> cases hc : dev.closeOk <;>
    simp [open_, close, isOpen, hp, hc]

theorem findDelim_of_infix {d b : List Byte} (h : d <:+: b) : ∃ n, findDelim d b = some n := by
  induction b with
  | nil =>
    have : d = [] := List.eq_nil_of_infix_nil h
    subst this
    exact ⟨0, by simp [findDelim_nil]⟩
  | cons a bs ih =>
    rw [findDelim_cons]
    by_cases hp : d.isPrefixOf (a :: bs) = true
    · exact ⟨d.length, by rw [if_pos hp]⟩
    · rw [if_neg hp]
      rcases List.infix_cons_iff.mp h with h1 | h2
      · rw [← List.isPrefixOf_iff_prefix] at h1
        exact absurd h1 hp
      · obtain ⟨n, hn⟩ := ih h2
        exact ⟨n + 1, by simp [hn]⟩

theorem findDelim_split {d b : List Byte} {n : Nat} (h : findDelim d b = some n) :
    b = b.take (n - d.length) ++ d ++ b.drop n ∧ OnlyAtEnd d (b.take (n - d.length)) := by
  induction b generalizing n with
  | nil =>
    rw [findDelim_nil] at h
    split at h
    · rename_i hd
      subst hd
      refine ⟨by simp, ?_⟩
      intro i hi
      simp at hi
    · simp at h
  | cons a bs ih =>
    have hb := findDelim_bounds h
    rw [findDelim_cons] at h
    split at h
    · rename_i hp
      have hn : d.length = n := by simpa using h
      subst hn
      rw [ List.isPrefixOf_iff_prefix] at hp
      obtain ⟨t, ht⟩ := hp
      refine ⟨?_, ?_⟩
      · rw [← ht]
        simp
      · intro i hi
        simp at hi
    · rename_i hp
      simp only [Option.map_eq_some'] at h
      obtain ⟨n', hn', rfl⟩ := h
      have hb' := findDelim_bounds hn'
      obtain ⟨hsplit, hend⟩ := ih hn'
      have hk : n' + 1 - d.length = (n' - d.length) + 1 := by omega
      rw [hk]
      simp only [List.take_succ_cons, List.drop_succ_cons, List.cons_append]
      refine ⟨by rw [← hsplit], ?_⟩
      intro i hi
      cases i with
      | zero =>
        intro hpre
        apply hp
        rw [ List.isPrefixOf_iff_prefix]
        have : a :: bs = (a :: (bs.take (n' - d.length)) ++ d) ++ bs.drop n' := by
          simp only [List.cons_append]
          rw [← hsplit]
        rw [this]
        exact (by simpa using hpre : d <+: a :: (bs.take (n' - d.length)) ++ d).trans
          (List.prefix_append _ _)
      | succ j =>
        have := hend j (by simpa using hi)
        simpa using this

/-- Every stream is, in exactly the way the reader splits it, a sequence of messages each
followed by the delimiter, followed by bytes without a delimiter. -/
theorem every_stream_is_framed (d : List Byte) (hd : d ≠ []) :
    ∀ (n : Nat) (stream : List Byte), stream.length ≤ n →
      ∃ ms rest, stream = frame d ms ++ rest ∧ (∀ m ∈ ms, OnlyAtEnd d m) ∧ ¬ d <:+: rest := by
  intro n
  induction n with
  | zero =>
    intro stream hlen
    have : stream = [] := List.length_eq_zero.mp (Nat.le_zero.mp hlen)
    subst this
    refine ⟨[], [], by simp [frame], by simp, ?_⟩
    intro h
    exact hd (List.eq_nil_of_infix_nil h)
  | succ n ih =>
    intro stream hlen
    cases hf : findDelim d stream with
    | none =>
      refine ⟨[], stream, by simp [frame], by simp, ?_⟩
      intro h
      obtain ⟨k, hk⟩ := findDelim_of_infix h
      rw [hf] at hk
      simp at hk
    | some k =>
      obtain ⟨hsplit, hend⟩ := findDelim_split hf
      have hb := findDelim_bounds hf
      have hdl : 0 < d.length := List.length_pos.mpr hd
      obtain ⟨ms, rest, htl, hms, hrest⟩ := ih (stream.drop k) (by simp; omega)
      refine ⟨stream.take (k - d.length) :: ms, rest, ?_, ?_, hrest⟩
      · simp only [frame, List.append_assoc]
        rw [← htl, ← List.append_assoc]
        exact hsplit
      · intro m hm
        rcases List.mem_cons.mp hm with rfl | hm'
        · exact hend
        · exact hms m hm'

theorem World.run_handle_done (dev : Device) (sched : List (Event × Int)) :
    ∀ w : World, w.reader.isRunning = false →
      World.run dev (sched.map (fun e => Action.handle e.1 e.2)) w = w := by
  induction sched with
  | nil => intro w _; rfl
  | cons e sched ih =>
    intro w hw
    have hact : w.act dev (.handle e.1 e.2) = w := by
      cases hr : w.reader with
      | running s =>
        rw [hr] at hw
        simp [Step.isRunning] at hw
      | returned s => simp [World.act, hr]
      | raised s => simp [World.act, hr]
    show World.run dev (sched.map (fun e => Action.handle e.1 e.2))
      (w.act dev (.handle e.1 e.2)) = w
    rw [hact]
    exact ih w hw

/-- The reader thread of a run without consumer actions is the loop `runLoop`. -/
theorem World.run_handle_eq_runLoop (dev : Device) (sched : List (Event × Int)) :
    ∀ (s : TimeoutSerialThread) (received : List Message),
      (World.run dev (sched.map (fun e => Action.handle e.1 e.2))
        { reader := .running s, received := received }).reader = runLoop dev sched s := by
  induction sched with
  | nil => intro s received; rfl
  | cons e sched ih =>
    intro s received
    obtain ⟨ev, now⟩ := e
    show (World.run dev (sched.map (fun e => Action.handle e.1 e.2))
      (World.act dev { reader := .running s, received := received } (.handle ev now))).reader
      = runLoop dev ((ev, now) :: sched) s
    have hact : World.act dev { reader := .running s, received := received } (.handle ev now) =
        { reader := s.iteration dev ev now, received := received } := rfl
    rw [hact]
    cases hit : s.iteration dev ev now with
    | running s' =>
      rw [ih s' received]
      simp [runLoop, hit]
    | returned s' =>
      rw [World.run_handle_done dev sched _ (by rfl)]
      simp [runLoop, hit]
    | raised s' =>
      rw [World.run_handle_done dev sched _ (by rfl)]
      simp [runLoop, hit]

/-! ## Claims C1 to C3: framing -/

/-- C1. For a non-empty delimiter `d` and a byte stream in which `d` occurs exactly once
(`occurrences` has one element, overlapping occurrences counted), every run of the read loop
of a fresh reader that delivers the stream, in any chunking and interleaved with non-terminal
timer expiries and consumer pops, leaves the loop running with exactly one message added to
the sink; the message is the bytes preceding the delimiter and does not contain `d`. -/
theorem single_delimiter_single_message (dev : Device) (d stream : List Byte) (hd : d ≠ [])
    (honce : (occurrences d stream).length = 1)
    (self : TimeoutSerialThread) (hdelim : self.delim_ = d) (hfresh : self.readData_ = [])
    (hstop : self.stopRequested_ = false)
    (t0 : Int) (acts : List Action)
    (hquiet : ∀ a ∈ acts, a.quiet t0 = true) (hdata : delivered acts = stream)
    (hsize : stream.length ≤ MAX_ALLOC) :
    ∃ pre post, stream = pre ++ d ++ post ∧
      (World.run dev acts (World.init t0 self)).reader.isRunning = true ∧
      (World.run dev acts (World.init t0 self)).pushed = self.queue_.m_queue ++ [pre] ∧
      ¬ d <:+: pre := by
  obtain ⟨pre, post, hs, hpre, hpost, hnot⟩ := unique_occurrence_split hd honce
  refine ⟨pre, post, hs, ?_⟩
  have hfr : frame d [pre] ++ post = stream := by simp [frame, hs]
  obtain ⟨done, remaining, hsplit, hms, s, hr, -, -, -, -, hq, hbuf, -, hfirst⟩ :=
    quiet_run_framed dev d post [pre] hd
      (by simpa using hpre) hpost hdelim hfresh hstop t0 acts hquiet
      (by rw [hfr]; exact hdata) (by rw [hfr]; exact hsize)
  have hdone : done = [pre] := by
    cases done with
    | nil =>
      exfalso
      have hrem : remaining = [pre] := by simpa using hsplit
      have hnone := hfirst rfl
      simp only [List.append_nil] at hbuf
      rw [hbuf, hrem] at hnone
      have hfr : frame d [pre] ++ post = pre ++ d ++ ([] ++ post) := by simp [frame]
      rw [hfr, findDelim_framed hpre] at hnone
      simp at hnone
    | cons x xs =>
      have hl := congrArg List.length hsplit
      simp only [List.length_append, List.length_cons, List.length_nil] at hl
      have hxs : xs = [] := List.length_eq_zero.mp (by omega)
      have hrem : remaining = [] := List.length_eq_zero.mp (by omega)
      subst hxs hrem
      simpa using hsplit
  refine ⟨by rw [hr]; rfl, ?_, hnot⟩
  simp only [World.pushed, hr, Step.state, hq, hdone]

/-- C1 at the scenario of the specification: delimiter `"\n"`, the chunks `"ab"` and `"c\n"`
with a timer expiry in between, one second after the start. -/
theorem single_delimiter_single_message_witness :
    (occurrences [10] [97, 98, 99, 10]).length = 1 ∧
    ∃ pre post, ([97, 98, 99, 10] : List Byte) = pre ++ [10] ++ post ∧
      (World.run goodDevice
        [.handle (.bytes [97, 98]) 0, .handle .timerExpired 1, .handle (.bytes [99, 10]) 1]
        (World.init 0 (openedReader [10]))).reader.isRunning = true ∧
      (World.run goodDevice
        [.handle (.bytes [97, 98]) 0, .handle .timerExpired 1, .handle (.bytes [99, 10]) 1]
        (World.init 0 (openedReader [10]))).pushed = (openedReader [10]).queue_.m_queue ++ [pre] ∧
      ¬ ([10] : List Byte) <:+: pre :=
  ⟨by decide,
   single_delimiter_single_message goodDevice [10] [97, 98, 99, 10] (by decide) (by decide)
     (openedReader [10]) (by decide) (by decide) (by decide) 0
     [.handle (.bytes [97, 98]) 0, .handle .timerExpired 1, .handle (.bytes [99, 10]) 1]
     (by decide) (by decide) (by decide)⟩

/-- C2. For a non-empty delimiter `d` and a stream made of `K` messages `ms`, each followed by
`d` and each delimiter being the first occurrence of `d` after the previous one (occurrences
are counted left to right without overlap), followed by bytes `rest` without `d`: in every
quiet run of a fresh reader that delivers the stream the loop stays running, the messages
pushed so far are always the first `k` messages of `ms` in order, the consumer has received an
initial segment of them, all `K` are pushed once the buffer holds no delimiter, and after at
most `K` further zero-length completions exactly `ms` has been pushed and a consumer popping
the sink receives exactly `ms`, in order. -/
theorem framed_stream_messages_in_order (dev : Device) (d : List Byte) (hd : d ≠ [])
    (ms : List Message) (rest : List Byte)
    (hms : ∀ m ∈ ms, OnlyAtEnd d m) (hrest : ¬ d <:+: rest)
    (self : TimeoutSerialThread) (hdelim : self.delim_ = d) (hfresh : self.readData_ = [])
    (hstop : self.stopRequested_ = false)
    (t0 : Int) (acts : List Action)
    (hquiet : ∀ a ∈ acts, a.quiet t0 = true) (hdata : delivered acts = frame d ms ++ rest)
    (hsize : (frame d ms ++ rest).length ≤ MAX_ALLOC) :
    (World.run dev acts (World.init t0 self)).reader.isRunning = true ∧
    (∃ k, k ≤ ms.length ∧
      (World.run dev acts (World.init t0 self)).pushed = self.queue_.m_queue ++ ms.take k) ∧
    (World.run dev acts (World.init t0 self)).received <+: self.queue_.m_queue ++ ms ∧
    (findDelim d (World.run dev acts (World.init t0 self)).reader.state.readData_ = none →
      (World.run dev acts (World.init t0 self)).pushed = self.queue_.m_queue ++ ms) ∧
    (∀ t, t0 ≤ t →
      (World.run dev (acts ++ List.replicate ms.length (.handle (.bytes []) t))
        (World.init t0 self)).reader.isRunning = true ∧
      (World.run dev (acts ++ List.replicate ms.length (.handle (.bytes []) t))
        (World.init t0 self)).pushed = self.queue_.m_queue ++ ms ∧
      (World.run dev (acts ++ List.replicate ms.length (.handle (.bytes []) t) ++
          List.replicate (self.queue_.m_queue.length + ms.length) .pop)
        (World.init t0 self)).received = self.queue_.m_queue ++ ms) := by
  obtain ⟨done, remaining, hsplit, hrem, hinv⟩ :=
    quiet_run_framed dev d rest ms hd hms hrest hdelim hfresh hstop t0 acts hquiet hdata hsize
  have hinv' := hinv
  obtain ⟨s, hr, -, -, -, -, hq, hbuf, -, -⟩ := hinv
  have hpushed : (World.run dev acts (World.init t0 self)).pushed =
      self.queue_.m_queue ++ done := by
    simp only [World.pushed, hr, Step.state, hq]
  have htake : done = ms.take done.length := by
    rw [← hsplit, List.take_left]
  refine ⟨by rw [hr]; rfl, ⟨done.length, ?_, ?_⟩, ?_, ?_, ?_⟩
  · rw [← hsplit]; simp
  · rw [hpushed, ← htake]
  · have h1 : (World.run dev acts (World.init t0 self)).received <+:
        self.queue_.m_queue ++ done := by
      rw [← hq]
      exact List.prefix_append _ _
    refine h1.trans ?_
    rw [← hsplit, ← List.append_assoc]
    exact List.prefix_append _ _
  · intro hnone
    rw [hr] at hnone
    simp only [Step.state] at hnone
    cases remaining with
    | nil =>
      rw [hpushed, ← hsplit, List.append_nil]
    | cons m tl =>
      exfalso
      simp only [List.append_nil] at hbuf
      rw [hbuf] at hnone
      have hfr : frame d (m :: tl) ++ rest = m ++ d ++ (frame d tl ++ rest) := by
        simp [frame]
      rw [hfr, findDelim_framed (hrem m (List.mem_cons_self _ _))] at hnone
      simp at hnone
  · intro t ht
    have hlen : remaining.length ≤ ms.length := by
      rw [← hsplit]; simp
    have hdr := framedInv_drain dev hrest t ht ms.length done remaining _ hlen hrem hinv'
    rw [hsplit, ← World.run_append] at hdr
    obtain ⟨s', hr', -, -, -, -, hq', -, -, -⟩ := hdr
    have hp' : (World.run dev (acts ++ List.replicate ms.length (.handle (.bytes []) t))
        (World.init t0 self)).pushed = self.queue_.m_queue ++ ms := by
      simp only [World.pushed, hr', Step.state, hq']
    refine ⟨by rw [hr']; rfl, hp', ?_⟩
    rw [World.run_append, World.received_run_pops, hp']
    have hl := congrArg List.length hq'
    rw [hr']
    simp only [Step.state]
    simp only [List.length_append] at hl
    omega

/-- C2 at delimiter `"\n"` and the stream `"ab\nc\nd"` delivered as `"a"`, `"b\nc\nd"` with a
timer expiry and a consumer pop in between: two messages, `"ab"` then `"c"`. -/
theorem framed_stream_messages_in_order_witness :
    (∀ m ∈ ([[97, 98], [99]] : List Message), OnlyAtEnd [10] m) ∧
    delivered [.handle (.bytes [97]) 0, .handle .timerExpired 1, .pop,
      .handle (.bytes [98, 10, 99, 10, 100]) 2] = frame [10] [[97, 98], [99]] ++ [100] ∧
    (World.run goodDevice
      ([.handle (.bytes [97]) 0, .handle .timerExpired 1, .pop,
        .handle (.bytes [98, 10, 99, 10, 100]) 2] ++
        List.replicate 2 (.handle (.bytes []) 3) ++ List.replicate (0 + 2) .pop)
      (World.init 0 (openedReader [10]))).received = [[97, 98], [99]] :=
  ⟨by decide, by decide,
   ((framed_stream_messages_in_order goodDevice [10] (by decide) [[97, 98], [99]] [100]
      (by decide) (by decide) (openedReader [10]) (by decide) (by decide) (by decide) 0
      [.handle (.bytes [97]) 0, .handle .timerExpired 1, .pop,
        .handle (.bytes [98, 10, 99, 10, 100]) 2]
      (by decide) (by decide) (by decide)).2.2.2.2 3 (by decide)).2.2⟩

/-- C3 as amended. Round trip: for a non-empty delimiter `d` and a string `s` such that `d`
occurs in `s ++ d` only as its final bytes, when the peer sends `s ++ d` with `writeString`
and a quiet run delivers these bytes to a fresh reader configured with `d`, the loop stays
running and exactly one message is pushed, equal to `s`. -/
theorem roundtrip_when_delimiter_only_at_end (dev : Device) (d s : List Byte) (hd : d ≠ [])
    (hs : OnlyAtEnd d s)
    (self : TimeoutSerialThread) (hdelim : self.delim_ = d) (hfresh : self.readData_ = [])
    (hstop : self.stopRequested_ = false)
    (t0 : Int) (acts : List Action)
    (hquiet : ∀ a ∈ acts, a.quiet t0 = true)
    (hdata : delivered acts = writeString [] (s ++ d))
    (hsize : (s ++ d).length ≤ MAX_ALLOC) :
    (World.run dev acts (World.init t0 self)).reader.isRunning = true ∧
    (World.run dev acts (World.init t0 self)).pushed = self.queue_.m_queue ++ [s] := by
  have hfr : frame d [s] ++ [] = writeString [] (s ++ d) := by simp [frame, writeString]
  obtain ⟨done, remaining, hsplit, hms, st, hr, -, -, -, -, hq, hbuf, -, hfirst⟩ :=
    quiet_run_framed dev d [] [s] hd
      (by simpa using hs) (by simpa using hd) hdelim hfresh hstop t0 acts hquiet
      (by rw [hfr]; exact hdata) (by rw [hfr]; simpa [writeString] using hsize)
  have hdone : done = [s] := by
    cases done with
    | nil =>
      exfalso
      have hrem : remaining = [s] := by simpa using hsplit
      have hnone := hfirst rfl
      simp only [List.append_nil] at hbuf
      rw [hbuf, hrem] at hnone
      have hfr : frame d [s] = s ++ d ++ [] := by simp [frame]
      rw [hfr, findDelim_framed hs] at hnone
      simp at hnone
    | cons x xs =>
      have hl := congrArg List.length hsplit
      simp only [List.length_append, List.length_cons, List.length_nil] at hl
      have hxs : xs = [] := List.length_eq_zero.mp (by omega)
      have hrem : remaining = [] := List.length_eq_zero.mp (by omega)
      subst hxs hrem
      simpa using hsplit
  refine ⟨by rw [hr]; rfl, ?_⟩
  simp only [World.pushed, hr, Step.state, hq, hdone]

/-- C3 as amended, at delimiter `"\r\n"` and the string `"ok"` delivered byte by byte. -/
theorem roundtrip_when_delimiter_only_at_end_witness :
    OnlyAtEnd [13, 10] [111, 107] ∧
    (World.run goodDevice
      [.handle (.bytes [111]) 0, .handle (.bytes [107]) 0, .handle (.bytes [13]) 0,
        .handle (.bytes [10]) 0]
      (World.init 0 (openedReader [13, 10]))).pushed =
      (openedReader [13, 10]).queue_.m_queue ++ [[111, 107]] :=
  ⟨by decide,
   (roundtrip_when_delimiter_only_at_end goodDevice [13, 10] [111, 107] (by decide) (by decide)
     (openedReader [13, 10]) (by decide) (by decide) (by decide) 0
     [.handle (.bytes [111]) 0, .handle (.bytes [107]) 0, .handle (.bytes [13]) 0,
       .handle (.bytes [10]) 0]
     (by decide) (by decide) (by decide)).2⟩

/-- C3 fails as stated: the string `"a"` does not contain the delimiter `"aa"`, yet when
`writeString` sends `"a"` followed by `"aa"` the reader finds the delimiter at offset 0 and
pushes one empty message instead of `"a"`. -/
theorem roundtrip_fails_for_overlapping_delimiter :
    ¬ ([97, 97] : List Byte) <:+: [97] ∧
    (World.run goodDevice
      [.handle (.bytes (TimeoutSerialThread.writeString [] ([97] ++ [97, 97]))) 0]
      (World.init 0 (openedReader [97, 97]))).pushed = [[]] ∧
    (World.run goodDevice
      [.handle (.bytes (TimeoutSerialThread.writeString [] ([97] ++ [97, 97]))) 0]
      (World.init 0 (openedReader [97, 97]))).pushed ≠ [[97]] := by
  decide

/-! ## Claims C4 and C5: the Success step -/

/-- C4. In the Success step, for a pending buffer `b = self.readData_` (an object in memory,
so no longer than `MAX_ALLOC`) and a reported byte count `n` with `|delim| ≤ n ≤ |b|`: the
loop goes on, the pushed message is the first `n - |delim|` bytes of `b`, the buffer
afterwards is `b` without its first `n` bytes, and `b` is the message, then the `|delim|`
discarded bytes, then the retained buffer. -/
theorem success_step_splits_buffer (dev : Device) (now : Int) (self : TimeoutSerialThread)
    (n : Nat) (hdn : self.delim_.length ≤ n) (hnb : n ≤ self.readData_.length)
    (hbuf : self.readData_.length ≤ MAX_ALLOC) :
    ∃ s, handleResult dev now (self.readCompleted false n) = .running s ∧
      s.queue_ = self.queue_.push (self.readData_.take (n - self.delim_.length)) ∧
      s.readData_ = self.readData_.drop n ∧
      self.readData_ = self.readData_.take (n - self.delim_.length) ++
        (self.readData_.drop (n - self.delim_.length)).take self.delim_.length ++
        s.readData_ := by
  refine ⟨_, handleResult_readCompleted dev now self n hdn hnb hbuf, rfl, rfl, ?_⟩
  obtain ⟨k, rfl⟩ : ∃ k, n = k + self.delim_.length := ⟨n - self.delim_.length, by omega⟩
  show self.readData_ = _ ++ _ ++ self.readData_.drop (k + self.delim_.length)
  have hdrop : self.readData_.drop (k + self.delim_.length) =
      (self.readData_.drop k).drop self.delim_.length := by
    rw [List.drop_drop, Nat.add_comm]
  rw [Nat.add_sub_cancel, hdrop, List.append_assoc, List.take_append_drop,
    List.take_append_drop]

/-- C4 at the buffer `"ab\ncd"` with delimiter `"\n"` and a reported count of 3. -/
theorem success_step_splits_buffer_witness :
    ∃ s, handleResult goodDevice 7
        (({ openedReader [10] with readData_ := [97, 98, 10, 99, 100] }).readCompleted false 3)
        = .running s ∧
      s.queue_ = ({ openedReader [10] with readData_ := [97, 98, 10, 99, 100] }).queue_.push
        (({ openedReader [10] with readData_ := [97, 98, 10, 99, 100] }).readData_.take
          (3 - ({ openedReader [10] with readData_ := [97, 98, 10, 99, 100] }).delim_.length)) ∧
      s.readData_ =
        ({ openedReader [10] with readData_ := [97, 98, 10, 99, 100] }).readData_.drop 3 ∧
      ({ openedReader [10] with readData_ := [97, 98, 10, 99, 100] }).readData_ =
        ({ openedReader [10] with readData_ := [97, 98, 10, 99, 100] }).readData_.take
          (3 - ({ openedReader [10] with readData_ := [97, 98, 10, 99, 100] }).delim_.length) ++
        (({ openedReader [10] with readData_ := [97, 98, 10, 99, 100] }).readData_.drop
          (3 - ({ openedReader [10] with readData_ := [97, 98, 10, 99, 100] }).delim_.length)).take
            ({ openedReader [10] with readData_ := [97, 98, 10, 99, 100] }).delim_.length ++
        s.readData_ :=
  success_step_splits_buffer goodDevice 7
    { openedReader [10] with readData_ := [97, 98, 10, 99, 100] } 3
    (by decide) (by decide) (by decide)

/-- C5 as amended. For a Success outcome whose reported byte count `n` is smaller than the
length of the delimiter (itself a string in memory, so no longer than `MAX_ALLOC`), the loop
does not treat the outcome as Error: it computes `n - |delim|` with `size_t` wrap-around,
`n + 2^64 - |delim|`, and the request for a payload of that size leaves `operator()` by an
exception, with no cleanup run, nothing pushed, and the device, the alive flag and the buffer
as they were. -/
theorem short_count_wraps_and_raises (dev : Device) (now : Int) (self : TimeoutSerialThread)
    (n : Nat) (hn : n < self.delim_.length) (hd : self.delim_.length ≤ MAX_ALLOC) :
    ∃ s, handleResult dev now (self.readCompleted false n) = .raised s ∧
      s.bytesTransferred_ = n + SIZE_MODULUS - self.delim_.length ∧
      s.cleanupCalls = self.cleanupCalls ∧ s.queue_ = self.queue_ ∧
      s.isOpen = self.isOpen ∧ s.isAlive = self.isAlive ∧ s.readData_ = self.readData_ := by
  have hM : MAX_ALLOC < SIZE_MODULUS := by unfold MAX_ALLOC SIZE_MODULUS; norm_num
  have hsub : sizeSub n self.delim_.length = n + SIZE_MODULUS - self.delim_.length :=
    sizeSub_of_lt hn (by omega)
  have hbig : MAX_ALLOC < n + SIZE_MODULUS - self.delim_.length := by
    unfold MAX_ALLOC SIZE_MODULUS at *
    omega
  have hstep : handleResult dev now (self.readCompleted false n) =
      .raised { self with result_ := .resultSuccess, pendingReads := 0,
                          bytesTransferred_ := n + SIZE_MODULUS - self.delim_.length } := by
    simp [handleResult, readCompleted, onSuccess, portCancel, hsub, hbig]
  exact ⟨_, hstep, rfl, rfl, rfl, rfl, rfl, rfl⟩

/-- C5 as amended, at delimiter `"\r\n"` and a reported count of 1. -/
theorem short_count_wraps_and_raises_witness :
    ∃ s, handleResult goodDevice 0 (((openedReader [13, 10]).start 0).readCompleted false 1)
        = .raised s ∧
      s.bytesTransferred_ = 1 + SIZE_MODULUS - ((openedReader [13, 10]).start 0).delim_.length ∧
      s.cleanupCalls = ((openedReader [13, 10]).start 0).cleanupCalls ∧
      s.queue_ = ((openedReader [13, 10]).start 0).queue_ ∧
      s.isOpen = ((openedReader [13, 10]).start 0).isOpen ∧
      s.isAlive = ((openedReader [13, 10]).start 0).isAlive ∧
      s.readData_ = ((openedReader [13, 10]).start 0).readData_ :=
  short_count_wraps_and_raises goodDevice 0 ((openedReader [13, 10]).start 0) 1
    (by decide) (by decide)

/-- C5 fails as stated: with delimiter `"\n"` and a Success outcome reporting 0 bytes, the
step is not the terminal step of an Error outcome. `operator()` does not return, `cleanup()`
has not run, the reader is still alive and the device still open, and the byte count has
wrapped to `2^64 - 1`. -/
theorem short_count_not_handled_as_error :
    (handleResult goodDevice 0
      (((openedReader [10]).start 0).readCompleted false 0)).isReturned = false ∧
    (handleResult goodDevice 0
      (((openedReader [10]).start 0).readCompleted false 0)).state.cleanupCalls = 0 ∧
    (handleResult goodDevice 0
      (((openedReader [10]).start 0).readCompleted false 0)).state.isAlive = true ∧
    (handleResult goodDevice 0
      (((openedReader [10]).start 0).readCompleted false 0)).state.isOpen = true ∧
    (handleResult goodDevice 0
      (((openedReader [10]).start 0).readCompleted false 0)).state.bytesTransferred_
      = 2 ^ 64 - 1 ∧
    (handleResult goodDevice 0
      (((openedReader [10]).start 0).readCompleted true 0)).isReturned = true := by
  decide

/-! ## Claims C6 to C8: timer expiry, stop request, errors -/

/-- C6. A timer-expiry step (the timer handler runs without error, then the `switch`)
terminates the loop if and only if a stop has been requested or `now - lastMessageTime ≥ 360`;
so with no stop requested an elapsed time of exactly 360 terminates and 359 does not. When it
does not terminate, the outcome is `resultInProgress` again, one wait is outstanding on the
timer, armed with `timeout_`, and the outstanding read, the buffer and the sink are unchanged.
In both cases the sink is unchanged. -/
theorem timer_expiry_step (dev : Device) (now : Int) (self : TimeoutSerialThread) :
    ((self.iteration dev .timerExpired now).isRunning = false ↔
      (self.stopRequested_ = true ∨ now - self.lastMessageTime ≥ 360)) ∧
    (self.stopRequested_ = false → self.lastMessageTime = now - 360 →
      (self.iteration dev .timerExpired now).isRunning = false) ∧
    (self.stopRequested_ = false → self.lastMessageTime = now - 359 →
      (self.iteration dev .timerExpired now).isRunning = true) ∧
    (¬ (self.stopRequested_ = true ∨ now - self.lastMessageTime ≥ 360) →
      ∃ s, self.iteration dev .timerExpired now = .running s ∧
        s.result_ = .resultInProgress ∧ s.timerWaits = 1 ∧ s.timerExpiry = some self.timeout_ ∧
        s.pendingReads = self.pendingReads ∧ s.readData_ = self.readData_ ∧
        s.queue_ = self.queue_) ∧
    (self.iteration dev .timerExpired now).state.queue_ = self.queue_ := by
  have main : ((self.iteration dev .timerExpired now).isRunning = false ↔
        (self.stopRequested_ = true ∨ now - self.lastMessageTime ≥ 360)) ∧
      (¬ (self.stopRequested_ = true ∨ now - self.lastMessageTime ≥ 360) →
        ∃ s, self.iteration dev .timerExpired now = .running s ∧
          s.result_ = .resultInProgress ∧ s.timerWaits = 1 ∧
          s.timerExpiry = some self.timeout_ ∧
          s.pendingReads = self.pendingReads ∧ s.readData_ = self.readData_ ∧
          s.queue_ = self.queue_) ∧
      (self.iteration dev .timerExpired now).state.queue_ = self.queue_ := by
    by_cases h : self.stopRequested_ = true ∨ now - self.lastMessageTime ≥ 360
    · have hterm : self.iteration dev .timerExpired now =
          terminate dev (timerCancel (timeoutExpired false
            { self with timerWaits := self.timerWaits - 1 })) := by
        rcases h with h | h <;>
          simp [iteration, run_one, timeoutExpired, handleResult, onTimeoutExpired, timerCancel,
            isStopRequested, h, MESSAGE_TIMEOUT]
      have := terminate_not_running dev (timerCancel (timeoutExpired false
            { self with timerWaits := self.timerWaits - 1 }))
      rw [hterm]
      refine ⟨⟨fun _ => h, fun _ => this.1⟩, fun hn => absurd h hn, ?_⟩
      rw [this.2]
      simp [timerCancel, timeoutExpired]
    · have hs : self.stopRequested_ = false := by
        cases hh : self.stopRequested_
        · rfl
        · exact absurd (Or.inl hh) h
      have hl : ¬ (now - self.lastMessageTime ≥ 360) := fun hh => h (Or.inr hh)
      have hrun : self.iteration dev .timerExpired now =
          .running (timerAsyncWait (timerExpiresFromNow self.timeout_
            { timerCancel (timeoutExpired false { self with timerWaits := self.timerWaits - 1 })
              with result_ := .resultInProgress })) := by
        simp [iteration, run_one, timeoutExpired, handleResult, onTimeoutExpired, timerCancel,
            isStopRequested, hs, hl, MESSAGE_TIMEOUT, timerAsyncWait, timerExpiresFromNow]
      rw [hrun]
      refine ⟨⟨fun hh => by simp [Step.isRunning] at hh, fun hh => absurd hh h⟩,
        fun _ => ⟨_, rfl, ?_⟩, ?_⟩
      · simp [timerAsyncWait, timerExpiresFromNow, timerCancel, timeoutExpired]
      · simp [Step.state, timerAsyncWait, timerExpiresFromNow, timerCancel, timeoutExpired]
  refine ⟨main.1, ?_, ?_, main.2.1, main.2.2⟩
  · intro _ hlast
    exact main.1.mpr (Or.inr (by omega))
  · intro hs hlast
    cases hrun : (self.iteration dev .timerExpired now).isRunning
    · rcases main.1.mp hrun with h | h
      · rw [hs] at h
        simp at h
      · omega
    · rfl

/-- C7. After `requestStop()`, whatever the reader and the consumer do next, as long as the
loop is still running the next timer-expiry step is terminal: the loop does not go on, the
device is closed, and the sink and what the consumer holds are exactly what they were before
the step, so no byte of the pending buffer is pushed; when the device completes the close
request, `operator()` returns and `isAlive()` is false. -/
theorem stop_request_ends_loop_at_timer_expiry (dev : Device)
    (self : TimeoutSerialThread) (received : List Message) (acts : List Action) (now : Int)
    (hrun : (World.run dev acts
      { reader := .running self.requestStop, received := received }).reader.isRunning = true) :
    ((World.run dev acts { reader := .running self.requestStop, received := received }).act
      dev (.handle .timerExpired now)).reader.isRunning = false ∧
    ((World.run dev acts { reader := .running self.requestStop, received := received }).act
      dev (.handle .timerExpired now)).reader.state.isOpen = false ∧
    ((World.run dev acts { reader := .running self.requestStop, received := received }).act
      dev (.handle .timerExpired now)).reader.state.queue_ =
      (World.run dev acts
        { reader := .running self.requestStop, received := received }).reader.state.queue_ ∧
    ((World.run dev acts { reader := .running self.requestStop, received := received }).act
      dev (.handle .timerExpired now)).received =
      (World.run dev acts
        { reader := .running self.requestStop, received := received }).received ∧
    (dev.closeOk = true →
      ((World.run dev acts { reader := .running self.requestStop, received := received }).act
        dev (.handle .timerExpired now)).reader.isReturned = true ∧
      ((World.run dev acts { reader := .running self.requestStop, received := received }).act
        dev (.handle .timerExpired now)).reader.state.isAlive = false) := by
  have hstop := World.run_stopRequested dev acts
    { reader := .running self.requestStop, received := received }
  generalize World.run dev acts { reader := .running self.requestStop, received := received }
    = w at hrun hstop ⊢
  cases hr : w.reader with
  | running s =>
    rw [hr] at hstop
    have hs : s.stopRequested_ = true := by simpa [Step.state, requestStop] using hstop
    have hit : s.iteration dev .timerExpired now =
        terminate dev (timerCancel (timeoutExpired false
          { s with timerWaits := s.timerWaits - 1 })) := by
      simp [iteration, run_one, timeoutExpired, handleResult, onTimeoutExpired, timerCancel,
        isStopRequested, hs]
    have hact : w.act dev (.handle .timerExpired now) =
        { w with reader := terminate dev (timerCancel (timeoutExpired false
          { s with timerWaits := s.timerWaits - 1 })) } := by
      simp only [World.act, hr, hit]
    obtain ⟨t1, t2, t3, -, -⟩ := terminate_spec dev (timerCancel (timeoutExpired false
          { s with timerWaits := s.timerWaits - 1 }))
    rw [hact]
    refine ⟨t1, t2, ?_, rfl, ?_⟩
    · show (terminate dev _).state.queue_ = s.queue_
      rw [t3]
      simp [timerCancel, timeoutExpired]
    · intro hclose
      obtain ⟨s', hs', -, halive, -⟩ := cleanup_of_closeOk dev hclose
        (timerCancel (timeoutExpired false { s with timerWaits := s.timerWaits - 1 }))
      show (terminate dev _).isReturned = true ∧ (terminate dev _).state.isAlive = false
      rw [hs']
      exact ⟨rfl, halive⟩
  | returned s =>
    rw [hr] at hrun
    simp [Step.isRunning] at hrun
  | raised s =>
    rw [hr] at hrun
    simp [Step.isRunning] at hrun

/-- C7 with the stop requested right after the loop started, then the bytes `"ab"` arriving
and the consumer polling, then the timer expiring one second after the start: the loop
returns, the reader is not alive, and `"ab"` stays in the buffer while the sink is empty. -/
theorem stop_request_ends_loop_at_timer_expiry_witness :
    (((World.run goodDevice [.handle (.bytes [97, 98]) 0, .pop]
        { reader := .running ((openedReader [10]).start 0).requestStop, received := [] }).act
      goodDevice (.handle .timerExpired 1)).reader.isReturned = true ∧
     ((World.run goodDevice [.handle (.bytes [97, 98]) 0, .pop]
        { reader := .running ((openedReader [10]).start 0).requestStop, received := [] }).act
      goodDevice (.handle .timerExpired 1)).reader.state.isAlive = false) ∧
    ((World.run goodDevice [.handle (.bytes [97, 98]) 0, .pop]
        { reader := .running ((openedReader [10]).start 0).requestStop, received := [] }).act
      goodDevice (.handle .timerExpired 1)).reader.state.readData_ = [97, 98] ∧
    ((World.run goodDevice [.handle (.bytes [97, 98]) 0, .pop]
        { reader := .running ((openedReader [10]).start 0).requestStop, received := [] }).act
      goodDevice (.handle .timerExpired 1)).reader.state.queue_.m_queue = [] :=
  ⟨(stop_request_ends_loop_at_timer_expiry goodDevice ((openedReader [10]).start 0)
      [] [.handle (.bytes [97, 98]) 0, .pop] 1 (by decide)).2.2.2.2 (by decide),
   by decide, by decide⟩

/-- C8. A read-completion or timer callback invoked with an error code sets the outcome to
`resultError`. The loop step that consumes `resultError` never goes on to another wait: it
cancels the timer (no wait is left outstanding), enters `cleanup()` once, leaves the device
closed and the sink unchanged; when the device completes the close request, `operator()`
returns and `isAlive()` is false. The same holds for the iteration that handles a failed read
or a failed timer wait. -/
theorem error_outcome_ends_loop (dev : Device) (now : Int) :
    (∀ (self : TimeoutSerialThread) (n : Nat),
      (self.readCompleted true n).result_ = .resultError) ∧
    (∀ self : TimeoutSerialThread, (self.timeoutExpired true).result_ = .resultError) ∧
    (∀ s : TimeoutSerialThread, s.result_ = .resultError →
      (handleResult dev now s).isRunning = false ∧
      (handleResult dev now s).state.timerWaits = 0 ∧
      (handleResult dev now s).state.cleanupCalls = s.cleanupCalls + 1 ∧
      (handleResult dev now s).state.isOpen = false ∧
      (handleResult dev now s).state.queue_ = s.queue_ ∧
      (dev.closeOk = true →
        (handleResult dev now s).isReturned = true ∧
        (handleResult dev now s).state.isAlive = false)) ∧
    (∀ self : TimeoutSerialThread,
      (self.iteration dev .readFailed now).isRunning = false ∧
      (self.iteration dev .timerFailed now).isRunning = false ∧
      (self.iteration dev .readFailed now).state.queue_ = self.queue_ ∧
      (self.iteration dev .timerFailed now).state.queue_ = self.queue_) := by
  have key : ∀ s : TimeoutSerialThread, s.result_ = .resultError →
      handleResult dev now s = terminate dev (timerCancel s) := by
    intro s hres
    simp [handleResult, hres]
  refine ⟨fun self n => by simp [readCompleted], fun self => by simp [timeoutExpired], ?_, ?_⟩
  · intro s hres
    rw [key s hres]
    obtain ⟨t1, t2, t3, t4, t5⟩ := terminate_spec dev (timerCancel s)
    refine ⟨t1, ?_, ?_, t2, ?_, ?_⟩
    · rw [t5]; rfl
    · rw [t4]; rfl
    · rw [t3]; rfl
    · intro hclose
      obtain ⟨s', hs', -, halive, -⟩ := cleanup_of_closeOk dev hclose (timerCancel s)
      rw [hs']
      exact ⟨rfl, halive⟩
  · intro self
    have h1 := key (run_one .readFailed self) (by simp [run_one, readCompleted])
    have h2 := key (run_one .timerFailed self) (by simp [run_one, timeoutExpired])
    simp only [iteration, h1, h2]
    obtain ⟨a1, -, a3, -, -⟩ := terminate_spec dev (timerCancel (run_one .readFailed self))
    obtain ⟨b1, -, b3, -, -⟩ := terminate_spec dev (timerCancel (run_one .timerFailed self))
    refine ⟨a1, b1, ?_, ?_⟩
    · rw [a3]; simp [timerCancel, run_one, readCompleted]
    · rw [b3]; simp [timerCancel, run_one, timeoutExpired]

/-- C8 on a started reader whose read fails while `"ab"` is buffered: `operator()` returns,
the reader is not alive, the device is closed and the sink is still empty. -/
theorem error_outcome_ends_loop_witness :
    (handleResult goodDevice 5
      (run_one .readFailed { (openedReader [10]).start 0 with readData_ := [97, 98] })).isReturned
      = true ∧
    (handleResult goodDevice 5
      (run_one .readFailed { (openedReader [10]).start 0 with readData_ := [97, 98] })).state.isAlive
      = false :=
  ((error_outcome_ends_loop goodDevice 5).2.2.1
    (run_one .readFailed { (openedReader [10]).start 0 with readData_ := [97, 98] })
    (by decide)).2.2.2.2.2 (by decide)

/-! ## Claims C9 and C10: `open()` -/

/-- C9. Counting the `port_.open` calls one call of `open()` makes: there are at most 3; every
call before the last one failed, so the calls stop at the first success; `open()` returns true
only if one of the calls made succeeded, and it does return true in that case when the
device accepts the settings applied afterwards; against a device on which each of the three
attempts fails (and which completes the close of a handle that was open) exactly 3 calls are
made and `open()` returns false. -/
theorem open_attempts (dev : Device) (self : TimeoutSerialThread) :
    (self.open_ dev).state.portOpenCalls - self.portOpenCalls ≤ 3 ∧
    (∀ j, j + 1 < (self.open_ dev).state.portOpenCalls - self.portOpenCalls →
      dev.openOk (self.portOpenCalls + j) = false) ∧
    (∀ b, (self.open_ dev).value? = some b →
      (b = true ↔ ∃ j, j < (self.open_ dev).state.portOpenCalls - self.portOpenCalls ∧
        dev.openOk (self.portOpenCalls + j) = true)) ∧
    ((∀ o, dev.setOptionOk o = true) →
      (∃ j, j < (self.open_ dev).state.portOpenCalls - self.portOpenCalls ∧
        dev.openOk (self.portOpenCalls + j) = true) →
      (self.open_ dev).value? = some true) ∧
    ((self.portOpen = true → dev.closeOk = true) →
      (∀ j, j < 3 → dev.openOk (self.portOpenCalls + j) = false) →
      (self.open_ dev).state.portOpenCalls - self.portOpenCalls = 3 ∧
        (self.open_ dev).value? = some false) := by
  rw [open_eq]
  by_cases hraise : self.portOpen = true ∧ dev.closeOk = false
  · rw [if_pos hraise]
    refine ⟨by simp [Outcome.state], ?_, ?_, ?_, ?_⟩
    · intro j hj
      simp [Outcome.state] at hj
    · intro b h
      simp [Outcome.value?] at h
    · rintro - ⟨j, hj, -⟩
      simp [Outcome.state] at hj
    · intro h
      have := h hraise.1
      rw [hraise.2] at this
      simp at this
  · rw [if_neg hraise]
    have hbase : (if self.portOpen = true then
              { self with portOpen := false, portOptions := [], pendingReads := 0 }
             else self).portOpenCalls = self.portOpenCalls := by
      split <;> rfl
    generalize (if self.portOpen = true then
              { self with portOpen := false, portOptions := [], pendingReads := 0 }
             else self) = s1 at hbase ⊢
    rw [openAttempts_three, ← hbase]
    have hsucc : ∀ (k : Nat) (s2 : TimeoutSerialThread), k < 3 →
        s2.portOpenCalls = s1.portOpenCalls + (k + 1) →
        (∀ j, j < k → dev.openOk (s1.portOpenCalls + j) = false) →
        dev.openOk (s1.portOpenCalls + k) = true →
        (configure dev s2).state.portOpenCalls - s1.portOpenCalls ≤ 3 ∧
        (∀ j, j + 1 < (configure dev s2).state.portOpenCalls - s1.portOpenCalls →
          dev.openOk (s1.portOpenCalls + j) = false) ∧
        (∀ b, (configure dev s2).value? = some b →
          (b = true ↔ ∃ j, j < (configure dev s2).state.portOpenCalls - s1.portOpenCalls ∧
            dev.openOk (s1.portOpenCalls + j) = true)) ∧
        ((∀ o, dev.setOptionOk o = true) →
          (∃ j, j < (configure dev s2).state.portOpenCalls - s1.portOpenCalls ∧
            dev.openOk (s1.portOpenCalls + j) = true) →
          (configure dev s2).value? = some true) ∧
        ((self.portOpen = true → dev.closeOk = true) →
          (∀ j, j < 3 → dev.openOk (s1.portOpenCalls + j) = false) →
          (configure dev s2).state.portOpenCalls - s1.portOpenCalls = 3 ∧
            (configure dev s2).value? = some false) := by
      intro k s2 hk hcalls hbefore hok
      obtain ⟨c1, c2, c3, -⟩ := configure_spec dev s2
      rw [c1, hcalls]
      have hn : s1.portOpenCalls + (k + 1) - s1.portOpenCalls = k + 1 := by omega
      rw [hn]
      refine ⟨by omega, fun j hj => hbefore j (by omega), ?_, fun hall _ => c3 hall, ?_⟩
      · intro b hb
        constructor
        · intro _
          exact ⟨k, by omega, hok⟩
        · intro _
          cases b
          · exact absurd hb c2
          · rfl
      · intro _ hfail
        have := hfail k hk
        rw [hok] at this
        simp at this
    cases h0 : dev.openOk s1.portOpenCalls
    · cases h1 : dev.openOk (s1.portOpenCalls + 1)
      · cases h2 : dev.openOk (s1.portOpenCalls + 2)
        · simp only [Bool.false_eq_true, if_false, Outcome.state, Outcome.value?]
          have hall : ∀ j, j < 3 → dev.openOk (s1.portOpenCalls + j) = false := by
            intro j hj
            have : j = 0 ∨ j = 1 ∨ j = 2 := by omega
            rcases this with rfl | rfl | rfl
            · simpa using h0
            · exact h1
            · exact h2
          have hn : s1.portOpenCalls + 3 - s1.portOpenCalls = 3 := by omega
          rw [hn]
          refine ⟨le_refl _, fun j hj => hall j (by omega), ?_, ?_, fun _ _ => ⟨rfl, trivial⟩⟩
          · intro b hb
            have hbf : b = false := by simpa using hb.symm
            subst hbf
            constructor
            · intro h; simp at h
            · rintro ⟨j, hj, hok⟩
              rw [hall j hj] at hok
              simp at hok
          · rintro - ⟨j, hj, hok⟩
            rw [hall j hj] at hok
            simp at hok
        · simp only [Bool.false_eq_true, if_false, if_true]
          refine hsucc 2 _ (by omega) rfl ?_ h2
          intro j hj
          have : j = 0 ∨ j = 1 := by omega
          rcases this with rfl | rfl
          · simpa using h0
          · exact h1
      · simp only [Bool.false_eq_true, if_false, if_true]
        refine hsucc 1 _ (by omega) rfl ?_ h1
        intro j hj
        have : j = 0 := by omega
        subst this
        simpa using h0
    · simp only [if_true]
      exact hsucc 0 _ (by omega) rfl (fun j hj => absurd hj (by omega)) (by simpa using h0)

/-- C9 on a reader whose device is open, reopened against a device that is never acquired:
exactly 3 attempts, and `open()` returns false. -/
theorem open_attempts_witness :
    ((openedReader [10]).open_ absentDevice).state.portOpenCalls
      - (openedReader [10]).portOpenCalls = 3 ∧
    ((openedReader [10]).open_ absentDevice).value? = some false :=
  (open_attempts absentDevice (openedReader [10])).2.2.2.2 (by decide) (by decide)

/-- C10 as amended. A call of `open()` is left by an exception exactly when closing the
handle that was open fails, or when one of the three acquisition attempts succeeds and the
device rejects one of the five settings; in every other case, whatever the outcomes of the
acquisition attempts, it returns a boolean. -/
theorem open_raises_iff (dev : Device) (self : TimeoutSerialThread) :
    ((self.open_ dev).isRaised = true ↔
      (self.portOpen = true ∧ dev.closeOk = false) ∨
      (¬ (self.portOpen = true ∧ dev.closeOk = false) ∧
        (∃ j, j < 3 ∧ dev.openOk (self.portOpenCalls + j) = true) ∧
        ∃ o, dev.setOptionOk o = false)) ∧
    ((self.open_ dev).isRaised = false → ∃ b s, self.open_ dev = .returned b s) := by
  constructor
  · rw [open_eq]
    by_cases hraise : self.portOpen = true ∧ dev.closeOk = false
    · rw [if_pos hraise]
      simp [Outcome.isRaised, hraise]
    · rw [if_neg hraise]
      have hbase : (if self.portOpen = true then
                { self with portOpen := false, portOptions := [], pendingReads := 0 }
               else self).portOpenCalls = self.portOpenCalls := by
        split <;> rfl
      generalize (if self.portOpen = true then
                { self with portOpen := false, portOptions := [], pendingReads := 0 }
               else self) = s1 at hbase ⊢
      rw [openAttempts_three, ← hbase]
      have hiff : ∀ P : Prop, ((self.portOpen = true ∧ dev.closeOk = false) ∨
          (¬ (self.portOpen = true ∧ dev.closeOk = false) ∧ P)) ↔ P := by
        intro P
        constructor
        · rintro (h | ⟨-, h⟩)
          · exact absurd h hraise
          · exact h
        · exact fun h => Or.inr ⟨hraise, h⟩
      rw [hiff]
      cases h0 : dev.openOk s1.portOpenCalls
      · cases h1 : dev.openOk (s1.portOpenCalls + 1)
        · cases h2 : dev.openOk (s1.portOpenCalls + 2)
          · simp only [Bool.false_eq_true, if_false, Outcome.isRaised]
            constructor
            · intro h; simp at h
            · rintro ⟨⟨j, hj, hok⟩, -⟩
              have : j = 0 ∨ j = 1 ∨ j = 2 := by omega
              rcases this with rfl | rfl | rfl
              · simp [h0] at hok
              · simp [h1] at hok
              · simp [h2] at hok
          · simp only [Bool.false_eq_true, if_false, if_true]
            rw [(configure_spec dev _).2.2.2]
            exact ⟨fun h => ⟨⟨2, by omega, h2⟩, h⟩, fun h => h.2⟩
        · simp only [Bool.false_eq_true, if_false, if_true]
          rw [(configure_spec dev _).2.2.2]
          exact ⟨fun h => ⟨⟨1, by omega, h1⟩, h⟩, fun h => h.2⟩
      · simp only [if_true]
        rw [(configure_spec dev _).2.2.2]
        exact ⟨fun h => ⟨⟨0, by omega, by simpa using h0⟩, h⟩, fun h => h.2⟩
  · intro h
    cases hr : self.open_ dev with
    | returned b s => exact ⟨b, s, rfl⟩
    | raised s =>
      rw [hr] at h
      simp [Outcome.isRaised] at h

/-- C10 as amended, on a device whose first two acquisition attempts fail: `open()` returns
a boolean. -/
theorem open_raises_iff_witness :
    ∃ b s, (mkReader [10] { m_queue := [] }).open_
      { openOk := fun k => decide (2 ≤ k), closeOk := true, setOptionOk := fun _ => true }
      = .returned b s :=
  (open_raises_iff
    { openOk := fun k => decide (2 ≤ k), closeOk := true, setOptionOk := fun _ => true }
    (mkReader [10] { m_queue := [] })).2 (by decide)

/-- C10 fails as stated: against a device that is acquired at the first attempt and then
rejects the baud-rate setting, `open()` returns no boolean; the error of `port_.set_option`
reaches the caller, and the device stays open. -/
theorem open_raises_on_rejected_setting :
    ((mkReader [10] { m_queue := [] }).open_ baudRejectingDevice).isRaised = true ∧
    ((mkReader [10] { m_queue := [] }).open_ baudRejectingDevice).value? = none ∧
    ((mkReader [10] { m_queue := [] }).open_ baudRejectingDevice).state.isOpen = true := by
  decide

/-! ## Claims C11 to C14: lifecycle and exits of the loop -/

theorem openAttempts_three_spec (dev : Device) (s : TimeoutSerialThread) :
    (∀ j, j + 1 < (openAttempts dev 3 s).2.portOpenCalls - s.portOpenCalls →
      dev.openOk (s.portOpenCalls + j) = false) ∧
    ((openAttempts dev 3 s).1 = true →
      (openAttempts dev 3 s).2.portOpen = true ∧
      dev.openOk ((openAttempts dev 3 s).2.portOpenCalls - 1) = true) ∧
    ((openAttempts dev 3 s).1 = false → (openAttempts dev 3 s).2.portOpen = s.portOpen) := by
  rw [openAttempts_three]
  cases h0 : dev.openOk s.portOpenCalls
  · cases h1 : dev.openOk (s.portOpenCalls + 1)
    · cases h2 : dev.openOk (s.portOpenCalls + 2)
      · simp only [Bool.false_eq_true, if_false]
        refine ⟨?_, by simp, by simp⟩
        intro j hj
        have : j = 0 ∨ j = 1 := by simp at hj; omega
        rcases this with rfl | rfl
        · simpa using h0
        · exact h1
      · simp only [Bool.false_eq_true, if_false, if_true]
        refine ⟨?_, by simpa using h2, by simp⟩
        intro j hj
        have : j = 0 ∨ j = 1 := by simp at hj; omega
        rcases this with rfl | rfl
        · simpa using h0
        · exact h1
    · simp only [Bool.false_eq_true, if_false, if_true]
      refine ⟨?_, by simpa using h1, by simp⟩
      intro j hj
      have : j = 0 := by simp at hj; omega
      subst this
      simpa using h0
  · simp only [if_true]
    refine ⟨?_, by simpa using h0, by simp⟩
    intro j hj
    simp at hj

/-- C11. On a reader whose device is open, `open()` first closes the handle: the state
`close()` leaves has the port closed and no acquisition attempt counted, a failing close
ends `open()` before any attempt, and otherwise `open()` goes on exactly as `open()` of that
closed reader does. On a closed reader `open()` starts directly with the acquisition
attempts, which begin with the port closed, and every attempt before the last one fails, so
a handle is acquired only while none is held. `close()` on a closed device is the identity
on the state (no device operation), and a second `close()` after any `close()` is that
identity. -/
theorem open_closes_open_handle_first (dev : Device) (self : TimeoutSerialThread) :
    (self.isOpen = true →
      (self.close dev).state.isOpen = false ∧
      (self.close dev).state.portOpenCalls = self.portOpenCalls ∧
      (dev.closeOk = false → self.open_ dev = .raised (self.close dev).state) ∧
      (dev.closeOk = true → self.open_ dev = (self.close dev).state.open_ dev)) ∧
    (self.isOpen = false →
      self.open_ dev =
        match openAttempts dev 3 self with
        | (true, s) => configure dev s
        | (false, s) => .returned false s) ∧
    (∀ s : TimeoutSerialThread, s.isOpen = false →
      (∀ j, j + 1 < (openAttempts dev 3 s).2.portOpenCalls - s.portOpenCalls →
        dev.openOk (s.portOpenCalls + j) = false) ∧
      ((openAttempts dev 3 s).1 = false → (openAttempts dev 3 s).2.isOpen = false)) ∧
    (self.isOpen = false → self.close dev = .returned () self) ∧
    (self.close dev).state.close dev = .returned () (self.close dev).state := by
  refine ⟨?_, ?_, ?_, ?_, ?_⟩
  · intro hopen
    have hp : self.portOpen = true := hopen
    refine ⟨?_, ?_, ?_, ?_⟩
    · cases hc : dev.closeOk <;> simp [close, isOpen, hp, hc, Outcome.state]
    · cases hc : dev.closeOk <;> simp [close, isOpen, hp, hc, Outcome.state]
    · intro hc
      simp [open_, close, isOpen, hp, hc, Outcome.state]
    · intro hc
      simp [open_, close, isOpen, hp, hc, Outcome.state]
  · intro hclosed
    have hp : self.portOpen = false := hclosed
    simp [open_, isOpen, hp]
  · intro s hs
    obtain ⟨h1, -, h3⟩ := openAttempts_three_spec dev s
    refine ⟨h1, fun hf => ?_⟩
    have := h3 hf
    simpa [isOpen, this] using hs
  · intro hclosed
    have hp : self.portOpen = false := hclosed
    simp [close, isOpen, hp]
  · cases hp : self.portOpen <;> cases hc : dev.closeOk <;>
      simp [close, isOpen, hp, hc, Outcome.state]

/-- C11 on an opened reader that is opened again on a good device: the close comes first and
leaves the port closed, and the second `open()` succeeds with one more attempt. -/
theorem open_closes_open_handle_first_witness :
    (openedReader [10]).isOpen = true ∧
    ((openedReader [10]).close goodDevice).state.isOpen = false ∧
    ((openedReader [10]).open_ goodDevice).value? = some true ∧
    ((openedReader [10]).open_ goodDevice).state.portOpenCalls = 2 ∧
    (openedReader [10]).open_ goodDevice =
      ((openedReader [10]).close goodDevice).state.open_ goodDevice :=
  ⟨by decide,
   ((open_closes_open_handle_first goodDevice (openedReader [10])).1 (by decide)).1,
   by decide, by decide,
   ((open_closes_open_handle_first goodDevice (openedReader [10])).1 (by decide)).2.2.2
     (by decide)⟩

theorem terminate_classify (dev : Device) (s : TimeoutSerialThread) :
    (terminate dev s).state.cleanupCalls = s.cleanupCalls + 1 ∧
    (terminate dev s).state.isOpen = false ∧
    (terminate dev s).isRunning = false ∧
    ((terminate dev s).isReturned = true → (terminate dev s).state.isAlive = false) ∧
    ((terminate dev s).isRaised = true → dev.closeOk = false ∧ s.isOpen = true) ∧
    (dev.closeOk = true → (terminate dev s).isReturned = true) := by
  cases hp : s.portOpen <;> cases hc : dev.closeOk <;>
    simp [terminate, cleanup, close, isOpen, isAlive, portCancel, setAlive, hp, hc,
      Step.isRunning, Step.isReturned, Step.isRaised, Step.state]

theorem handleResult_exit (dev : Device) (now : Int) (s : TimeoutSerialThread)
    (h : ExitCondition now s) : handleResult dev now s = terminate dev (timerCancel s) := by
  rcases h with ⟨hres, hcond⟩ | hres | hres
  · rcases hcond with hstop | hlate
    · simp [handleResult, hres, onTimeoutExpired, isStopRequested, timerCancel, hstop]
    · simp [handleResult, hres, onTimeoutExpired, isStopRequested, timerCancel, hlate]
  · simp [handleResult, hres]
  · simp [handleResult, hres]

theorem handleResult_no_exit (dev : Device) (now : Int) (s : TimeoutSerialThread)
    (h : ¬ ExitCondition now s) :
    (handleResult dev now s).isReturned = false ∧
    (handleResult dev now s).state.cleanupCalls = s.cleanupCalls ∧
    ((handleResult dev now s).isRaised = true →
      s.result_ = .resultSuccess ∧ MAX_ALLOC < (handleResult dev now s).state.bytesTransferred_)
    := by
  cases hres : s.result_
  · simp [handleResult, hres, Step.isReturned, Step.state, Step.isRaised]
  · simp only [handleResult, hres, onSuccess]
    split
    · rename_i hbig
      exact ⟨rfl, rfl, fun _ => ⟨trivial, hbig⟩⟩
    · simp [Step.isReturned, Step.state, Step.isRaised, asyncReadUntil, portCancel]
  · exact absurd (Or.inr (Or.inl hres)) h
  · have hstop : s.stopRequested_ = false := by
      cases hh : s.stopRequested_
      · rfl
      · exact absurd (Or.inl ⟨hres, Or.inl hh⟩) h
    have hlate : ¬ (now - s.lastMessageTime ≥ MESSAGE_TIMEOUT) :=
      fun hh => h (Or.inl ⟨hres, Or.inr hh⟩)
    simp [handleResult, hres, onTimeoutExpired, isStopRequested, timerCancel, hstop, hlate,
      Step.isReturned, Step.state, Step.isRaised, timerAsyncWait, timerExpiresFromNow]
  · exact absurd (Or.inr (Or.inr hres)) h

theorem run_one_cleanupCalls (ev : Event) (s : TimeoutSerialThread) :
    (run_one ev s).cleanupCalls = s.cleanupCalls := by
  cases ev with
  | bytes c =>
    simp only [run_one]
    split <;> simp [readCompleted]
  | readFailed => simp [run_one, readCompleted]
  | timerExpired => simp [run_one, timeoutExpired]
  | timerFailed => simp [run_one, timeoutExpired]

theorem handleResult_cleanup (dev : Device) (now : Int) (s : TimeoutSerialThread) :
    ((handleResult dev now s).isRunning = true →
      (handleResult dev now s).state.cleanupCalls = s.cleanupCalls) ∧
    ((handleResult dev now s).isReturned = true →
      ExitCondition now s ∧
      (handleResult dev now s).state.cleanupCalls = s.cleanupCalls + 1 ∧
      (handleResult dev now s).state.isOpen = false ∧
      (handleResult dev now s).state.isAlive = false) := by
  by_cases h : ExitCondition now s
  · rw [handleResult_exit dev now s h]
    obtain ⟨t1, t2, t3, t4, -, -⟩ := terminate_classify dev (timerCancel s)
    refine ⟨fun hr => ?_, fun hr => ⟨h, t1, t2, t4 hr⟩⟩
    rw [t3] at hr
    simp at hr
  · obtain ⟨n1, n2, -⟩ := handleResult_no_exit dev now s h
    refine ⟨fun _ => n2, fun hr => ?_⟩
    rw [n1] at hr
    simp at hr

theorem runLoop_cleanup (dev : Device) (sched : List (Event × Int)) :
    ∀ s : TimeoutSerialThread,
      ((runLoop dev sched s).isRunning = true →
        (runLoop dev sched s).state.cleanupCalls = s.cleanupCalls) ∧
      ((runLoop dev sched s).isReturned = true →
        (runLoop dev sched s).state.cleanupCalls = s.cleanupCalls + 1 ∧
        (runLoop dev sched s).state.isOpen = false ∧
        (runLoop dev sched s).state.isAlive = false) := by
  induction sched with
  | nil =>
    intro s
    simp [runLoop, Step.isRunning, Step.isReturned, Step.state]
  | cons e sched ih =>
    intro s
    obtain ⟨ev, now⟩ := e
    obtain ⟨h1, h2⟩ := handleResult_cleanup dev now (run_one ev s)
    rw [run_one_cleanupCalls] at h1 h2
    cases hit : handleResult dev now (run_one ev s) with
    | running s' =>
      have hrl : runLoop dev ((ev, now) :: sched) s = runLoop dev sched s' := by
        simp [runLoop, iteration, hit]
      rw [hrl]
      rw [hit] at h1
      have hc : s'.cleanupCalls = s.cleanupCalls := h1 rfl
      rw [← hc]
      exact ih s'
    | returned s' =>
      have hrl : runLoop dev ((ev, now) :: sched) s = .returned s' := by
        simp [runLoop, iteration, hit]
      rw [hrl]
      rw [hit] at h2
      exact ⟨fun hr => by simp [Step.isRunning] at hr, fun _ => (h2 rfl).2⟩
    | raised s' =>
      have hrl : runLoop dev ((ev, now) :: sched) s = .raised s' := by
        simp [runLoop, iteration, hit]
      rw [hrl]
      exact ⟨fun hr => by simp [Step.isRunning] at hr, fun hr => by simp [Step.isReturned] at hr⟩

/-- C13. The `switch` returns from `operator()` exactly under the four exit conditions (stop
request or message timeout at a timer expiry, error outcome, outcome outside the
enumeration). Under each of them the loop does not go on, `cleanup()` is entered exactly once
and the device is closed; `operator()` then returns with `isAlive()` false when the device
completes the close request. A step that goes on does not enter `cleanup()`. Hence over a
whole run of the loop, and of `operator()`, a return is preceded by exactly one `cleanup()`
and leaves the device closed and `isAlive()` false. -/
theorem cleanup_exactly_once_on_exit (dev : Device) :
    (∀ (now : Int) (s : TimeoutSerialThread), ExitCondition now s →
      (handleResult dev now s).isRunning = false ∧
      (handleResult dev now s).state.cleanupCalls = s.cleanupCalls + 1 ∧
      (handleResult dev now s).state.isOpen = false ∧
      (dev.closeOk = true →
        (handleResult dev now s).isReturned = true ∧
        (handleResult dev now s).state.isAlive = false)) ∧
    (∀ (now : Int) (s : TimeoutSerialThread),
      ((handleResult dev now s).isReturned = true →
        ExitCondition now s ∧
        (handleResult dev now s).state.cleanupCalls = s.cleanupCalls + 1 ∧
        (handleResult dev now s).state.isOpen = false ∧
        (handleResult dev now s).state.isAlive = false) ∧
      ((handleResult dev now s).isRunning = true →
        (handleResult dev now s).state.cleanupCalls = s.cleanupCalls)) ∧
    (∀ (sched : List (Event × Int)) (s : TimeoutSerialThread),
      ((runLoop dev sched s).isReturned = true →
        (runLoop dev sched s).state.cleanupCalls = s.cleanupCalls + 1 ∧
        (runLoop dev sched s).state.isOpen = false ∧
        (runLoop dev sched s).state.isAlive = false) ∧
      ((runLoop dev sched s).isRunning = true →
        (runLoop dev sched s).state.cleanupCalls = s.cleanupCalls)) ∧
    (∀ (t0 : Int) (sched : List (Event × Int)) (s : TimeoutSerialThread),
      (operatorCall dev t0 sched s).isReturned = true →
        (operatorCall dev t0 sched s).state.cleanupCalls = s.cleanupCalls + 1 ∧
        (operatorCall dev t0 sched s).state.isOpen = false ∧
        (operatorCall dev t0 sched s).state.isAlive = false) := by
  refine ⟨?_, ?_, ?_, ?_⟩
  · intro now s h
    rw [handleResult_exit dev now s h]
    obtain ⟨t1, t2, t3, t4, -, t6⟩ := terminate_classify dev (timerCancel s)
    exact ⟨t3, t1, t2, fun hc => ⟨t6 hc, t4 (t6 hc)⟩⟩
  · intro now s
    obtain ⟨h1, h2⟩ := handleResult_cleanup dev now s
    exact ⟨h2, h1⟩
  · intro sched s
    obtain ⟨h1, h2⟩ := runLoop_cleanup dev sched s
    exact ⟨h2, h1⟩
  · intro t0 sched s hr
    have h := (runLoop_cleanup dev sched (start t0 s)).2 hr
    have hc : (start t0 s).cleanupCalls = s.cleanupCalls := by
      simp [start, asyncReadUntil, timerAsyncWait, timerExpiresFromNow, apply_ite]
    rw [hc] at h
    exact h

/-- C13 on a reader with a per-cycle timeout of 360 s that receives `"ab"`, no delimiter, then
sees the timer expire 360 seconds after the start: `operator()` returns after one
`cleanup()`, closed and not alive. -/
theorem cleanup_exactly_once_on_exit_witness :
    (operatorCall goodDevice 0 [(.bytes [97, 98], 1), (.timerExpired, 360)]
      ((openedReader [10]).setTimeout 360)).isReturned = true ∧
    (operatorCall goodDevice 0 [(.bytes [97, 98], 1), (.timerExpired, 360)]
      ((openedReader [10]).setTimeout 360)).state.cleanupCalls
        = ((openedReader [10]).setTimeout 360).cleanupCalls + 1 ∧
    (operatorCall goodDevice 0 [(.bytes [97, 98], 1), (.timerExpired, 360)]
      ((openedReader [10]).setTimeout 360)).state.isOpen = false ∧
    (operatorCall goodDevice 0 [(.bytes [97, 98], 1), (.timerExpired, 360)]
      ((openedReader [10]).setTimeout 360)).state.isAlive = false :=
  ⟨by decide,
   (cleanup_exactly_once_on_exit goodDevice).2.2.2 0
     [(.bytes [97, 98], 1), (.timerExpired, 360)] ((openedReader [10]).setTimeout 360)
     (by decide)⟩

/-- C12. A reader configured with `setTimeout(seconds(0))` is started at time 0: the initial
arming uses the fallback of 100000 hours. A message arrives at 359999900 s and the timer
expires at 360000000 s, less than 360 s after the message, so the expiry is not terminal: the
loop goes on and re-arms the timer with `timeout_` itself, a zero duration, not the fallback.
The same happens at the first timer expiry when `setTimeout(seconds(0))` is called on a reader
that was started with the default timeout of one second. -/
theorem rearm_uses_zero_timeout :
    ((openedReader [10]).setTimeout 0).timeout_ = 0 ∧
    (((openedReader [10]).setTimeout 0).start 0).timerExpiry = some NO_TIMEOUT_FALLBACK ∧
    (operatorCall goodDevice 0 [(.bytes [97, 10], 359999900)]
      ((openedReader [10]).setTimeout 0)).state.timerExpiry = some NO_TIMEOUT_FALLBACK ∧
    (operatorCall goodDevice 0 [(.bytes [97, 10], 359999900), (.timerExpired, 360000000)]
      ((openedReader [10]).setTimeout 0)).isRunning = true ∧
    (operatorCall goodDevice 0 [(.bytes [97, 10], 359999900), (.timerExpired, 360000000)]
      ((openedReader [10]).setTimeout 0)).state.timerWaits = 1 ∧
    (operatorCall goodDevice 0 [(.bytes [97, 10], 359999900), (.timerExpired, 360000000)]
      ((openedReader [10]).setTimeout 0)).state.timerExpiry = some 0 ∧
    ((((openedReader [10]).start 0).setTimeout 0).iteration goodDevice .timerExpired 1).isRunning
      = true ∧
    ((((openedReader [10]).start 0).setTimeout 0).iteration goodDevice
      .timerExpired 1).state.timerExpiry = some 0 ∧
    (0 : Nat) ≠ NO_TIMEOUT_FALLBACK := by
  decide

/-- C14. A reader with a per-cycle timeout of 360 s is started at time 0 and receives
nothing; the timer expiry at 360 s finds the message timeout elapsed. `operator()` runs
`cleanup()` and returns to its caller: no exception is raised, the device is closed and
`isAlive()` is false. -/
theorem message_timeout_returns_normally :
    (360 : Int) - (((openedReader [10]).setTimeout 360).start 0).lastMessageTime
      ≥ MESSAGE_TIMEOUT ∧
    (operatorCall goodDevice 0 [(.timerExpired, 360)]
      ((openedReader [10]).setTimeout 360)).isReturned = true ∧
    (operatorCall goodDevice 0 [(.timerExpired, 360)]
      ((openedReader [10]).setTimeout 360)).isRaised = false ∧
    (operatorCall goodDevice 0 [(.timerExpired, 360)]
      ((openedReader [10]).setTimeout 360)).state.cleanupCalls = 1 ∧
    (operatorCall goodDevice 0 [(.timerExpired, 360)]
      ((openedReader [10]).setTimeout 360)).state.isOpen = false ∧
    (operatorCall goodDevice 0 [(.timerExpired, 360)]
      ((openedReader [10]).setTimeout 360)).state.isAlive = false := by
  decide

/-! ## Claims C15 and C16: the message queue -/

theorem ThreadSafeQueue.foldl_push {α : Type} (xs : List α) :
    ∀ q : ThreadSafeQueue α, (xs.foldl ThreadSafeQueue.push q).m_queue = q.m_queue ++ xs := by
  induction xs with
  | nil => intro q; simp
  | cons x xs ih =>
    intro q
    simp [List.foldl_cons, ih, ThreadSafeQueue.push]

theorem ThreadSafeQueue.consume_eq {α : Type} (calls : List ThreadSafeQueue.Pop) :
    ∀ (out : α) (l : List α),
      ThreadSafeQueue.consume calls out { m_queue := l } =
        (l.take calls.length, { m_queue := l.drop calls.length }) := by
  induction calls with
  | nil => intro out l; simp [ThreadSafeQueue.consume]
  | cons k ks ih =>
    intro out l
    cases l with
    | nil =>
      cases k <;>
        simp [ThreadSafeQueue.consume, ThreadSafeQueue.popCall, ThreadSafeQueue.tryPopOut,
          ThreadSafeQueue.waitPop, ThreadSafeQueue.waitPopTimed, ih]
    | cons x rest =>
      cases k <;>
        simp [ThreadSafeQueue.consume, ThreadSafeQueue.popCall, ThreadSafeQueue.tryPopOut,
          ThreadSafeQueue.waitPop, ThreadSafeQueue.waitPopTimed, ih]

/-- C15. After `x1..xn` have been pushed in that order on a queue holding `q`, a consumer
making any sequence of `tryPop`, `waitPop` and timed `waitPop` calls is delivered, call by
call, the elements of `q` in their order followed by `x1..xn` in push order: `k` calls deliver
the first `k` of them (all of them when `k` reaches their number, and then the queue is empty).
The elements delivered followed by the elements still queued are `q` followed by `x1..xn`, so
every element is delivered exactly once. -/
theorem queue_is_fifo {α : Type} (q : ThreadSafeQueue α) (xs : List α)
    (calls : List ThreadSafeQueue.Pop) (out : α) :
    ((xs.foldl ThreadSafeQueue.push q).consume calls out).1 =
      (q.m_queue ++ xs).take calls.length ∧
    ((xs.foldl ThreadSafeQueue.push q).consume calls out).2.m_queue =
      (q.m_queue ++ xs).drop calls.length ∧
    ((xs.foldl ThreadSafeQueue.push q).consume calls out).1 ++
      ((xs.foldl ThreadSafeQueue.push q).consume calls out).2.m_queue = q.m_queue ++ xs ∧
    (q.m_queue.length + xs.length ≤ calls.length →
      ((xs.foldl ThreadSafeQueue.push q).consume calls out).1 = q.m_queue ++ xs ∧
      ((xs.foldl ThreadSafeQueue.push q).consume calls out).2.empty = true) := by
  have hq : xs.foldl ThreadSafeQueue.push q = { m_queue := q.m_queue ++ xs } := by
    have := ThreadSafeQueue.foldl_push xs q
    cases hfold : xs.foldl ThreadSafeQueue.push q with
    | mk l =>
      rw [hfold] at this
      simp only at this
      rw [this]
  show (ThreadSafeQueue.consume calls out (xs.foldl ThreadSafeQueue.push q)).1 = _ ∧
    (ThreadSafeQueue.consume calls out (xs.foldl ThreadSafeQueue.push q)).2.m_queue = _ ∧
    (ThreadSafeQueue.consume calls out (xs.foldl ThreadSafeQueue.push q)).1 ++
      (ThreadSafeQueue.consume calls out (xs.foldl ThreadSafeQueue.push q)).2.m_queue = _ ∧
    (_ → (ThreadSafeQueue.consume calls out (xs.foldl ThreadSafeQueue.push q)).1 = _ ∧
      (ThreadSafeQueue.consume calls out (xs.foldl ThreadSafeQueue.push q)).2.empty = true)
  rw [hq, ThreadSafeQueue.consume_eq]
  refine ⟨rfl, rfl, List.take_append_drop _ _, fun hlen => ?_⟩
  have hl : (q.m_queue ++ xs).length ≤ calls.length := by
    simpa [List.length_append] using hlen
  exact ⟨List.take_of_length_le hl, by simp [ThreadSafeQueue.empty, List.drop_of_length_le hl]⟩

/-- C16. Member `tryPop(out)` returns false exactly on an empty queue, and then leaves the
queue and `out` as they were; on a queue with front element `x` and further elements `rest` it
returns true, stores `x` in `out` and leaves exactly `rest`. The consumer of the reader model,
which sees the result as an optional element, gets the same element and the same queue. -/
theorem tryPop_out_spec {α : Type} (q : ThreadSafeQueue α) (out : α) :
    ((q.tryPopOut out).1 = false ↔ q.empty = true) ∧
    (q.empty = true ↔ q.m_queue = []) ∧
    (q.empty = true → q.tryPopOut out = (false, out, q)) ∧
    (∀ (x : α) (rest : List α), q.m_queue = x :: rest →
      q.empty = false ∧ q.tryPopOut out = (true, x, { m_queue := rest })) ∧
    (q.empty = false → ∃ x rest, q.m_queue = x :: rest) ∧
    q.tryPop =
      (if (q.tryPopOut out).1 = true then some (q.tryPopOut out).2.1 else none,
       (q.tryPopOut out).2.2) := by
  obtain ⟨l⟩ := q
  cases l with
  | nil => simp [ThreadSafeQueue.tryPopOut, ThreadSafeQueue.tryPop, ThreadSafeQueue.empty]
  | cons x rest =>
    simp [ThreadSafeQueue.tryPopOut, ThreadSafeQueue.tryPop, ThreadSafeQueue.empty]

/-! ## Claims C17 to C20: the option scanner -/

theorem strchr_of_not_mem (c : Byte) :
    ∀ s : List Byte, c ∉ s → strchr s c = none := by
  intro s
  induction s with
  | nil => intro _; rfl
  | cons x rest ih =>
    intro h
    have hx : x ≠ c := fun e => h (by simp [e])
    have hr : c ∉ rest := fun e => h (by simp [e])
    simp [strchr, hx, ih hr]

theorem strchr_first (c : Byte) (tl : List Byte) :
    ∀ pre : List Byte, c ∉ pre → strchr (pre ++ c :: tl) c = some (c :: tl) := by
  intro pre
  induction pre with
  | nil => intro _; simp [strchr]
  | cons x rest ih =>
    intro h
    have hx : x ≠ c := fun e => h (by simp [e])
    have hr : c ∉ rest := fun e => h (by simp [e])
    simp [strchr, hx, ih hr]

theorem GetOpt.getopt_at_letter (nargv : List (List Byte)) (ostr : List Byte) (self : GetOpt)
    (c : Byte) (rest : List Byte)
    (harg : nargv.get? self.optind = some (45 :: c :: rest)) (h0 : c ≠ 0) (hc : c ≠ 45) :
    GetOpt.getopt nargv ostr self =
      GetOpt.scanLetter nargv ostr c rest { self with optreset := 0 } := by
  have harg' : nargv[self.optind]? = some (45 :: c :: rest) := by simpa using harg
  simp [GetOpt.getopt, EMSG, harg', deref, h0, hc]

/-- C17. When the current element `nargv[optind]` is `-` followed by a character `c` other
than `-`, and `c` does not occur in the option string or is `:`, then `getopt` returns `'?'`
and sets `optopt` to `c`; `optind` moves to the next element when `c` ends the element and
stays otherwise. -/
theorem unknown_option_reported (nargv : List (List Byte)) (ostr : List Byte) (self : GetOpt)
    (c : Byte) (rest : List Byte)
    (harg : nargv.get? self.optind = some (45 :: c :: rest)) (h0 : c ≠ 0) (hc : c ≠ 45)
    (hunknown : c ∉ ostr ∨ c = 58) :
    (GetOpt.getopt nargv ostr self).1 = 63 ∧
    (GetOpt.getopt nargv ostr self).2.optopt = charToInt c ∧
    (GetOpt.getopt nargv ostr self).2.optind =
      (if rest = [] then self.optind + 1 else self.optind) := by
  rw [GetOpt.getopt_at_letter nargv ostr self c rest harg h0 hc]
  have hlook : (if c = 58 then none else strchr ostr c) = none := by
    rcases hunknown with h | h
    · simp [strchr_of_not_mem c ostr h]
    · simp [h]
  simp only [GetOpt.scanLetter, hlook, hc, if_false]
  have hq : charToInt (deref BADCH) = 63 := by decide
  refine ⟨hq, ?_, ?_⟩
  · split <;> split <;> rfl
  · split <;> split <;> simp_all

/-- C17 on the command line `prog -x` with the option string `#:f:` of `main`: the call
returns 63, the code of `'?'`, and `optopt` is 120, the code of `'x'`. -/
theorem unknown_option_reported_witness :
    (GetOpt.getopt [[112, 114, 111, 103], [45, 120]] [35, 58, 102, 58] GetOpt.init).1 = 63 ∧
    (GetOpt.getopt [[112, 114, 111, 103], [45, 120]] [35, 58, 102, 58] GetOpt.init).2.optopt
      = charToInt 120 ∧
    (GetOpt.getopt [[112, 114, 111, 103], [45, 120]] [35, 58, 102, 58] GetOpt.init).2.optind
      = (if ([] : List Byte) = [] then GetOpt.init.optind + 1 else GetOpt.init.optind) :=
  unknown_option_reported [[112, 114, 111, 103], [45, 120]] [35, 58, 102, 58] GetOpt.init
    120 [] (by decide) (by decide) (by decide) (Or.inl (by decide))

/-- C18, amended. Let `c` be a character other than NUL, `-` and `:` whose first occurrence in
the option string is followed by `:`. When the current element is `-c` followed by non-empty
text `T`, `getopt` returns `c`, sets `optarg` to `T` and advances `optind` by 1; when the
current element is exactly `-c` and a following element exists, `getopt` returns `c`, sets
`optarg` to that element and advances `optind` by 2. -/
theorem option_argument_taken (nargv : List (List Byte)) (pre post : List Byte) (self : GetOpt)
    (c : Byte) (h0 : c ≠ 0) (hc : c ≠ 45) (hcolon : c ≠ 58) (hfirst : c ∉ pre) :
    (∀ T : List Byte, T ≠ [] → nargv.get? self.optind = some (45 :: c :: T) →
      (GetOpt.getopt nargv (pre ++ c :: 58 :: post) self).1 = charToInt c ∧
      (GetOpt.getopt nargv (pre ++ c :: 58 :: post) self).2.optarg = some T ∧
      (GetOpt.getopt nargv (pre ++ c :: 58 :: post) self).2.optind = self.optind + 1) ∧
    (∀ next : List Byte, nargv.get? self.optind = some [45, c] →
      nargv.get? (self.optind + 1) = some next →
      (GetOpt.getopt nargv (pre ++ c :: 58 :: post) self).1 = charToInt c ∧
      (GetOpt.getopt nargv (pre ++ c :: 58 :: post) self).2.optarg = some next ∧
      (GetOpt.getopt nargv (pre ++ c :: 58 :: post) self).2.optind = self.optind + 2) := by
  have hlook : (if c = 58 then none else strchr (pre ++ c :: 58 :: post) c) =
      some (c :: 58 :: post) := by
    simp [hcolon, strchr_first c (58 :: post) pre hfirst]
  constructor
  · intro T hT harg
    rw [GetOpt.getopt_at_letter nargv _ self c T harg h0 hc]
    cases T with
    | nil => exact absurd rfl hT
    | cons t ts => simp [GetOpt.scanLetter, hlook, deref]
  · intro next harg hnext
    rw [GetOpt.getopt_at_letter nargv _ self c [] harg h0 hc]
    have hnext' : nargv[self.optind + 1]? = some next := by simpa using hnext
    simp [GetOpt.scanLetter, hlook, deref, hnext']

/-- C18, amended, on the command lines `prog -fcfg` and `prog -f cfg` with the option string
`#:f:` of `main`. -/
theorem option_argument_taken_witness :
    (GetOpt.getopt [[112, 114, 111, 103], [45, 102, 99, 102, 103]] [35, 58, 102, 58]
      GetOpt.init).1 = charToInt 102 ∧
    (GetOpt.getopt [[112, 114, 111, 103], [45, 102, 99, 102, 103]] [35, 58, 102, 58]
      GetOpt.init).2.optarg = some [99, 102, 103] ∧
    (GetOpt.getopt [[112, 114, 111, 103], [45, 102], [99, 102, 103]] [35, 58, 102, 58]
      GetOpt.init).2.optarg = some [99, 102, 103] ∧
    (GetOpt.getopt [[112, 114, 111, 103], [45, 102], [99, 102, 103]] [35, 58, 102, 58]
      GetOpt.init).2.optind = GetOpt.init.optind + 2 :=
  ⟨((option_argument_taken [[112, 114, 111, 103], [45, 102, 99, 102, 103]] [35, 58] [] GetOpt.init
      102 (by decide) (by decide) (by decide) (by decide)).1 [99, 102, 103] (by decide)
      (by decide)).1,
   ((option_argument_taken [[112, 114, 111, 103], [45, 102, 99, 102, 103]] [35, 58] [] GetOpt.init
      102 (by decide) (by decide) (by decide) (by decide)).1 [99, 102, 103] (by decide)
      (by decide)).2.1,
   ((option_argument_taken [[112, 114, 111, 103], [45, 102], [99, 102, 103]] [35, 58] []
      GetOpt.init 102 (by decide) (by decide) (by decide) (by decide)).2 [99, 102, 103]
      (by decide) (by decide)).2.1,
   ((option_argument_taken [[112, 114, 111, 103], [45, 102], [99, 102, 103]] [35, 58] []
      GetOpt.init 102 (by decide) (by decide) (by decide) (by decide)).2 [99, 102, 103]
      (by decide) (by decide)).2.2⟩

/-- C18 as stated fails when the first occurrence of `c` in the option string is not the one
followed by `:`. With the option string `aa:` and the command line `prog -aT`, the character
`a` is followed by `:` in the option string and the current element is `-a` followed by `T`,
yet `getopt` returns `a` with `optarg` null and `optind` not advanced. -/
theorem option_argument_not_taken_after_first_entry :
    (GetOpt.getopt [[112, 114, 111, 103], [45, 97, 84]] [97, 97, 58] GetOpt.init).1
      = charToInt 97 ∧
    (GetOpt.getopt [[112, 114, 111, 103], [45, 97, 84]] [97, 97, 58] GetOpt.init).2.optarg
      = none ∧
    (GetOpt.getopt [[112, 114, 111, 103], [45, 97, 84]] [97, 97, 58] GetOpt.init).2.optarg
      ≠ some [84] ∧
    (GetOpt.getopt [[112, 114, 111, 103], [45, 97, 84]] [97, 97, 58] GetOpt.init).2.optind
      = GetOpt.init.optind := by
  decide

theorem GetOpt.getoptCalls_fixed (nargv : List (List Byte)) (ostr : List Byte) (r : Int)
    (s : GetOpt) (hfix : GetOpt.getopt nargv ostr s = (r, s)) :
    ∀ n, GetOpt.getoptCalls nargv ostr n s = (List.replicate n r, s) := by
  intro n
  induction n with
  | zero => rfl
  | succ n ih => simp [GetOpt.getoptCalls, hfix, ih, List.replicate_succ]

theorem GetOpt.getoptCalls_stuck (nargv : List (List Byte)) (ostr : List Byte) (r : Int)
    (k : Nat)
    (hstep : ∀ s : GetOpt, s.optind = k →
      (GetOpt.getopt nargv ostr s).1 = r ∧ (GetOpt.getopt nargv ostr s).2.optind = k) :
    ∀ (n : Nat) (s : GetOpt), s.optind = k →
      (GetOpt.getoptCalls nargv ostr n s).1 = List.replicate n r ∧
      (GetOpt.getoptCalls nargv ostr n s).2.optind = k := by
  intro n
  induction n with
  | zero => intro s hs; exact ⟨rfl, hs⟩
  | succ n ih =>
    intro s hs
    obtain ⟨h1, h2⟩ := hstep s hs
    obtain ⟨i1, i2⟩ := ih _ h2
    exact ⟨by simp [GetOpt.getoptCalls, h1, i1, List.replicate_succ],
      by simpa [GetOpt.getoptCalls] using i2⟩

/-- C19. On the command line `prog -ab` with the option string `ab`, every call of `getopt` on
a new `GetOpt` object returns `a`: `n` successive calls return `n` times 97, never 98, the
code of `b`, and never -1, and `optind` stays at 1. On the command line `prog -xy` with the
option string `#:f:` of `main`, every call returns `'?'` and `optind` stays at 1, so the loop
of `main` does not end. -/
theorem getopt_rescans_element_from_start :
    (∀ n : Nat,
      (GetOpt.getoptCalls [[112, 114, 111, 103], [45, 97, 98]] [97, 98] n GetOpt.init).1 =
        List.replicate n 97 ∧
      (GetOpt.getoptCalls [[112, 114, 111, 103], [45, 97, 98]] [97, 98] n GetOpt.init).2.optind
        = 1) ∧
    (GetOpt.getoptCalls [[112, 114, 111, 103], [45, 97, 98]] [97, 98] 2 GetOpt.init).1
      ≠ [97, 98] ∧
    (∀ n : Nat,
      (GetOpt.getoptCalls [[112, 114, 111, 103], [45, 120, 121]] [35, 58, 102, 58] n
        GetOpt.init).1 = List.replicate n 63 ∧
      (GetOpt.getoptCalls [[112, 114, 111, 103], [45, 120, 121]] [35, 58, 102, 58] n
        GetOpt.init).2.optind = 1) := by
  refine ⟨fun n => ?_, by decide, fun n => ?_⟩
  · cases n with
    | zero => exact ⟨rfl, rfl⟩
    | succ n =>
      have h1 : GetOpt.getopt [[112, 114, 111, 103], [45, 97, 98]] [97, 98] GetOpt.init =
          (97, ⟨1, 97, 1, none, 0, []⟩) := by decide
      have h2 : GetOpt.getopt [[112, 114, 111, 103], [45, 97, 98]] [97, 98]
          ⟨1, 97, 1, none, 0, []⟩ = (97, ⟨1, 97, 1, none, 0, []⟩) := by
        decide
      have h3 := GetOpt.getoptCalls_fixed _ _ _ _ h2 n
      rw [GetOpt.getoptCalls, h1]
      simp only [h3, List.replicate_succ]
      constructor <;> trivial
  · refine GetOpt.getoptCalls_stuck _ _ 63 1 ?_ n GetOpt.init rfl
    intro s hs
    have harg : ([[112, 114, 111, 103], [45, 120, 121]] : List (List Byte)).get? s.optind
        = some (45 :: 120 :: [121]) := by rw [hs]; rfl
    rw [GetOpt.getopt_at_letter _ _ s 120 [121] harg (by decide) (by decide)]
    have hlook : (if (120 : Byte) = 58 then none else strchr [35, 58, 102, 58] 120) = none := by
      decide
    simp only [GetOpt.scanLetter, hlook]
    have hq : charToInt (deref BADCH) = 63 := by decide
    refine ⟨?_, ?_⟩
    · simpa using hq
    · repeat' split
      all_goals simp_all

/-- C20. On the command line `prog -f`, where the option `f` requires an argument and is the
last element: with the option string `f:` the call returns `'?'` (63) and `optopt` is `f`;
with the option string `:f:` the call returns `';'` (59), the first character of `BADARG`,
and not `':'` (58); `optopt` is `f` there too. -/
theorem missing_argument_returns_semicolon :
    (GetOpt.getopt [[112, 114, 111, 103], [45, 102]] [102, 58] GetOpt.init).1 = 63 ∧
    (GetOpt.getopt [[112, 114, 111, 103], [45, 102]] [102, 58] GetOpt.init).2.optopt
      = charToInt 102 ∧
    (GetOpt.getopt [[112, 114, 111, 103], [45, 102]] [58, 102, 58] GetOpt.init).1 = 59 ∧
    (GetOpt.getopt [[112, 114, 111, 103], [45, 102]] [58, 102, 58] GetOpt.init).1 ≠ 58 ∧
    (GetOpt.getopt [[112, 114, 111, 103], [45, 102]] [58, 102, 58] GetOpt.init).2.optopt
      = charToInt 102 ∧
    charToInt (deref BADARG) = 59 := by
  decide

/-! ## Claims C21 to C24: clock, timer, outstanding operations and flags -/

theorem terminate_lastMessageTime (dev : Device) (s : TimeoutSerialThread) :
    (terminate dev s).state.lastMessageTime = s.lastMessageTime := by
  cases hp : s.portOpen <;> cases hc : dev.closeOk <;>
    simp [terminate, cleanup, close, isOpen, portCancel, setAlive, hp, hc, Step.state]

theorem run_one_lastMessageTime (ev : Event) (s : TimeoutSerialThread) :
    (run_one ev s).lastMessageTime = s.lastMessageTime := by
  cases ev with
  | bytes c =>
    simp only [run_one]
    split <;> simp [readCompleted]
  | readFailed => simp [run_one, readCompleted]
  | timerExpired => simp [run_one, timeoutExpired]
  | timerFailed => simp [run_one, timeoutExpired]

theorem run_one_result_of_not_bytes (ev : Event) (s : TimeoutSerialThread)
    (hev : ev.isBytes = false) : (run_one ev s).result_ ≠ .resultSuccess := by
  cases ev with
  | bytes c => simp [Event.isBytes] at hev
  | readFailed => simp [run_one, readCompleted]
  | timerExpired => simp [run_one, timeoutExpired]
  | timerFailed => simp [run_one, timeoutExpired]

theorem handleResult_lastMessageTime (dev : Device) (now : Int) (s : TimeoutSerialThread) :
    (s.result_ ≠ .resultSuccess →
      (handleResult dev now s).state.lastMessageTime = s.lastMessageTime) ∧
    (s.result_ = .resultSuccess → (handleResult dev now s).isRunning = true →
      (handleResult dev now s).state.lastMessageTime = now) ∧
    (s.result_ = .resultSuccess → (handleResult dev now s).isRunning = false →
      (handleResult dev now s).state.lastMessageTime = s.lastMessageTime) := by
  cases hres : s.result_
  · simp [handleResult, hres, Step.state]
  · simp only [handleResult, hres, onSuccess]
    split <;> simp [Step.state, Step.isRunning, portCancel, asyncReadUntil]
  · simp [handleResult, hres, terminate_lastMessageTime, timerCancel]
  · simp only [handleResult, hres, onTimeoutExpired]
    refine ⟨fun _ => ?_, by simp, by simp⟩
    split
    · simp [terminate_lastMessageTime, timerCancel]
    · simp [Step.state, timerAsyncWait, timerExpiresFromNow, timerCancel]
  · simp [handleResult, hres, terminate_lastMessageTime, timerCancel]

theorem runLoop_lastMessageTime_of_no_bytes (dev : Device) (sched : List (Event × Int)) :
    ∀ s : TimeoutSerialThread, (∀ e ∈ sched, e.1.isBytes = false) →
      (runLoop dev sched s).state.lastMessageTime = s.lastMessageTime := by
  induction sched with
  | nil => intro s _; rfl
  | cons e sched ih =>
    intro s hall
    obtain ⟨ev, now⟩ := e
    have hev : ev.isBytes = false := hall (ev, now) (by simp)
    have hstep : (iteration dev ev now s).state.lastMessageTime = s.lastMessageTime := by
      rw [iteration, (handleResult_lastMessageTime dev now (run_one ev s)).1
        (run_one_result_of_not_bytes ev s hev), run_one_lastMessageTime]
    cases hit : iteration dev ev now s with
    | running s' =>
      have hrl : runLoop dev ((ev, now) :: sched) s = runLoop dev sched s' := by
        simp [runLoop, hit]
      rw [hit] at hstep
      rw [hrl, ih s' (fun e he => hall e (by simp [he]))]
      exact hstep
    | returned s' =>
      have hrl : runLoop dev ((ev, now) :: sched) s = .returned s' := by simp [runLoop, hit]
      rw [hit] at hstep
      rw [hrl]
      exact hstep
    | raised s' =>
      have hrl : runLoop dev ((ev, now) :: sched) s = .raised s' := by simp [runLoop, hit]
      rw [hit] at hstep
      rw [hrl]
      exact hstep

theorem runLoop_append (dev : Device) (a b : List (Event × Int)) :
    ∀ s : TimeoutSerialThread,
      runLoop dev (a ++ b) s =
        match runLoop dev a s with
        | .running s' => runLoop dev b s'
        | done => done := by
  induction a with
  | nil => intro s; simp [runLoop]
  | cons e a ih =>
    intro s
    obtain ⟨ev, now⟩ := e
    cases hit : iteration dev ev now s with
    | running s' => simp [runLoop, hit, ih]
    | returned s' => simp [runLoop, hit]
    | raised s' => simp [runLoop, hit]

/-- C21. The liveness clock `lastMessageTime` is written by the loop only in the Success
step, which stores the current time. The handler run by `io_.run_one()` leaves it as it is; so
does the step on every other outcome: a timer expiry, terminal or not, `resultInProgress`, an
error, an outcome outside the enumeration, and a Success step left by an exception. Hence any
number of iterations that handle no bytes leaves the clock where it was, and a timer expiry
that comes 360 seconds or more after that clock value ends the loop whatever number of timer
expiries came before it. -/
theorem liveness_clock_reset_only_on_success (dev : Device) :
    (∀ (ev : Event) (s : TimeoutSerialThread),
      (run_one ev s).lastMessageTime = s.lastMessageTime) ∧
    (∀ (now : Int) (s : TimeoutSerialThread), s.result_ = .resultSuccess →
      (handleResult dev now s).isRunning = true →
      (handleResult dev now s).state.lastMessageTime = now) ∧
    (∀ (now : Int) (s : TimeoutSerialThread),
      s.result_ ≠ .resultSuccess ∨ (handleResult dev now s).isRunning = false →
      (handleResult dev now s).state.lastMessageTime = s.lastMessageTime) ∧
    (∀ (now : Int) (s : TimeoutSerialThread),
      (iteration dev .timerExpired now s).state.lastMessageTime = s.lastMessageTime) ∧
    (∀ (sched : List (Event × Int)) (s : TimeoutSerialThread),
      (∀ e ∈ sched, e.1.isBytes = false) →
      (runLoop dev sched s).state.lastMessageTime = s.lastMessageTime) ∧
    (∀ (sched : List (Event × Int)) (now : Int) (s : TimeoutSerialThread),
      (∀ e ∈ sched, e.1.isBytes = false) → now - s.lastMessageTime ≥ MESSAGE_TIMEOUT →
      (runLoop dev (sched ++ [(.timerExpired, now)]) s).isRunning = false) := by
  refine ⟨run_one_lastMessageTime, ?_, ?_, ?_, ?_, ?_⟩
  · intro now s hres hrun
    exact (handleResult_lastMessageTime dev now s).2.1 hres hrun
  · intro now s h
    by_cases hres : s.result_ = .resultSuccess
    · rcases h with h | h
      · exact absurd hres h
      · exact (handleResult_lastMessageTime dev now s).2.2 hres h
    · exact (handleResult_lastMessageTime dev now s).1 hres
  · intro now s
    rw [iteration, (handleResult_lastMessageTime dev now (run_one .timerExpired s)).1
      (run_one_result_of_not_bytes .timerExpired s rfl), run_one_lastMessageTime]
  · intro sched s hall
    exact runLoop_lastMessageTime_of_no_bytes dev sched s hall
  · intro sched now s hall hlate
    rw [runLoop_append]
    have hclock := runLoop_lastMessageTime_of_no_bytes dev sched s hall
    cases hrl : runLoop dev sched s with
    | running s' =>
      rw [hrl] at hclock
      simp only [Step.state] at hclock
      have hexit : ExitCondition now (run_one .timerExpired s') := by
        refine Or.inl ⟨by simp [run_one, timeoutExpired], Or.inr ?_⟩
        rw [run_one_lastMessageTime, hclock]
        exact hlate
      have hterm := handleResult_exit dev now _ hexit
      simp only [runLoop, iteration, hterm]
      have hnot := (terminate_classify dev (timerCancel (run_one .timerExpired s'))).2.2.1
      cases hT : terminate dev (timerCancel (run_one .timerExpired s')) with
      | running x => rw [hT] at hnot; simp [Step.isRunning] at hnot
      | returned x => simp [Step.isRunning]
      | raised x => simp [Step.isRunning]
    | returned s' => simp [Step.isRunning]
    | raised s' => simp [Step.isRunning]

/-- C21 on a reader with a per-cycle timeout of 100 s started at time 0: after the timer
expiries at 100 s, 200 s and 300 s the clock still reads 0, and the expiry at 400 s ends the
loop. -/
theorem liveness_clock_reset_only_on_success_witness :
    (runLoop goodDevice [(.timerExpired, 100), (.timerExpired, 200), (.timerExpired, 300)]
      (((openedReader [10]).setTimeout 100).start 0)).state.lastMessageTime
      = (((openedReader [10]).setTimeout 100).start 0).lastMessageTime ∧
    (runLoop goodDevice
      ([(.timerExpired, 100), (.timerExpired, 200), (.timerExpired, 300)] ++
        [(.timerExpired, 400)])
      (((openedReader [10]).setTimeout 100).start 0)).isRunning = false :=
  ⟨(liveness_clock_reset_only_on_success goodDevice).2.2.2.2.1
      [(.timerExpired, 100), (.timerExpired, 200), (.timerExpired, 300)]
      (((openedReader [10]).setTimeout 100).start 0) (by decide),
   (liveness_clock_reset_only_on_success goodDevice).2.2.2.2.2
      [(.timerExpired, 100), (.timerExpired, 200), (.timerExpired, 300)] 400
      (((openedReader [10]).setTimeout 100).start 0) (by decide) (by decide)⟩

theorem terminate_timer (dev : Device) (s : TimeoutSerialThread) :
    (terminate dev s).state.timerArmings = s.timerArmings ∧
    (terminate dev s).state.timerExpiry = s.timerExpiry ∧
    (terminate dev s).state.timerWaits = s.timerWaits := by
  cases hp : s.portOpen <;> cases hc : dev.closeOk <;>
    simp [terminate, cleanup, close, isOpen, portCancel, setAlive, hp, hc, Step.state]

theorem handleResult_success_timer (dev : Device) (now : Int) (s : TimeoutSerialThread)
    (hres : s.result_ = .resultSuccess) :
    (handleResult dev now s).state.timerArmings = s.timerArmings ∧
    (handleResult dev now s).state.timerExpiry = s.timerExpiry ∧
    (handleResult dev now s).state.timerWaits = s.timerWaits ∧
    ((handleResult dev now s).isRunning = true →
      (handleResult dev now s).state.pendingReads = 1 ∧
      (handleResult dev now s).state.result_ = .resultInProgress) := by
  simp only [handleResult, hres, onSuccess]
  split <;> simp [Step.state, Step.isRunning, portCancel, asyncReadUntil]

theorem handleResult_timeout_timer (dev : Device) (now : Int) (s : TimeoutSerialThread)
    (hres : s.result_ = .resultTimeoutExpired)
    (hrun : (handleResult dev now s).isRunning = true) :
    (handleResult dev now s).state.timerArmings = s.timerArmings + 1 ∧
    (handleResult dev now s).state.timerExpiry = some s.timeout_ ∧
    (handleResult dev now s).state.timerWaits = 1 ∧
    (handleResult dev now s).state.pendingReads = s.pendingReads ∧
    (handleResult dev now s).state.result_ = .resultInProgress := by
  by_cases hexit : ExitCondition now s
  · have hT := (terminate_classify dev (timerCancel s)).2.2.1
    rw [handleResult_exit dev now s hexit, hT] at hrun
    simp at hrun
  · have hstop : s.stopRequested_ = false := by
      cases hh : s.stopRequested_
      · rfl
      · exact absurd (Or.inl ⟨hres, Or.inl hh⟩) hexit
    have hlate : ¬ (now - s.lastMessageTime ≥ MESSAGE_TIMEOUT) :=
      fun hh => hexit (Or.inl ⟨hres, Or.inr hh⟩)
    simp [handleResult, hres, onTimeoutExpired, isStopRequested, timerCancel, hstop, hlate,
      Step.state, timerAsyncWait, timerExpiresFromNow]

theorem run_one_bytes_timer (c : List Byte) (s : TimeoutSerialThread) :
    (run_one (.bytes c) s).timerArmings = s.timerArmings ∧
    (run_one (.bytes c) s).timerExpiry = s.timerExpiry ∧
    (run_one (.bytes c) s).timerWaits = s.timerWaits := by
  simp only [run_one]
  split <;> simp [readCompleted]

theorem handleResult_inProgress (dev : Device) (now : Int) (s : TimeoutSerialThread)
    (hres : s.result_ = .resultInProgress) : handleResult dev now s = .running s := by
  simp [handleResult, hres]

/-- C22, amended. The Success step cancels the operations on the port, not the timer: it
leaves the timer as it is (no `expires_from_now` call, the expiry set and the wait outstanding
unchanged) and issues one new read. The timer is armed once by the preamble of `operator()`
and again only by a timer-expiry step that goes on, which arms it for `timeout_` and issues
one new wait. An iteration whose handler delivers bytes, completing the read or not, leaves the
timer as it is. -/
theorem success_step_leaves_timer (dev : Device) (now : Int) (s : TimeoutSerialThread) :
    (s.result_ = .resultSuccess →
      (handleResult dev now s).state.timerArmings = s.timerArmings ∧
      (handleResult dev now s).state.timerExpiry = s.timerExpiry ∧
      (handleResult dev now s).state.timerWaits = s.timerWaits ∧
      ((handleResult dev now s).isRunning = true →
        (handleResult dev now s).state.pendingReads = 1)) ∧
    (s.result_ = .resultTimeoutExpired → (handleResult dev now s).isRunning = true →
      (handleResult dev now s).state.timerArmings = s.timerArmings + 1 ∧
      (handleResult dev now s).state.timerExpiry = some s.timeout_ ∧
      (handleResult dev now s).state.timerWaits = 1) ∧
    ((start now s).timerArmings = s.timerArmings + 1 ∧ (start now s).timerWaits = 1) ∧
    (∀ c : List Byte, s.result_ = .resultInProgress →
      (iteration dev (.bytes c) now s).state.timerArmings = s.timerArmings ∧
      (iteration dev (.bytes c) now s).state.timerExpiry = s.timerExpiry ∧
      (iteration dev (.bytes c) now s).state.timerWaits = s.timerWaits) := by
  refine ⟨fun hres => ?_, fun hres hrun => ?_, ?_, fun c hres => ?_⟩
  · obtain ⟨h1, h2, h3, h4⟩ := handleResult_success_timer dev now s hres
    exact ⟨h1, h2, h3, fun hr => (h4 hr).1⟩
  · obtain ⟨h1, h2, h3, -, -⟩ := handleResult_timeout_timer dev now s hres hrun
    exact ⟨h1, h2, h3⟩
  · by_cases ht : s.timeout_ = 0 <;>
      simp [start, ht, asyncReadUntil, timerAsyncWait, timerExpiresFromNow]
  · obtain ⟨r1, r2, r3⟩ := run_one_bytes_timer c s
    have hcase : (run_one (.bytes c) s).result_ = .resultSuccess ∨
        run_one (.bytes c) s = { s with readData_ := s.readData_ ++ c } := by
      simp only [run_one]
      split
      · left; simp [readCompleted]
      · right; rfl
    rcases hcase with hs | hn
    · obtain ⟨h1, h2, h3, -⟩ := handleResult_success_timer dev now _ hs
      rw [iteration, h1, h2, h3]
      exact ⟨r1, r2, r3⟩
    · have hsame : (run_one (.bytes c) s).result_ = .resultInProgress := by rw [hn]; exact hres
      rw [iteration, handleResult_inProgress dev now _ hsame]
      exact ⟨r1, r2, r3⟩

/-- C22, amended, on a reader with a per-cycle timeout of 5 s in which a read has completed
with 2 bytes. -/
theorem success_step_leaves_timer_witness :
    (handleResult goodDevice 3
      (run_one (.bytes [97, 10]) (((openedReader [10]).setTimeout 5).start 0))).state.timerArmings
      = (run_one (.bytes [97, 10]) (((openedReader [10]).setTimeout 5).start 0)).timerArmings ∧
    (handleResult goodDevice 3
      (run_one (.bytes [97, 10]) (((openedReader [10]).setTimeout 5).start 0))).state.timerWaits
      = (run_one (.bytes [97, 10]) (((openedReader [10]).setTimeout 5).start 0)).timerWaits :=
  ⟨((success_step_leaves_timer goodDevice 3
      (run_one (.bytes [97, 10]) (((openedReader [10]).setTimeout 5).start 0))).1
      (by decide)).1,
   ((success_step_leaves_timer goodDevice 3
      (run_one (.bytes [97, 10]) (((openedReader [10]).setTimeout 5).start 0))).1
      (by decide)).2.2.1⟩

/-- C22 as stated fails. A reader with a per-cycle timeout of 5 s is started at time 0, which
arms the timer once and issues one wait. The message `a` and its delimiter arrive at 3 s: the
Success step pushes the message and goes on, and the timer has still been armed once only,
with the wait of the start outstanding: it was neither cancelled nor armed again. The timer
expiry at 5 s, two seconds after the message, is what arms it the second time. -/
theorem success_step_does_not_rearm_timer :
    (((openedReader [10]).setTimeout 5).start 0).timerArmings = 1 ∧
    (((openedReader [10]).setTimeout 5).start 0).timerWaits = 1 ∧
    (operatorCall goodDevice 0 [(.bytes [97, 10], 3)]
      ((openedReader [10]).setTimeout 5)).isRunning = true ∧
    (operatorCall goodDevice 0 [(.bytes [97, 10], 3)]
      ((openedReader [10]).setTimeout 5)).state.queue_.m_queue = [[97]] ∧
    (operatorCall goodDevice 0 [(.bytes [97, 10], 3)]
      ((openedReader [10]).setTimeout 5)).state.timerArmings = 1 ∧
    (operatorCall goodDevice 0 [(.bytes [97, 10], 3)]
      ((openedReader [10]).setTimeout 5)).state.timerWaits = 1 ∧
    (operatorCall goodDevice 0 [(.bytes [97, 10], 3)]
      ((openedReader [10]).setTimeout 5)).state.timerExpiry = some 5 ∧
    (operatorCall goodDevice 0 [(.bytes [97, 10], 3), (.timerExpired, 5)]
      ((openedReader [10]).setTimeout 5)).state.timerArmings = 2 := by
  decide

theorem run_one_of_waiting (ev : Event) (s : TimeoutSerialThread) (h : Waiting s) :
    ((run_one ev s).result_ = .resultInProgress ∧ (run_one ev s).pendingReads = 1 ∧
      (run_one ev s).timerWaits = 1) ∨
    ((run_one ev s).result_ = .resultSuccess ∧ (run_one ev s).pendingReads = 0 ∧
      (run_one ev s).timerWaits = 1) ∨
    ((run_one ev s).result_ = .resultTimeoutExpired ∧ (run_one ev s).pendingReads = 1 ∧
      (run_one ev s).timerWaits = 0) ∨
    (run_one ev s).result_ = .resultError := by
  obtain ⟨hr, ht, hres⟩ := h
  cases ev with
  | bytes c =>
    simp only [run_one]
    split
    · right; left
      simp [readCompleted, hr, ht]
    · left
      exact ⟨hres, hr, ht⟩
  | readFailed => right; right; right; simp [run_one, readCompleted]
  | timerExpired => right; right; left; simp [run_one, timeoutExpired, hr, ht]
  | timerFailed => right; right; right; simp [run_one, timeoutExpired]

theorem handleResult_error_not_running (dev : Device) (now : Int) (s : TimeoutSerialThread)
    (hres : s.result_ = .resultError) : (handleResult dev now s).isRunning = false := by
  rw [handleResult_exit dev now s (Or.inr (Or.inl hres))]
  exact (terminate_classify dev (timerCancel s)).2.2.1

theorem iteration_waiting (dev : Device) (ev : Event) (now : Int) (s : TimeoutSerialThread)
    (h : Waiting s) (hrun : (iteration dev ev now s).isRunning = true) :
    Waiting (iteration dev ev now s).state := by
  rw [iteration] at hrun ⊢
  rcases run_one_of_waiting ev s h with ⟨h1, h2, h3⟩ | ⟨h1, h2, h3⟩ | ⟨h1, h2, h3⟩ | h1
  · rw [handleResult_inProgress dev now _ h1]
    exact ⟨h2, h3, h1⟩
  · obtain ⟨-, -, t3, t4⟩ := handleResult_success_timer dev now _ h1
    exact ⟨(t4 hrun).1, by rw [t3, h3], (t4 hrun).2⟩
  · obtain ⟨-, -, t3, t4, t5⟩ := handleResult_timeout_timer dev now _ h1 hrun
    exact ⟨by rw [t4, h2], t3, t5⟩
  · rw [handleResult_error_not_running dev now _ h1] at hrun
    simp at hrun

theorem runLoop_waiting (dev : Device) (sched : List (Event × Int)) :
    ∀ s : TimeoutSerialThread, Waiting s → (runLoop dev sched s).isRunning = true →
      Waiting (runLoop dev sched s).state := by
  induction sched with
  | nil => intro s h _; exact h
  | cons e sched ih =>
    intro s h hrun
    obtain ⟨ev, now⟩ := e
    cases hit : iteration dev ev now s with
    | running s' =>
      have hrl : runLoop dev ((ev, now) :: sched) s = runLoop dev sched s' := by
        simp [runLoop, hit]
      have hw : Waiting s' := by
        have := iteration_waiting dev ev now s h (by rw [hit]; rfl)
        rw [hit] at this
        exact this
      rw [hrl] at hrun ⊢
      exact ih s' hw hrun
    | returned s' =>
      have hrl : runLoop dev ((ev, now) :: sched) s = .returned s' := by simp [runLoop, hit]
      rw [hrl] at hrun
      simp [Step.isRunning] at hrun
    | raised s' =>
      have hrl : runLoop dev ((ev, now) :: sched) s = .raised s' := by simp [runLoop, hit]
      rw [hrl] at hrun
      simp [Step.isRunning] at hrun

theorem start_waiting (t0 : Int) (s : TimeoutSerialThread) (h : s.pendingReads = 0) :
    Waiting (start t0 s) := by
  by_cases ht : s.timeout_ = 0 <;>
    simp [Waiting, start, ht, asyncReadUntil, timerAsyncWait, timerExpiresFromNow, h]

/-- C23. Let `operator()` be entered on a reader with no read outstanding. At every wait of
the loop, that is after the preamble and after every number of iterations that leaves the loop
running, exactly one read and exactly one timer wait are outstanding and `result_` is
`resultInProgress`. From such a wait the handler run by `io_.run_one()` either completes
nothing, or completes the read (no read left, the timer wait untouched), or completes the
timer wait (no wait left, the read untouched), or reports an error, which ends the loop. The
Success step then issues the one new read and no timer wait; the timer-expiry step that goes
on issues the one new timer wait and no read; a step on `resultInProgress` issues nothing. -/
theorem one_read_and_one_timer_wait (dev : Device) (t0 : Int) (s : TimeoutSerialThread)
    (hidle : s.pendingReads = 0) :
    Waiting (start t0 s) ∧
    (∀ sched : List (Event × Int), (operatorCall dev t0 sched s).isRunning = true →
      Waiting (operatorCall dev t0 sched s).state) ∧
    (∀ (w : TimeoutSerialThread) (ev : Event) (now : Int), Waiting w →
      (iteration dev ev now w).isRunning = true → Waiting (iteration dev ev now w).state) ∧
    (∀ (w : TimeoutSerialThread) (ev : Event), Waiting w →
      ((run_one ev w).result_ = .resultInProgress ∧ (run_one ev w).pendingReads = 1 ∧
        (run_one ev w).timerWaits = 1) ∨
      ((run_one ev w).result_ = .resultSuccess ∧ (run_one ev w).pendingReads = 0 ∧
        (run_one ev w).timerWaits = 1) ∨
      ((run_one ev w).result_ = .resultTimeoutExpired ∧ (run_one ev w).pendingReads = 1 ∧
        (run_one ev w).timerWaits = 0) ∨
      ((run_one ev w).result_ = .resultError ∧
        (iteration dev ev 0 w).isRunning = false)) ∧
    (∀ (w : TimeoutSerialThread) (now : Int), w.result_ = .resultSuccess →
      (handleResult dev now w).isRunning = true →
      (handleResult dev now w).state.pendingReads = 1 ∧
      (handleResult dev now w).state.timerWaits = w.timerWaits ∧
      (handleResult dev now w).state.timerArmings = w.timerArmings) ∧
    (∀ (w : TimeoutSerialThread) (now : Int), w.result_ = .resultTimeoutExpired →
      (handleResult dev now w).isRunning = true →
      (handleResult dev now w).state.timerWaits = 1 ∧
      (handleResult dev now w).state.pendingReads = w.pendingReads) ∧
    (∀ (w : TimeoutSerialThread) (now : Int), w.result_ = .resultInProgress →
      handleResult dev now w = .running w) := by
  refine ⟨start_waiting t0 s hidle, ?_, ?_, ?_, ?_, ?_, ?_⟩
  · intro sched hrun
    exact runLoop_waiting dev sched (start t0 s) (start_waiting t0 s hidle) hrun
  · intro w ev now hw hrun
    exact iteration_waiting dev ev now w hw hrun
  · intro w ev hw
    rcases run_one_of_waiting ev w hw with h | h | h | h
    · exact Or.inl h
    · exact Or.inr (Or.inl h)
    · exact Or.inr (Or.inr (Or.inl h))
    · exact Or.inr (Or.inr (Or.inr ⟨h, handleResult_error_not_running dev 0 _ h⟩))
  · intro w now hres hrun
    obtain ⟨t1, -, t3, t4⟩ := handleResult_success_timer dev now w hres
    exact ⟨(t4 hrun).1, t3, t1⟩
  · intro w now hres hrun
    obtain ⟨-, -, t3, t4, -⟩ := handleResult_timeout_timer dev now w hres hrun
    exact ⟨t3, t4⟩
  · intro w now hres
    exact handleResult_inProgress dev now w hres

/-- C23 on a reader with a per-cycle timeout of 5 s that receives `a`, sees the timer expire at
5 s, then receives `b` and the delimiter: the loop waits with one read and one timer wait
outstanding. -/
theorem one_read_and_one_timer_wait_witness :
    ((openedReader [10]).setTimeout 5).pendingReads = 0 ∧
    (operatorCall goodDevice 0 [(.bytes [97], 3), (.timerExpired, 5), (.bytes [98, 10], 6)]
      ((openedReader [10]).setTimeout 5)).isRunning = true ∧
    Waiting (operatorCall goodDevice 0
      [(.bytes [97], 3), (.timerExpired, 5), (.bytes [98, 10], 6)]
      ((openedReader [10]).setTimeout 5)).state :=
  ⟨by decide, by decide,
   (one_read_and_one_timer_wait goodDevice 0 ((openedReader [10]).setTimeout 5)
      (by decide)).2.1 [(.bytes [97], 3), (.timerExpired, 5), (.bytes [98, 10], 6)]
      (by decide)⟩

theorem close_flags (dev : Device) (s : TimeoutSerialThread) :
    (s.close dev).state.isAlive_ = s.isAlive_ ∧
    (s.close dev).state.stopRequested_ = s.stopRequested_ ∧
    (s.close dev).state.cleanupCalls = s.cleanupCalls := by
  cases hp : s.portOpen <;> cases hc : dev.closeOk <;>
    simp [close, isOpen, hp, hc, Outcome.state]

theorem openAttempts_flags (dev : Device) (n : Nat) :
    ∀ s : TimeoutSerialThread,
      (openAttempts dev n s).2.isAlive_ = s.isAlive_ ∧
      (openAttempts dev n s).2.stopRequested_ = s.stopRequested_ ∧
      (openAttempts dev n s).2.cleanupCalls = s.cleanupCalls := by
  induction n using Nat.strong_induction_on with
  | _ n ih =>
    intro s
    match n with
    | 0 => unfold openAttempts; split <;> simp
    | 1 => unfold openAttempts; split <;> simp
    | k + 2 =>
      unfold openAttempts
      split
      · simp
      · have := ih (k + 1) (by omega) { s with portOpenCalls := s.portOpenCalls + 1 }
        simpa using this

theorem setOptions_flags (dev : Device) (os : List PortOption) :
    ∀ s : TimeoutSerialThread,
      (setOptions dev os s).state.isAlive_ = s.isAlive_ ∧
      (setOptions dev os s).state.stopRequested_ = s.stopRequested_ ∧
      (setOptions dev os s).state.cleanupCalls = s.cleanupCalls := by
  induction os with
  | nil => intro s; simp [setOptions, Outcome.state]
  | cons o os ih =>
    intro s
    simp only [setOptions]
    split
    · have := ih { s with portOptions := s.portOptions ++ [o] }
      simpa using this
    · simp [Outcome.state]

theorem open_flags (dev : Device) (s : TimeoutSerialThread) :
    (s.open_ dev).state.isAlive_ = s.isAlive_ ∧
    (s.open_ dev).state.stopRequested_ = s.stopRequested_ ∧
    (s.open_ dev).state.cleanupCalls = s.cleanupCalls := by
  have hattempt : ∀ t : TimeoutSerialThread,
      (match openAttempts dev 3 t with
        | (true, u) => configure dev u
        | (false, u) => Outcome.returned false u).state.isAlive_ = t.isAlive_ ∧
      (match openAttempts dev 3 t with
        | (true, u) => configure dev u
        | (false, u) => Outcome.returned false u).state.stopRequested_ = t.stopRequested_ ∧
      (match openAttempts dev 3 t with
        | (true, u) => configure dev u
        | (false, u) => Outcome.returned false u).state.cleanupCalls = t.cleanupCalls := by
    intro t
    obtain ⟨a1, a2, a3⟩ := openAttempts_flags dev 3 t
    cases hoa : openAttempts dev 3 t with
    | mk b u =>
      rw [hoa] at a1 a2 a3
      simp only at a1 a2 a3
      cases b
      · simp only [Outcome.state]
        exact ⟨a1, a2, a3⟩
      · obtain ⟨o1, o2, o3⟩ := setOptions_flags dev
          [.baud_rate, .parity, .character_size, .flow_control, .stop_bits] u
        simp only [configure]
        cases hso : setOptions dev
            [.baud_rate, .parity, .character_size, .flow_control, .stop_bits] u with
        | returned v x =>
          rw [hso] at o1 o2 o3
          simp only [Outcome.state] at o1 o2 o3 ⊢
          exact ⟨o1.trans a1, o2.trans a2, o3.trans a3⟩
        | raised x =>
          rw [hso] at o1 o2 o3
          simp only [Outcome.state] at o1 o2 o3 ⊢
          exact ⟨o1.trans a1, o2.trans a2, o3.trans a3⟩
  rw [open_eq]
  split
  · simp [Outcome.state]
  · obtain ⟨h1, h2, h3⟩ := hattempt
      (if s.portOpen = true then
        { s with portOpen := false, portOptions := [], pendingReads := 0 }
       else s)
    refine ⟨h1.trans ?_, h2.trans ?_, h3.trans ?_⟩ <;> split <;> rfl

theorem terminate_flags (dev : Device) (s : TimeoutSerialThread) :
    (terminate dev s).state.cleanupCalls = s.cleanupCalls + 1 ∧
    ((terminate dev s).state.isAlive_ = false ∨
      (terminate dev s).state.isAlive_ = s.isAlive_) := by
  cases hp : s.portOpen <;> cases hc : dev.closeOk <;>
    simp [terminate, cleanup, close, isOpen, portCancel, setAlive, hp, hc, Step.state]

theorem run_one_isAlive (ev : Event) (s : TimeoutSerialThread) :
    (run_one ev s).isAlive_ = s.isAlive_ := by
  cases ev with
  | bytes c =>
    simp only [run_one]
    split <;> simp [readCompleted]
  | readFailed => simp [run_one, readCompleted]
  | timerExpired => simp [run_one, timeoutExpired]
  | timerFailed => simp [run_one, timeoutExpired]

theorem handleResult_isAlive (dev : Device) (now : Int) (s : TimeoutSerialThread) :
    ((handleResult dev now s).state.cleanupCalls = s.cleanupCalls ∧
      (handleResult dev now s).state.isAlive_ = s.isAlive_) ∨
    ((handleResult dev now s).state.cleanupCalls = s.cleanupCalls + 1 ∧
      ((handleResult dev now s).state.isAlive_ = false ∨
        (handleResult dev now s).state.isAlive_ = s.isAlive_)) := by
  by_cases hexit : ExitCondition now s
  · right
    rw [handleResult_exit dev now s hexit]
    exact terminate_flags dev (timerCancel s)
  · left
    refine ⟨(handleResult_no_exit dev now s hexit).2.1, ?_⟩
    cases hres : s.result_
    · simp [handleResult, hres, Step.state]
    · simp only [handleResult, hres, onSuccess]
      split <;> simp [Step.state, portCancel, asyncReadUntil]
    · exact absurd (Or.inr (Or.inl hres)) hexit
    · have hstop : s.stopRequested_ = false := by
        cases hh : s.stopRequested_
        · rfl
        · exact absurd (Or.inl ⟨hres, Or.inl hh⟩) hexit
      have hlate : ¬ (now - s.lastMessageTime ≥ MESSAGE_TIMEOUT) :=
        fun hh => hexit (Or.inl ⟨hres, Or.inr hh⟩)
      simp [handleResult, hres, onTimeoutExpired, isStopRequested, timerCancel, hstop, hlate,
        Step.state, timerAsyncWait, timerExpiresFromNow]
    · exact absurd (Or.inr (Or.inr hres)) hexit

theorem perform_flags (dev : Device) (s : TimeoutSerialThread) (op : Operation) :
    (((s.perform dev op).cleanupCalls = s.cleanupCalls ∧
        (s.perform dev op).isAlive_ = s.isAlive_) ∨
      ((s.perform dev op).cleanupCalls = s.cleanupCalls + 1 ∧
        ((s.perform dev op).isAlive_ = false ∨ (s.perform dev op).isAlive_ = s.isAlive_))) ∧
    ((s.perform dev op).stopRequested_ = s.stopRequested_ ∨
      (op = .requestStop ∧ (s.perform dev op).stopRequested_ = true)) := by
  cases op with
  | openPort =>
    obtain ⟨h1, h2, h3⟩ := open_flags dev s
    exact ⟨Or.inl ⟨h3, h1⟩, Or.inl h2⟩
  | isOpen => exact ⟨Or.inl ⟨rfl, rfl⟩, Or.inl rfl⟩
  | close =>
    obtain ⟨h1, h2, h3⟩ := close_flags dev s
    exact ⟨Or.inl ⟨h3, h1⟩, Or.inl h2⟩
  | setTimeout t => exact ⟨Or.inl ⟨rfl, rfl⟩, Or.inl rfl⟩
  | write data => exact ⟨Or.inl ⟨rfl, rfl⟩, Or.inl rfl⟩
  | isAlive => exact ⟨Or.inl ⟨rfl, rfl⟩, Or.inl rfl⟩
  | requestStop => exact ⟨Or.inl ⟨rfl, rfl⟩, Or.inr ⟨rfl, rfl⟩⟩
  | enterLoop now =>
    refine ⟨Or.inl ⟨?_, ?_⟩, Or.inl ?_⟩ <;>
      by_cases ht : s.timeout_ = 0 <;>
      simp [TimeoutSerialThread.perform, start, ht, asyncReadUntil, timerAsyncWait,
        timerExpiresFromNow]
  | iterate ev now =>
    refine ⟨?_, Or.inl ?_⟩
    · have h := handleResult_isAlive dev now (run_one ev s)
      rw [run_one_cleanupCalls, run_one_isAlive] at h
      exact h
    · show (handleResult dev now (run_one ev s)).state.stopRequested_ = s.stopRequested_
      rw [handleResult_stopRequested, run_one_stopRequested]
  | pop => exact ⟨Or.inl ⟨rfl, rfl⟩, Or.inl rfl⟩

theorem performAll_flags (dev : Device) (ops : List Operation) :
    ∀ s : TimeoutSerialThread,
      s.cleanupCalls ≤ (s.performAll dev ops).cleanupCalls ∧
      ((s.performAll dev ops).cleanupCalls = s.cleanupCalls →
        (s.performAll dev ops).isAlive_ = s.isAlive_) ∧
      (s.isAlive_ = false → (s.performAll dev ops).isAlive_ = false) ∧
      (s.stopRequested_ = true → (s.performAll dev ops).stopRequested_ = true) ∧
      (Operation.requestStop ∉ ops →
        (s.performAll dev ops).stopRequested_ = s.stopRequested_) := by
  induction ops with
  | nil => intro s; simp [TimeoutSerialThread.performAll]
  | cons op ops ih =>
    intro s
    have hcons : s.performAll dev (op :: ops) = (s.perform dev op).performAll dev ops := rfl
    rw [hcons]
    obtain ⟨i1, i2, i3, i4, i5⟩ := ih (s.perform dev op)
    obtain ⟨p1, p2⟩ := perform_flags dev s op
    refine ⟨?_, ?_, ?_, ?_, ?_⟩
    · rcases p1 with ⟨c, -⟩ | ⟨c, -⟩ <;> omega
    · intro heq
      rcases p1 with ⟨c, a⟩ | ⟨c, -⟩
      · rw [i2 (by omega), a]
      · omega
    · intro hdead
      apply i3
      rcases p1 with ⟨-, a⟩ | ⟨-, a | a⟩
      · rw [a, hdead]
      · exact a
      · rw [a, hdead]
    · intro hstop
      apply i4
      rcases p2 with a | ⟨-, a⟩
      · rw [a, hstop]
      · exact a
    · intro hno
      have hop : op ≠ .requestStop := fun e => hno (by simp [e])
      have hops : Operation.requestStop ∉ ops := fun e => hno (by simp [e])
      rw [i5 hops]
      rcases p2 with a | ⟨e, -⟩
      · exact a
      · exact absurd e hop

/-- C24. Both constructors leave `isAlive()` true and the stop request false. Over every
sequence of operations on the object (calls of the public members by the owner, the preamble
and the iterations of `operator()`, pops of the consumer): `isAlive()` keeps the value it had
as long as `cleanup()` has not been entered, so it is true from construction until then; once
false it is false after every further operation; a `cleanup()` that completes leaves it false;
a stop request once true stays true, and it changes only through `requestStop()`, which sets
it to true and changes no other field. -/
theorem flags_are_monotone (dev : Device) :
    (mkWriter.isAlive = true ∧ mkWriter.isStopRequested = false ∧
      mkWriter.cleanupCalls = 0) ∧
    (∀ (delim : List Byte) (queue : ThreadSafeQueue Message),
      (mkReader delim queue).isAlive = true ∧ (mkReader delim queue).isStopRequested = false ∧
      (mkReader delim queue).cleanupCalls = 0) ∧
    (∀ (ops : List Operation) (s : TimeoutSerialThread),
      (s.performAll dev ops).cleanupCalls = s.cleanupCalls →
      (s.performAll dev ops).isAlive = s.isAlive) ∧
    (∀ (ops : List Operation) (s : TimeoutSerialThread),
      s.isAlive = false → (s.performAll dev ops).isAlive = false) ∧
    (∀ s : TimeoutSerialThread, (s.cleanup dev).isRaised = false →
      (s.cleanup dev).state.isAlive = false) ∧
    (∀ (ops : List Operation) (s : TimeoutSerialThread),
      s.isStopRequested = true → (s.performAll dev ops).isStopRequested = true) ∧
    (∀ (ops : List Operation) (s : TimeoutSerialThread),
      Operation.requestStop ∉ ops →
      (s.performAll dev ops).isStopRequested = s.isStopRequested) ∧
    (∀ s : TimeoutSerialThread,
      s.requestStop.isStopRequested = true ∧
      s.requestStop = { s with stopRequested_ := true }) := by
  refine ⟨by decide, fun delim queue => ⟨rfl, rfl, rfl⟩, ?_, ?_, ?_, ?_, ?_, ?_⟩
  · intro ops s h
    exact (performAll_flags dev ops s).2.1 h
  · intro ops s h
    exact (performAll_flags dev ops s).2.2.1 h
  · intro s
    cases hp : s.portOpen <;> cases hc : dev.closeOk <;>
      simp [cleanup, close, isOpen, isAlive, portCancel, setAlive, hp, hc, Outcome.state,
        Outcome.isRaised]
  · intro ops s h
    exact (performAll_flags dev ops s).2.2.2.1 h
  · intro ops s h
    exact (performAll_flags dev ops s).2.2.2.2 h
  · intro s
    exact ⟨rfl, rfl⟩

/-- C24 on a reader that is opened, started, asked to stop, sees the timer expire, and is then
opened and started again: the stop request is true and `isAlive()` is false at the end. -/
theorem flags_are_monotone_witness :
    (((mkReader [10] { m_queue := [] }).performAll goodDevice
        [.openPort, .enterLoop 0, .requestStop, .iterate .timerExpired 1]).isAlive = false) ∧
    (((mkReader [10] { m_queue := [] }).performAll goodDevice
        [.openPort, .enterLoop 0, .requestStop, .iterate .timerExpired 1]).performAll goodDevice
        [.openPort, .enterLoop 2, .iterate (.bytes [97, 10]) 3]).isAlive = false :=
  ⟨by decide,
   (flags_are_monotone goodDevice).2.2.2.1
     [.openPort, .enterLoop 2, .iterate (.bytes [97, 10]) 3]
     ((mkReader [10] { m_queue := [] }).performAll goodDevice
        [.openPort, .enterLoop 0, .requestStop, .iterate .timerExpired 1]) (by decide)⟩

end SciTest
